import Mathlib

/-! # eth_embedded_signer: RLP encoder and transaction encoder

A shallow embedding of `src/rlp.c`, `src/transaction.c` and `src/crypto.c`.

* Bytes (`uint8_t`) and machine words (`size_t`, `uint64_t`) are natural numbers; every
  place where the C code narrows a value is written with an explicit `%`.
* `size_t` is taken to be 64 bits wide (the code stores a `size_t` in an 8-byte array).
* Memory (`uint8_t *`) is a `List Nat`; a pointer that may be `NULL` is an `Option`.
* A C function that returns a status code and mutates its arguments returns the status code
  together with the new value of what it mutated.
-/

namespace EthSigner

/-! ## rlp.c -/

/-- Number of values of a `size_t`, and of a `uint64_t` (64 bits). -/
abbrev SIZE_MOD : Nat := 18446744073709551616

abbrev RLP_SINGLE_BYTE_PREFIX : Nat := 0x80
abbrev RLP_SHORT_STRING_PREFIX : Nat := 0x80
abbrev RLP_LONG_STRING_PREFIX : Nat := 0xb7
abbrev RLP_SHORT_LIST_PREFIX : Nat := 0xc0
abbrev RLP_LONG_LIST_PREFIX : Nat := 0xf7

abbrev RLP_ERROR_NONE : Int := 0
abbrev RLP_ERROR_BUFFER_OVERFLOW : Int := -1
abbrev RLP_ERROR_INVALID_PARAM : Int := -2

/-- The encoder context `rlp_encoder_t`: output buffer, its size, and the current length of
encoded data (the write cursor). -/
structure rlp_encoder_t where
  buffer : List Nat
  buffer_size : Nat
  length : Nat
deriving DecidableEq, Repr

/-- C `memcpy(dst + off, src, n)` (and `memmove`, whose source is read before any write):
the bytes `src[0..n)` replace `dst[off..off+n)`. -/
def memcpy (dst : List Nat) (off : Nat) (src : List Nat) (n : Nat) : List Nat :=
  dst.take off ++ src.take n ++ dst.drop (off + n)

/-- Insert bytes into buffer with bounds checking. -/
def rlp_insert (encoder : rlp_encoder_t) (data : List Nat) (length : Nat) :
    Int × rlp_encoder_t :=
  if (encoder.length + length) % SIZE_MOD > encoder.buffer_size then
    (RLP_ERROR_BUFFER_OVERFLOW, encoder)
  else
    (RLP_ERROR_NONE,
      { encoder with
        buffer := memcpy encoder.buffer encoder.length data length
        length := (encoder.length + length) % SIZE_MOD })

/-- Insert a single byte into buffer with bounds checking. -/
def rlp_insert_byte (encoder : rlp_encoder_t) (byte : Nat) : Int × rlp_encoder_t :=
  if (encoder.length + 1) % SIZE_MOD > encoder.buffer_size then
    (RLP_ERROR_BUFFER_OVERFLOW, encoder)
  else
    (RLP_ERROR_NONE,
      { encoder with
        buffer := encoder.buffer.set encoder.length byte
        length := (encoder.length + 1) % SIZE_MOD })

/-- The loop `do { bytes[n++] = temp & 0xFF; temp >>= 8; } while (temp > 0);`.
The target array has 8 slots, so the loop is unrolled at most `fuel = 8` times; the result is
the list of bytes stored, least significant first, and its length is the final `n`. -/
def le_bytes_loop : Nat → Nat → List Nat
  | 0, _ => []
  | fuel + 1, temp =>
    (temp &&& 0xFF) :: (if temp >>> 8 > 0 then le_bytes_loop fuel (temp >>> 8) else [])

/-- The in-place reversal loop
`for (i = 0; i < n / 2; i++) { t = a[i]; a[i] = a[n - i - 1]; a[n - i - 1] = t; }`. -/
def reverse_in_place (a : List Nat) (n : Nat) : List Nat :=
  (List.range (n / 2)).foldl
    (fun a i =>
      let temp := a.getD i 0
      (a.set i (a.getD (n - i - 1) 0)).set (n - i - 1) temp)
    a

/-- The copying reversal loop `for (i = 0; i < n; i++) encoded[i] = bytes[n - i - 1];`. -/
def reverse_copy (bytes : List Nat) (n : Nat) : List Nat :=
  (List.range n).map (fun i => bytes.getD (n - i - 1) 0)

/-- Write length prefix for string/list with bounds checking. -/
def rlp_write_length_prefix (encoder : rlp_encoder_t) (length : Nat) ( base_prefix : Nat) :
    Int × rlp_encoder_t :=
  if length < 56 then
    rlp_insert_byte encoder (( base_prefix + length) % 256)
  else
    let length_bytes := le_bytes_loop 8 length
    let length_size := length_bytes.length
    let length_bytes := reverse_in_place length_bytes length_size
    let r := rlp_insert_byte encoder (( base_prefix + 55 + length_size) % 256)
    if r.1 ≠ RLP_ERROR_NONE then
      (RLP_ERROR_BUFFER_OVERFLOW, r.2)
    else
      rlp_insert r.2 length_bytes length_size

/-- Initialise an encoder; `encoder` and `buffer` are pointers that may be `NULL`. -/
def rlp_encoder_init (encoder : Option rlp_encoder_t) (buffer : Option (List Nat))
    (buffer_size : Nat) : Int × Option rlp_encoder_t :=
  match encoder, buffer with
  | some _, some buf =>
    if buffer_size = 0 then (RLP_ERROR_INVALID_PARAM, encoder)
    else (RLP_ERROR_NONE, some { buffer := buf, buffer_size := buffer_size, length := 0 })
  | _, _ => (RLP_ERROR_INVALID_PARAM, encoder)

/-- Begin a list: returns the status, the encoder, and the value stored in `*marker`.
(Every caller passes the address of a live encoder and of a local marker.) -/
def rlp_begin_list (encoder : rlp_encoder_t) : Int × rlp_encoder_t × Nat :=
  let marker := encoder.length
  let r := rlp_insert_byte encoder RLP_SHORT_LIST_PREFIX
  (r.1, r.2, marker)

/-- End (finalise) a list opened at `marker`. -/
def rlp_end_list (encoder : rlp_encoder_t) (marker : Nat) : Int × rlp_encoder_t :=
  if marker ≥ encoder.length then
    (RLP_ERROR_INVALID_PARAM, encoder)
  else
    let list_length := encoder.length - marker - 1
    if list_length < 56 then
      (RLP_ERROR_NONE,
        { encoder with
          buffer := encoder.buffer.set marker ((RLP_SHORT_LIST_PREFIX + list_length) % 256) })
    else
      let length_bytes := le_bytes_loop 8 list_length
      let length_size := length_bytes.length
      let length_bytes := reverse_in_place length_bytes length_size
      if (encoder.length + length_size) % SIZE_MOD > encoder.buffer_size then
        (RLP_ERROR_BUFFER_OVERFLOW, encoder)
      else
        let moved := memcpy encoder.buffer (marker + 1 + length_size)
          (encoder.buffer.drop (marker + 1)) list_length
        let prefixed := moved.set marker ((RLP_LONG_LIST_PREFIX + length_size) % 256)
        (RLP_ERROR_NONE,
          { encoder with
            buffer := memcpy prefixed (marker + 1) length_bytes length_size
            length := (encoder.length + length_size) % SIZE_MOD })

/-- Encode a single byte (`uint8_t value`). -/
def rlp_encode_byte (encoder : rlp_encoder_t) (value : Nat) : Int × rlp_encoder_t :=
  if value = 0 then
    rlp_insert_byte encoder RLP_SINGLE_BYTE_PREFIX
  else if value < 0x80 then
    rlp_insert_byte encoder value
  else
    let r := rlp_insert_byte encoder (RLP_SHORT_STRING_PREFIX + 1)
    if r.1 ≠ RLP_ERROR_NONE then
      (RLP_ERROR_BUFFER_OVERFLOW, r.2)
    else
      rlp_insert_byte r.2 value

/-- Encode a byte array; `data` may be `NULL` (`none`). -/
def rlp_encode_bytes (encoder : rlp_encoder_t) (data : Option (List Nat)) (length : Nat) :
    Int × rlp_encoder_t :=
  match data with
  | none =>
    if length > 0 then (RLP_ERROR_INVALID_PARAM, encoder)
    else rlp_insert_byte encoder RLP_SINGLE_BYTE_PREFIX
  | some d =>
    if length = 0 then
      rlp_insert_byte encoder RLP_SINGLE_BYTE_PREFIX
    else if length = 1 ∧ d.getD 0 0 < 0x80 then
      rlp_insert_byte encoder (d.getD 0 0)
    else
      let r := rlp_write_length_prefix encoder length RLP_SHORT_STRING_PREFIX
      if r.1 ≠ RLP_ERROR_NONE then r
      else rlp_insert r.2 d length

/-- Encode an unsigned integer (`uint64_t value`). -/
def rlp_encode_uint (encoder : rlp_encoder_t) (value : Nat) : Int × rlp_encoder_t :=
  if value = 0 then
    rlp_insert_byte encoder RLP_SINGLE_BYTE_PREFIX
  else
    let bytes := le_bytes_loop 8 value
    let length := bytes.length
    let encoded := reverse_copy bytes length
    rlp_encode_bytes encoder (some encoded) length

/-- Current length of encoded data. -/
def rlp_get_length (encoder : Option rlp_encoder_t) : Nat :=
  match encoder with
  | some e => e.length
  | none => 0

/-! ## crypto.c (stub primitives, as in the source) -/

abbrev CRYPTO_ERROR_NONE : Int := 0
abbrev CRYPTO_ERROR_INVALID : Int := -1

/-- A 32-byte hash `eth_hash_t`. -/
structure eth_hash_t where
  data : List Nat
deriving DecidableEq, Repr

/-- A 64-byte signature `eth_signature_t` (r followed by s). -/
structure eth_signature_t where
  data : List Nat
deriving DecidableEq, Repr

/-- A 32-byte private key `eth_private_key_t`. -/
structure eth_private_key_t where
  data : List Nat
deriving DecidableEq, Repr

/-- The hash stub `eth_keccak256(input, input_len, output)`. -/
def eth_keccak256 (input : Option (List Nat)) (input_len : Nat) (output : Option eth_hash_t) :
    Int × Option eth_hash_t :=
  if input.isNone ∧ input_len > 0 then (CRYPTO_ERROR_INVALID, output)
  else
    match output with
    | none => (CRYPTO_ERROR_INVALID, output)
    | some _ =>
      let inp := input.getD []
      let d := List.replicate 32 0
      let d := d.set 0 ((input_len >>> 24) &&& 0xFF)
      let d := d.set 1 ((input_len >>> 16) &&& 0xFF)
      let d := d.set 2 ((input_len >>> 8) &&& 0xFF)
      let d := d.set 3 (input_len &&& 0xFF)
      let d :=
        if input_len > 0 then
          let d := d.set 4 (inp.getD 0 0)
          let d := d.set 5 (inp.getD (input_len / 2) 0)
          let d := d.set 6 (inp.getD (input_len - 1) 0)
          (List.range (min input_len 32)).foldl
            (fun d i => d.set (i % 32) (d.getD (i % 32) 0 ^^^ inp.getD i 0)) d
        else d
      (CRYPTO_ERROR_NONE, some { data := d })

/-- The signing stub `eth_sign(msg_hash, private_key, signature)`. -/
def eth_sign (msg_hash : Option eth_hash_t) (private_key : Option eth_private_key_t)
    (signature : Option eth_signature_t) : Int × Option eth_signature_t :=
  match msg_hash, private_key, signature with
  | some h, some k, some _ =>
    let r := (List.range 32).map (fun i => k.data.getD i 0 ^^^ h.data.getD i 0)
    let s := (List.range 32).map (fun i => k.data.getD i 0 ^^^ h.data.getD (31 - i) 0)
    (CRYPTO_ERROR_NONE, some { data := r ++ s })
  | _, _, _ => (CRYPTO_ERROR_INVALID, signature)

/-! ## transaction.c -/

abbrev TX_ERROR_NONE : Int := 0
abbrev TX_ERROR_INVALID : Int := -1
abbrev TX_ERROR_BUFFER_SMALL : Int := -2
abbrev TX_ERROR_UNSUPPORTED : Int := -3

abbrev ETH_LEGACY_TX : Nat := 0
abbrev ETH_EIP2930_TX : Nat := 1
abbrev ETH_EIP1559_TX : Nat := 2

/-- The transaction structure `eth_transaction_t`. The fixed arrays (`to[20]`, `value[32]`, …)
are lists (`to_` is the field `to`); `data` is a pointer that may be `NULL`; `tx_type` is the
enum's integer value. -/
structure eth_transaction_t where
  tx_type : Nat
  nonce : Nat
  to_ : List Nat
  to_len : Nat
  value : List Nat
  value_len : Nat
  data : Option (List Nat)
  data_len : Nat
  chain_id : Nat
  gas_price : List Nat
  gas_price_len : Nat
  max_priority_fee : List Nat
  max_priority_fee_len : Nat
  max_fee : List Nat
  max_fee_len : Nat
  gas_limit : Nat
  v : Nat
  r : List Nat
  s : List Nat
deriving DecidableEq, Repr

/-- Initialise a transaction structure: `memset` to zero, then set the type. -/
def eth_tx_init (tx : Option eth_transaction_t) (tx_type : Nat) :
    Int × Option eth_transaction_t :=
  match tx with
  | none => (TX_ERROR_INVALID, none)
  | some _ =>
    (TX_ERROR_NONE, some
      { tx_type := tx_type, nonce := 0, to_ := List.replicate 20 0, to_len := 0,
        value := List.replicate 32 0, value_len := 0, data := none, data_len := 0,
        chain_id := 0, gas_price := List.replicate 32 0, gas_price_len := 0,
        max_priority_fee := List.replicate 32 0, max_priority_fee_len := 0,
        max_fee := List.replicate 32 0, max_fee_len := 0, gas_limit := 0,
        v := 0, r := List.replicate 32 0, s := List.replicate 32 0 })

/-- The idiom `result = f(...); if (result != 0) return result;` followed by the rest `k`. -/
def check (r : Int × rlp_encoder_t) (k : rlp_encoder_t → Int × rlp_encoder_t) :
    Int × rlp_encoder_t :=
  if r.1 ≠ 0 then r else k r.2

/-- Helper function to encode a transaction field as bytes (`uint8_t length`). -/
def encode_tx_field_bytes (encoder : rlp_encoder_t) (data : List Nat) (length : Nat) :
    Int × rlp_encoder_t :=
  rlp_encode_bytes encoder (some data) length

/-- Helper function to encode a transaction field as uint. -/
def encode_tx_field_uint (encoder : rlp_encoder_t) (value : Nat) : Int × rlp_encoder_t :=
  rlp_encode_uint encoder value

/-- Helper function to encode transaction data field. -/
def encode_tx_data (encoder : rlp_encoder_t) (data : Option (List Nat)) (length : Nat) :
    Int × rlp_encoder_t :=
  if data.isNone ∧ length > 0 then (TX_ERROR_INVALID, encoder)
  else rlp_encode_bytes encoder data length

/-- The `to` field: `rlp_encode_bytes(encoder, NULL, 0)` when `to_len == 0`, else the address. -/
def encode_tx_to (tx : eth_transaction_t) (encoder : rlp_encoder_t) : Int × rlp_encoder_t :=
  if tx.to_len = 0 then rlp_encode_bytes encoder none 0
  else rlp_encode_bytes encoder (some tx.to_) tx.to_len

/-- The empty access list: `rlp_begin_list` immediately followed by `rlp_end_list`. -/
def encode_tx_access_list (encoder : rlp_encoder_t) : Int × rlp_encoder_t :=
  let b := rlp_begin_list encoder
  check (b.1, b.2.1) fun e => rlp_end_list e b.2.2

/-- The signature fields `v`, `r`, `s` (present in all three branches). -/
def encode_tx_signature (tx : eth_transaction_t) (encoder : rlp_encoder_t) :
    Int × rlp_encoder_t :=
  check (rlp_encode_byte encoder tx.v) fun e =>
  check (rlp_encode_bytes e (some tx.r) 32) fun e =>
  rlp_encode_bytes e (some tx.s) 32

/-- The fields written between the outer `rlp_begin_list` and `rlp_end_list`, by kind. -/
def encode_tx_fields (tx : eth_transaction_t) (encoder : rlp_encoder_t)
    (include_signature : Bool) : Int × rlp_encoder_t :=
  if tx.tx_type = ETH_LEGACY_TX then
    check (encode_tx_field_uint encoder tx.nonce) fun e =>
    check (encode_tx_field_bytes e tx.gas_price tx.gas_price_len) fun e =>
    check (encode_tx_field_uint e tx.gas_limit) fun e =>
    check (encode_tx_to tx e) fun e =>
    check (encode_tx_field_bytes e tx.value tx.value_len) fun e =>
    check (encode_tx_data e tx.data tx.data_len) fun e =>
    if include_signature then
      check (encode_tx_signature tx e) fun e => (0, e)
    else
      check (rlp_encode_uint e tx.chain_id) fun e =>
      check (rlp_encode_bytes e none 0) fun e =>
      check (rlp_encode_bytes e none 0) fun e => (0, e)
  else if tx.tx_type = ETH_EIP2930_TX then
    check (encode_tx_field_uint encoder tx.chain_id) fun e =>
    check (encode_tx_field_uint e tx.nonce) fun e =>
    check (encode_tx_field_bytes e tx.gas_price tx.gas_price_len) fun e =>
    check (encode_tx_field_uint e tx.gas_limit) fun e =>
    check (encode_tx_to tx e) fun e =>
    check (encode_tx_field_bytes e tx.value tx.value_len) fun e =>
    check (encode_tx_data e tx.data tx.data_len) fun e =>
    check (encode_tx_access_list e) fun e =>
    if include_signature then
      check (encode_tx_signature tx e) fun e => (0, e)
    else (0, e)
  else if tx.tx_type = ETH_EIP1559_TX then
    check (encode_tx_field_uint encoder tx.chain_id) fun e =>
    check (encode_tx_field_uint e tx.nonce) fun e =>
    check (encode_tx_field_bytes e tx.max_priority_fee tx.max_priority_fee_len) fun e =>
    check (encode_tx_field_bytes e tx.max_fee tx.max_fee_len) fun e =>
    check (encode_tx_field_uint e tx.gas_limit) fun e =>
    check (encode_tx_to tx e) fun e =>
    check (encode_tx_field_bytes e tx.value tx.value_len) fun e =>
    check (encode_tx_data e tx.data tx.data_len) fun e =>
    check (encode_tx_access_list e) fun e =>
    if include_signature then
      check (encode_tx_signature tx e) fun e => (0, e)
    else (0, e)
  else
    (TX_ERROR_UNSUPPORTED, encoder)

/-- Helper function to encode a transaction based on type: open the list, write the fields
of the kind (an unknown kind returns `TX_ERROR_UNSUPPORTED` at once), close the list. -/
def encode_tx_by_type (tx : eth_transaction_t) (encoder : rlp_encoder_t)
    (include_signature : Bool) : Int × rlp_encoder_t :=
  let b := rlp_begin_list encoder
  check (b.1, b.2.1) fun e =>
  check (encode_tx_fields tx e include_signature) fun e =>
  rlp_end_list e b.2.2

/-- The common body of `eth_tx_encode` and `eth_tx_encode_signed`, which differ only in the
`include_signature` argument they hand to `encode_tx_by_type`. Returns the status, the buffer
and `*output_size`. -/
def eth_tx_encode_with (include_signature : Bool) (tx : Option eth_transaction_t)
    (buffer : Option (List Nat)) (buffer_size : Nat) (output_size : Option Nat) :
    Int × Option (List Nat) × Option Nat :=
  match tx, buffer, output_size with
  | some t, some buf, some _ =>
    if buffer_size = 0 then (TX_ERROR_INVALID, buffer, output_size)
    else
      match rlp_encoder_init (some { buffer := [], buffer_size := 0, length := 0 })
          (some buf) buffer_size with
      | (result, some encoder) =>
        if result ≠ 0 then (result, buffer, output_size)
        else
          let r :=
            check
              (if t.tx_type = ETH_EIP2930_TX then rlp_encode_byte encoder 0x01
               else if t.tx_type = ETH_EIP1559_TX then rlp_encode_byte encoder 0x02
               else (0, encoder))
              fun e => encode_tx_by_type t e include_signature
          if r.1 ≠ 0 then (r.1, some r.2.buffer, output_size)
          else (TX_ERROR_NONE, some r.2.buffer, some (rlp_get_length (some r.2)))
      | (result, none) => (result, buffer, output_size)
  | _, _, _ => (TX_ERROR_INVALID, buffer, output_size)

/-- RLP encode a transaction (unsigned). -/
def eth_tx_encode (tx : Option eth_transaction_t) (buffer : Option (List Nat))
    (buffer_size : Nat) (output_size : Option Nat) : Int × Option (List Nat) × Option Nat :=
  eth_tx_encode_with false tx buffer buffer_size output_size

/-- RLP encode a signed transaction. -/
def eth_tx_encode_signed (tx : Option eth_transaction_t) (buffer : Option (List Nat))
    (buffer_size : Nat) (output_size : Option Nat) : Int × Option (List Nat) × Option Nat :=
  eth_tx_encode_with true tx buffer buffer_size output_size

/-- Hash a transaction for signing. `stack` is the content of the local array
`uint8_t buffer[1024]` on entry (it is not initialised by the code). -/
def eth_tx_hash (tx : Option eth_transaction_t) (hash : Option eth_hash_t)
    (stack : List Nat) : Int × Option eth_hash_t :=
  match tx, hash with
  | some _, some _ =>
    let r := eth_tx_encode tx (some stack) 1024 (some 0)
    if r.1 ≠ 0 then (r.1, hash)
    else eth_keccak256 r.2.1 (r.2.2.getD 0) hash
  | _, _ => (TX_ERROR_INVALID, hash)

/-- Sign a transaction with a private key. -/
def eth_tx_sign (tx : Option eth_transaction_t) (private_key : Option eth_private_key_t)
    (stack : List Nat) : Int × Option eth_transaction_t :=
  match tx, private_key with
  | some t, some _ =>
    let h := eth_tx_hash tx (some { data := List.replicate 32 0 }) stack
    if h.1 ≠ 0 then (h.1, tx)
    else
      let sg := eth_sign h.2 private_key (some { data := List.replicate 64 0 })
      if sg.1 ≠ 0 then (sg.1, tx)
      else
        let signature := (sg.2.getD { data := [] }).data
        let t := { t with r := signature.take 32, s := (signature.drop 32).take 32 }
        if t.tx_type = ETH_LEGACY_TX then
          (TX_ERROR_NONE, some { t with v := (35 + (t.chain_id * 2) % SIZE_MOD) % 256 })
        else
          (TX_ERROR_NONE, some { t with v := 0 })
  | _, _ => (TX_ERROR_INVALID, tx)

/-! ## Reference RLP encoding (from the specification, independent of the encoder) -/

/-- An RLP value: a byte-string or a list of RLP values. -/
inductive RLPItem where
  | str (bytes : List Nat) : RLPItem
  | list (items : List RLPItem) : RLPItem

/-- Base-256 digits of `n`, most significant first, stopping at the leading digit; a number
has at most as many digits as its value, so `fuel = n` suffices. -/
def be_minimal_aux : Nat → Nat → List Nat
  | 0, _ => []
  | fuel + 1, n => if n = 0 then [] else be_minimal_aux fuel (n / 256) ++ [n % 256]

/-- Minimal big-endian byte sequence of a natural number: no leading zero byte, and the
integer zero is the empty sequence (`be_minimal_eq_digits`: the reversed base-256 digits). -/
def be_minimal (n : Nat) : List Nat := be_minimal_aux n n

/-- Big-endian decoding of a byte sequence. -/
def be_decode (bs : List Nat) : Nat := bs.foldl (fun acc b => acc * 256 + b) 0

/-- Reference length prefix: one byte `base + n` when `n < 56`, else the byte `base + 55 + k`
followed by the `k` bytes of `n` in minimal big-endian form. -/
def rlp_ref_header (base : Nat) (n : Nat) : List Nat :=
  if n < 56 then [base + n] else (base + 55 + (be_minimal n).length) :: be_minimal n

/-- Reference encoding of a byte-string: a single byte below `0x80` is its own encoding,
anything else is the `0x80`-based length prefix followed by the bytes. -/
def rlp_ref_string (s : List Nat) : List Nat :=
  match s with
  | [b] => if b < 0x80 then [b] else rlp_ref_header 0x80 1 ++ [b]
  | _ => rlp_ref_header 0x80 s.length ++ s

mutual
/-- Reference RLP encoding of a value. -/
def rlp_ref : RLPItem → List Nat
  | .str s => rlp_ref_string s
  | .list items => rlp_ref_header 0xc0 (rlp_ref_list items).length ++ rlp_ref_list items
/-- Concatenated reference encodings of the items of a list (the list payload). -/
def rlp_ref_list : List RLPItem → List Nat
  | [] => []
  | x :: xs => rlp_ref x ++ rlp_ref_list xs
end

/-- An integer field as an RLP value: the byte-string of its minimal big-endian form. -/
def rlp_uint (n : Nat) : RLPItem := .str (be_minimal n)

/-! ## Predicates used to state the properties -/

/-- A well-formed encoder: the cursor is within the capacity, the capacity is within the
memory the buffer pointer refers to, and the capacity is a `size_t` value. -/
def rlp_encoder_t.wf (e : rlp_encoder_t) : Prop :=
  e.length ≤ e.buffer_size ∧ e.buffer_size ≤ e.buffer.length ∧ e.buffer_size < SIZE_MOD

instance (e : rlp_encoder_t) : Decidable e.wf := by
  unfold rlp_encoder_t.wf
  infer_instance

/-- The bytes encoded so far: the buffer up to the cursor. -/
def rlp_encoder_t.written (e : rlp_encoder_t) : List Nat := e.buffer.take e.length

/-- The encoder `e2` is `e1` with exactly the bytes `bs` appended at the cursor. -/
def Appended (e1 e2 : rlp_encoder_t) (bs : List Nat) : Prop :=
  e2.buffer_size = e1.buffer_size ∧ e2.buffer.length = e1.buffer.length ∧
  e2.length = e1.length + bs.length ∧ e2.written = e1.written ++ bs

/-- The outcome `r` of an operation started in `e` that is meant to append `bs`: with room for
`bs` it succeeds and has appended exactly `bs`; without room it fails. -/
def Appends (r : Int × rlp_encoder_t) (e : rlp_encoder_t) (bs : List Nat) : Prop :=
  (e.length + bs.length ≤ e.buffer_size → r.1 = 0 ∧ Appended e r.2 bs) ∧
  (e.buffer_size < e.length + bs.length → e.buffer_size + bs.length < SIZE_MOD → r.1 ≠ 0)

/-- The calldata bytes a transaction refers to: the first `data_len` bytes at `data`. -/
def eth_transaction_t.data_bytes (tx : eth_transaction_t) : List Nat :=
  (tx.data.getD []).take tx.data_len

/-- A transaction the encoder can legally read. First what holds of every value of the C
type: the integer fields are 64-bit, `v` is a byte, the arrays have their declared sizes.
Then the field lengths: `to_len` is 0 or 20, `value_len` and the fee lengths the kind uses
are at most 32, and `data` points to at least `data_len` bytes (so it is non-null when
`data_len > 0`). -/
def eth_transaction_t.valid (tx : eth_transaction_t) : Prop :=
  tx.nonce < SIZE_MOD ∧ tx.gas_limit < SIZE_MOD ∧ tx.chain_id < SIZE_MOD ∧ tx.v < 256 ∧
  tx.to_.length = 20 ∧ tx.value.length = 32 ∧ tx.gas_price.length = 32 ∧
  tx.max_priority_fee.length = 32 ∧ tx.max_fee.length = 32 ∧
  tx.r.length = 32 ∧ tx.s.length = 32 ∧ tx.data_len < SIZE_MOD ∧
  (tx.to_len = 0 ∨ tx.to_len = 20) ∧ tx.value_len ≤ 32 ∧
  (tx.tx_type = ETH_EIP1559_TX → tx.max_priority_fee_len ≤ 32 ∧ tx.max_fee_len ≤ 32) ∧
  (tx.tx_type ≠ ETH_EIP1559_TX → tx.gas_price_len ≤ 32) ∧
  tx.data_len ≤ (tx.data.getD []).length

instance (tx : eth_transaction_t) : Decidable tx.valid := by
  unfold eth_transaction_t.valid
  infer_instance

/-- Legacy field sequence `nonce, gasPrice, gasLimit, to, value, data`: integers as minimal
big-endian byte-strings, the other fields as byte-strings. -/
def legacy_items (tx : eth_transaction_t) : List RLPItem :=
  [rlp_uint tx.nonce, .str (tx.gas_price.take tx.gas_price_len), rlp_uint tx.gas_limit,
    .str (tx.to_.take tx.to_len), .str (tx.value.take tx.value_len), .str tx.data_bytes]

/-- EIP-2930 field sequence
`chainId, nonce, gasPrice, gasLimit, to, value, data, accessList (empty list)`. -/
def eip2930_items (tx : eth_transaction_t) : List RLPItem :=
  [rlp_uint tx.chain_id, rlp_uint tx.nonce, .str (tx.gas_price.take tx.gas_price_len),
    rlp_uint tx.gas_limit, .str (tx.to_.take tx.to_len), .str (tx.value.take tx.value_len),
    .str tx.data_bytes, .list []]

/-- EIP-1559 field sequence
`chainId, nonce, maxPriorityFee, maxFee, gasLimit, to, value, data, accessList (empty list)`. -/
def eip1559_items (tx : eth_transaction_t) : List RLPItem :=
  [rlp_uint tx.chain_id, rlp_uint tx.nonce,
    .str (tx.max_priority_fee.take tx.max_priority_fee_len),
    .str (tx.max_fee.take tx.max_fee_len), rlp_uint tx.gas_limit,
    .str (tx.to_.take tx.to_len), .str (tx.value.take tx.value_len),
    .str tx.data_bytes, .list []]

/-- Unsigned field sequence of the specification's table, by kind. -/
def unsigned_items (tx : eth_transaction_t) : List RLPItem :=
  if tx.tx_type = ETH_LEGACY_TX then legacy_items tx
  else if tx.tx_type = ETH_EIP2930_TX then eip2930_items tx
  else eip1559_items tx

/-- Signature items `v, r, s`: `v` as an integer, `r` and `s` as byte-strings. -/
def signature_items (tx : eth_transaction_t) : List RLPItem :=
  [rlp_uint tx.v, .str tx.r, .str tx.s]

/-- EIP-155 replay-protection items `chainId, empty, empty` of an unsigned legacy
transaction. -/
def replay_items (tx : eth_transaction_t) : List RLPItem :=
  [rlp_uint tx.chain_id, .str [], .str []]

/-- Items that follow the unsigned field sequence: `v, r, s` (the first 32 bytes of the `r`
and `s` arrays) when signed; for an unsigned legacy transaction `chainId, empty, empty`;
nothing for an unsigned typed transaction. -/
def trailing_items (tx : eth_transaction_t) (include_signature : Bool) : List RLPItem :=
  if include_signature then [rlp_uint tx.v, .str (tx.r.take 32), .str (tx.s.take 32)]
  else if tx.tx_type = ETH_LEGACY_TX then replay_items tx
  else []

/-- The type tag in front of the list: `0x01` for EIP-2930, `0x02` for EIP-1559, none for
legacy. -/
def type_tag (tx : eth_transaction_t) : List Nat :=
  if tx.tx_type = ETH_EIP2930_TX then [0x01]
  else if tx.tx_type = ETH_EIP1559_TX then [0x02]
  else []

/-- Reference wire encoding: the type tag followed by the RLP list of the fields. -/
def tx_ref_encoding (tx : eth_transaction_t) (include_signature : Bool) : List Nat :=
  type_tag tx ++ rlp_ref (.list (unsigned_items tx ++ trailing_items tx include_signature))

/-! ## Sample data (`main.c`) -/

/-- The fixed test key of `generate_sample_private_key`. -/
def sample_private_key : eth_private_key_t :=
  { data := [0x01, 0x23, 0x45, 0x67, 0x89, 0xab, 0xcd, 0xef, 0xfe, 0xdc, 0xba, 0x98, 0x76, 0x54,
      0x32, 0x10, 0x01, 0x23, 0x45, 0x67, 0x89, 0xab, 0xcd, 0xef, 0xfe, 0xdc, 0xba, 0x98, 0x76,
      0x54, 0x32, 0x10] }

/-- The transaction built by `create_sample_legacy_transaction`. -/
def sample_legacy_tx : eth_transaction_t :=
  { tx_type := ETH_LEGACY_TX, nonce := 42,
    to_ := [0x12, 0x34, 0x56, 0x78, 0x90, 0xab, 0xcd, 0xef, 0x12, 0x34, 0x56, 0x78, 0x90, 0xab,
      0xcd, 0xef, 0x12, 0x34, 0x56, 0x78],
    to_len := 20, value := [0x0d, 0xe0, 0xb6, 0xb3] ++ List.replicate 28 0, value_len := 4,
    data := none, data_len := 0, chain_id := 1,
    gas_price := 0x03 :: List.replicate 31 0, gas_price_len := 1,
    max_priority_fee := List.replicate 32 0, max_priority_fee_len := 0,
    max_fee := List.replicate 32 0, max_fee_len := 0, gas_limit := 21000,
    v := 0, r := List.replicate 32 0, s := List.replicate 32 0 }

/-- The transaction built by `create_sample_eip1559_transaction`. -/
def sample_eip1559_tx : eth_transaction_t :=
  { tx_type := ETH_EIP1559_TX, nonce := 42,
    to_ := [0x12, 0x34, 0x56, 0x78, 0x90, 0xab, 0xcd, 0xef, 0x12, 0x34, 0x56, 0x78, 0x90, 0xab,
      0xcd, 0xef, 0x12, 0x34, 0x56, 0x78],
    to_len := 20, value := [0x0d, 0xe0, 0xb6, 0xb3] ++ List.replicate 28 0, value_len := 4,
    data := none, data_len := 0, chain_id := 1,
    gas_price := List.replicate 32 0, gas_price_len := 0,
    max_priority_fee := 0x01 :: List.replicate 31 0, max_priority_fee_len := 1,
    max_fee := 0x05 :: List.replicate 31 0, max_fee_len := 1, gas_limit := 21000,
    v := 0, r := List.replicate 32 0, s := List.replicate 32 0 }

/-- The legacy sample re-tagged as an EIP-2930 transaction. -/
def sample_eip2930_tx : eth_transaction_t :=
  { sample_legacy_tx with tx_type := ETH_EIP2930_TX }

/-- The legacy sample with 1100 bytes of calldata: its unsigned encoding is 1140 bytes long. -/
def big_calldata_tx : eth_transaction_t :=
  { sample_legacy_tx with data := some (List.replicate 1100 0), data_len := 1100 }

/-- A call of one of the public encoding operations, with its arguments. -/
inductive rlp_op where
  | encode_byte (value : Nat) : rlp_op
  | encode_bytes (data : Option (List Nat)) (length : Nat) : rlp_op
  | encode_uint (value : Nat) : rlp_op
  | begin_list : rlp_op
  | end_list (marker : Nat) : rlp_op

/-- The encoder after one call; the status code is dropped, the call may succeed or fail. -/
def rlp_apply (e : rlp_encoder_t) : rlp_op → rlp_encoder_t
  | .encode_byte value => (rlp_encode_byte e value).2
  | .encode_bytes data length => (rlp_encode_bytes e data length).2
  | .encode_uint value => (rlp_encode_uint e value).2
  | .begin_list => (rlp_begin_list e).2.1
  | .end_list marker => (rlp_end_list e marker).2

/-- The encoder after a finite sequence of calls. -/
def rlp_run (e : rlp_encoder_t) (ops : List rlp_op) : rlp_encoder_t :=
  ops.foldl rlp_apply e

/-- The transaction `{nonce: 0, gasPrice: empty, gasLimit: 0, to: empty, value: empty,
data: empty}`: what `eth_tx_init(tx, ETH_LEGACY_TX)` leaves (chain id 0, no signature). -/
def empty_legacy_tx : eth_transaction_t :=
  { tx_type := ETH_LEGACY_TX, nonce := 0, to_ := List.replicate 20 0, to_len := 0,
    value := List.replicate 32 0, value_len := 0, data := none, data_len := 0,
    chain_id := 0, gas_price := List.replicate 32 0, gas_price_len := 0,
    max_priority_fee := List.replicate 32 0, max_priority_fee_len := 0,
    max_fee := List.replicate 32 0, max_fee_len := 0, gas_limit := 0,
    v := 0, r := List.replicate 32 0, s := List.replicate 32 0 }

/-- The third block of `demo_rlp_encoding` (`main.c`): `rlp_begin_list`,
`rlp_encode_bytes("cat")`, `rlp_encode_bytes("dog")`, `rlp_end_list`; returns the four status
codes (the demo does not look at them) and the final encoder. -/
def demo_encode_list (encoder : rlp_encoder_t) : List Int × rlp_encoder_t :=
  let b := rlp_begin_list encoder
  let c := rlp_encode_bytes b.2.1 (some [0x63, 0x61, 0x74]) 3
  let d := rlp_encode_bytes c.2 (some [0x64, 0x6f, 0x67]) 3
  let r := rlp_end_list d.2 b.2.2
  ([b.1, c.1, d.1, r.1], r.2)

/-- The capacity is kept and the cursor stays within it. -/
def Bounded (e e2 : rlp_encoder_t) : Prop :=
  e2.buffer_size = e.buffer_size ∧ e2.length ≤ e2.buffer_size

/-- The legacy sample with a kind tag (3) that is none of the three supported kinds. -/
def unsupported_tx : eth_transaction_t :=
  { sample_legacy_tx with tx_type := 3 }

/-- The bytes of the three signature items of a transaction that was never signed: `v = 0`
as the single byte `0x80`, then `r` and `s` each as `0xa0` followed by 32 zero bytes. -/
def zero_signature_bytes : List Nat :=
  [0x80] ++ (0xa0 :: List.replicate 32 0) ++ (0xa0 :: List.replicate 32 0)

/-- What `eth_tx_init(tx, ETH_EIP1559_TX)` leaves: every field zero, kind EIP-1559. -/
def fresh_eip1559_tx : eth_transaction_t :=
  { empty_legacy_tx with tx_type := ETH_EIP1559_TX }

/-- The legacy sample with signature fields filled in (`v = 37`, `r` all 1, `s` all 2): it
differs from `sample_legacy_tx` only in `v`, `r` and `s`. -/
def signed_sample_tx : eth_transaction_t :=
  { sample_legacy_tx with v := 37, r := List.replicate 32 1, s := List.replicate 32 2 }

mutual
/-- Driving the encoder over a tree of byte-strings and lists, the way `demo_rlp_encoding`
(`main.c`) does for the list of "cat" and "dog": `rlp_encode_bytes` for a leaf; for a list
`rlp_begin_list`, the children in order, then `rlp_end_list` with the marker that
`rlp_begin_list` returned. The traversal stops at the first call that returns an error, so a
result of 0 means that every call returned 0. -/
def rlp_encode_item : RLPItem → rlp_encoder_t → Int × rlp_encoder_t
  | .str s, e => rlp_encode_bytes e (some s) s.length
  | .list items, e =>
    check ((rlp_begin_list e).1, (rlp_begin_list e).2.1) fun e1 =>
    check (rlp_encode_items items e1) fun e2 =>
    rlp_end_list e2 (rlp_begin_list e).2.2
/-- The children of a list, encoded in order. -/
def rlp_encode_items : List RLPItem → rlp_encoder_t → Int × rlp_encoder_t
  | [], e => (0, e)
  | x :: xs, e => check (rlp_encode_item x e) fun e1 => rlp_encode_items xs e1
end

/-- A nested tree: a list holding "cat", an inner list whose single item is a 60-byte string
(so the inner list needs the long prefix `0xf8 0x3e`), and the empty string. -/
def nested_tree : RLPItem :=
  .list [.str [0x63, 0x61, 0x74], .list [.str (List.replicate 60 7)], .str []]

/-- The legacy sample with 1024 bytes of calldata. -/
def calldata_1024_tx : eth_transaction_t :=
  { sample_legacy_tx with data := some (List.replicate 1024 0), data_len := 1024 }

/-- Append-only frame between an encoder `e` and a later state `e2`: capacity and buffer
length are the same, the cursor has not decreased and is within the capacity, and every byte
at an offset below the cursor of `e` is what it was. -/
def Frame (e e2 : rlp_encoder_t) : Prop :=
  e2.buffer_size = e.buffer_size ∧ e2.buffer.length = e.buffer.length ∧
  e.length ≤ e2.length ∧ e2.length ≤ e2.buffer_size ∧
  e2.buffer.take e.length = e.buffer.take e.length

/-! ## Lemmas: the byte loops -/

theorem be_minimal_aux_eq : ∀ (fuel n : Nat), n ≤ fuel →
    be_minimal_aux fuel n = (Nat.digits 256 n).reverse
  | 0, n, h => by
    have : n = 0 := by omega
    subst this; simp [be_minimal_aux]
  | fuel + 1, n, h => by
    rw [be_minimal_aux]
    by_cases h0 : n = 0
    · subst h0; simp
    · rw [if_neg h0, be_minimal_aux_eq fuel (n / 256) (by omega)]
      conv_rhs => rw [Nat.digits_def' (by norm_num : 1 < 256) (by omega : 0 < n)]
      simp

theorem be_minimal_eq_digits (n : Nat) : be_minimal n = (Nat.digits 256 n).reverse :=
  be_minimal_aux_eq n n (le_refl n)

theorem and_ff (x : Nat) : x &&& 0xFF = x % 256 := Nat.and_pow_two_sub_one_eq_mod x 8
theorem shr_8 (x : Nat) : x >>> 8 = x / 256 := Nat.shiftRight_eq_div_pow x 8

theorem le_bytes_loop_eq_digits : ∀ (fuel n : Nat), 0 < n → n < 256 ^ fuel →
    le_bytes_loop fuel n = Nat.digits 256 n
  | 0, n, h0, h => by simp at h; omega
  | fuel + 1, n, h0, h => by
    rw [le_bytes_loop, and_ff, shr_8, Nat.digits_def' (by norm_num) h0]
    by_cases hq : n / 256 > 0
    · rw [if_pos hq, le_bytes_loop_eq_digits fuel (n / 256) hq]
      rw [pow_succ] at h
      exact Nat.div_lt_of_lt_mul (by rw [Nat.mul_comm]; exact h)
    · rw [if_neg hq]
      have : n / 256 = 0 := by omega
      rw [this]; simp

theorem le_bytes_loop_length_le : ∀ (fuel n : Nat), (le_bytes_loop fuel n).length ≤ fuel
  | 0, _ => by simp [le_bytes_loop]
  | fuel + 1, n => by
    rw [le_bytes_loop]
    split
    · have := le_bytes_loop_length_le fuel (n >>> 8)
      simp; omega
    · simp

theorem reverse_in_place_eq (l : List Nat) (h : l.length ≤ 8) :
    reverse_in_place l l.length = l.reverse := by
  match l, h with
  | [], _ => exact rfl
  | [a], _ => exact (rfl : reverse_in_place [a] 1 = [a])
  | [a, b], _ => exact (rfl : reverse_in_place [a, b] 2 = [b, a])
  | [a, b, c], _ => exact (rfl : reverse_in_place [a, b, c] 3 = [c, b, a])
  | [a, b, c, d], _ => exact (rfl : reverse_in_place [a, b, c, d] 4 = [d, c, b, a])
  | [a, b, c, d, e], _ => exact (rfl : reverse_in_place [a, b, c, d, e] 5 = [e, d, c, b, a])
  | [a, b, c, d, e, f], _ => exact (rfl : reverse_in_place [a, b, c, d, e, f] 6 = [f, e, d, c, b, a])
  | [a, b, c, d, e, f, g], _ => exact (rfl : reverse_in_place [a, b, c, d, e, f, g] 7 = [g, f, e, d, c, b, a])
  | [a, b, c, d, e, f, g, h], _ => exact (rfl : reverse_in_place [a, b, c, d, e, f, g, h] 8 = [h, g, f, e, d, c, b, a])
  | _ :: _ :: _ :: _ :: _ :: _ :: _ :: _ :: _ :: _, h => simp at h

theorem reverse_copy_eq (l : List Nat) (h : l.length ≤ 8) :
    reverse_copy l l.length = l.reverse := by
  match l, h with
  | [], _ => exact rfl
  | [a], _ => exact (rfl : reverse_copy [a] 1 = [a])
  | [a, b], _ => exact (rfl : reverse_copy [a, b] 2 = [b, a])
  | [a, b, c], _ => exact (rfl : reverse_copy [a, b, c] 3 = [c, b, a])
  | [a, b, c, d], _ => exact (rfl : reverse_copy [a, b, c, d] 4 = [d, c, b, a])
  | [a, b, c, d, e], _ => exact (rfl : reverse_copy [a, b, c, d, e] 5 = [e, d, c, b, a])
  | [a, b, c, d, e, f], _ => exact (rfl : reverse_copy [a, b, c, d, e, f] 6 = [f, e, d, c, b, a])
  | [a, b, c, d, e, f, g], _ => exact (rfl : reverse_copy [a, b, c, d, e, f, g] 7 = [g, f, e, d, c, b, a])
  | [a, b, c, d, e, f, g, h], _ => exact (rfl : reverse_copy [a, b, c, d, e, f, g, h] 8 = [h, g, f, e, d, c, b, a])
  | _ :: _ :: _ :: _ :: _ :: _ :: _ :: _ :: _ :: _, h => simp at h

/-! ## Lemmas: the encoder operations append the reference encodings -/

theorem set_at_length (pre : List Nat) (x b : Nat) (t : List Nat) :
    (pre ++ x :: t).set pre.length b = pre ++ b :: t := by
  induction pre with
  | nil => rfl
  | cons a pre ih => simp [ih]

theorem memcpy_split (a old c src : List Nat) (n : Nat) (hold : old.length = n) :
    memcpy (a ++ old ++ c) a.length src n = a ++ src.take n ++ c := by
  unfold memcpy
  have h1 : List.take a.length (a ++ old ++ c) = a := by
    rw [List.append_assoc]; exact List.take_left' rfl
  have h2 : List.drop (a.length + n) (a ++ old ++ c) = c := by
    apply List.drop_left'
    simp [hold]
  rw [h1, h2]

theorem split_at (l : List Nat) (i n : Nat) (h : i + n ≤ l.length) :
    ∃ a old c, l = a ++ old ++ c ∧ a.length = i ∧ old.length = n ∧ a = l.take i := by
  refine ⟨l.take i, (l.drop i).take n, l.drop (i + n), ?_, ?_, ?_, rfl⟩
  · rw [List.append_assoc, ← List.drop_drop, List.take_append_drop, List.take_append_drop]
  · simp; omega
  · simp; omega

theorem appended_wf {e e2 : rlp_encoder_t} {bs : List Nat} (hw : e.wf)
    (hr : e.length + bs.length ≤ e.buffer_size) (h : Appended e e2 bs) : e2.wf := by
  obtain ⟨h1, h2, h3, _⟩ := h
  obtain ⟨w1, w2, w3⟩ := hw
  exact ⟨by omega, by omega, by omega⟩

theorem appends_insert_byte (e : rlp_encoder_t) (b : Nat) (hw : e.wf) :
    Appends (rlp_insert_byte e b) e [b] := by
  obtain ⟨w1, w2, w3⟩ := hw
  unfold Appends rlp_insert_byte
  constructor
  · intro hr
    simp only [List.length_singleton] at hr
    have hm : (e.length + 1) % SIZE_MOD = e.length + 1 := Nat.mod_eq_of_lt (by omega)
    rw [hm, if_neg (by omega)]
    refine ⟨rfl, rfl, by simp, by simp, ?_⟩
    obtain ⟨a, old, c, hl, ha, ho, hat⟩ := split_at e.buffer e.length 1 (by omega)
    match old, ho with
    | [x], _ =>
      simp only [rlp_encoder_t.written]
      rw [← hat]
      conv_lhs => rw [hl]
      rw [← ha, List.append_assoc, List.singleton_append, set_at_length]
      rw [show a ++ b :: c = (a ++ [b]) ++ c by simp]
      exact List.take_left' (by simp)
  · intro hr hs
    simp only [List.length_singleton] at hr hs
    have hm : (e.length + 1) % SIZE_MOD = e.length + 1 := Nat.mod_eq_of_lt (by omega)
    rw [hm, if_pos (by omega)]
    simp

theorem appends_insert (e : rlp_encoder_t) (data : List Nat) (n : Nat) (hw : e.wf)
    (hn : n ≤ data.length) : Appends (rlp_insert e data n) e (data.take n) := by
  obtain ⟨w1, w2, w3⟩ := hw
  have hlen : (data.take n).length = n := by simp; omega
  unfold Appends rlp_insert
  rw [hlen]
  constructor
  · intro hr
    have hm : (e.length + n) % SIZE_MOD = e.length + n := Nat.mod_eq_of_lt (by omega)
    rw [hm, if_neg (by omega)]
    refine ⟨rfl, rfl, ?_, by simp [hlen], ?_⟩
    · obtain ⟨a, old, c, hl, ha, ho, hat⟩ := split_at e.buffer e.length n (by omega)
      show (memcpy e.buffer e.length data n).length = e.buffer.length
      conv_lhs => rw [hl, ← ha, memcpy_split a old c data n ho]
      rw [hl]; simp [hlen, ho]
    · obtain ⟨a, old, c, hl, ha, ho, hat⟩ := split_at e.buffer e.length n (by omega)
      simp only [rlp_encoder_t.written]
      rw [← hat]
      conv_lhs => rw [hl, ← ha, memcpy_split a old c data n ho]
      exact List.take_left' (by simp [hlen])
  · intro hr hs
    have hm : (e.length + n) % SIZE_MOD = e.length + n := Nat.mod_eq_of_lt (by omega)
    rw [hm, if_pos (by omega)]
    simp

theorem appended_trans {e e1 e2 : rlp_encoder_t} {bs1 bs2 : List Nat}
    (h1 : Appended e e1 bs1) (h2 : Appended e1 e2 bs2) : Appended e e2 (bs1 ++ bs2) := by
  obtain ⟨a1, a2, a3, a4⟩ := h1
  obtain ⟨b1, b2, b3, b4⟩ := h2
  refine ⟨by omega, by omega, by simp; omega, ?_⟩
  rw [b4, a4, List.append_assoc]

theorem appends_then {r res : Int × rlp_encoder_t} {e : rlp_encoder_t} {bs1 bs2 : List Nat}
    {k : rlp_encoder_t → Int × rlp_encoder_t} (hw : e.wf) (h1 : Appends r e bs1)
    (h2 : ∀ e1, e1.wf → Appended e e1 bs1 → Appends (k e1) e1 bs2)
    (hok : r.1 = 0 → res = k r.2) (hfail : r.1 ≠ 0 → res.1 ≠ 0) :
    Appends res e (bs1 ++ bs2) := by
  constructor
  · intro hr
    simp only [List.length_append] at hr
    obtain ⟨r0, ha⟩ := h1.1 (by omega)
    have hw1 := appended_wf hw (by omega) ha
    obtain ⟨k0, hb⟩ := (h2 r.2 hw1 ha).1 (by rw [ha.1, ha.2.2.1]; omega)
    rw [hok r0]
    exact ⟨k0, appended_trans ha hb⟩
  · intro hr hs
    simp only [List.length_append] at hr hs
    by_cases h : e.length + bs1.length ≤ e.buffer_size
    · obtain ⟨r0, ha⟩ := h1.1 h
      have hw1 := appended_wf hw h ha
      rw [hok r0]
      exact (h2 r.2 hw1 ha).2 (by rw [ha.1, ha.2.2.1]; omega) (by rw [ha.1]; omega)
    · exact hfail (h1.2 (by omega) (by omega))

theorem appends_check {r : Int × rlp_encoder_t} {e : rlp_encoder_t} {bs1 bs2 : List Nat}
    {k : rlp_encoder_t → Int × rlp_encoder_t} (hw : e.wf) (h1 : Appends r e bs1)
    (h2 : ∀ e1, e1.wf → Appended e e1 bs1 → Appends (k e1) e1 bs2) :
    Appends (check r k) e (bs1 ++ bs2) := by
  apply appends_then hw h1 h2
  · intro h; simp [check, h]
  · intro h; simp [check, h]

theorem appends_pure (e : rlp_encoder_t) (hw : e.wf) : Appends (0, e) e [] := by
  constructor
  · intro _
    exact ⟨rfl, rfl, rfl, by simp, by simp⟩
  · intro h1 _
    have := hw.1
    simp at h1
    omega

theorem be_minimal_length_le (n : Nat) (hn : n < SIZE_MOD) : (be_minimal n).length ≤ 8 := by
  rw [be_minimal_eq_digits, List.length_reverse]
  by_cases h0 : n = 0
  · subst h0; simp
  · rw [← le_bytes_loop_eq_digits 8 n (by omega) (by simpa using hn)]
    exact le_bytes_loop_length_le 8 n

theorem be_in_place (n : Nat) (h0 : 0 < n) (hn : n < SIZE_MOD) :
    reverse_in_place (le_bytes_loop 8 n) (le_bytes_loop 8 n).length = be_minimal n := by
  rw [reverse_in_place_eq _ (le_bytes_loop_length_le 8 n),
    le_bytes_loop_eq_digits 8 n h0 (by simpa using hn), be_minimal_eq_digits]

theorem be_copy (n : Nat) (h0 : 0 < n) (hn : n < SIZE_MOD) :
    reverse_copy (le_bytes_loop 8 n) (le_bytes_loop 8 n).length = be_minimal n := by
  rw [reverse_copy_eq _ (le_bytes_loop_length_le 8 n),
    le_bytes_loop_eq_digits 8 n h0 (by simpa using hn), be_minimal_eq_digits]

theorem le_bytes_loop_length (n : Nat) (h0 : 0 < n) (hn : n < SIZE_MOD) :
    (le_bytes_loop 8 n).length = (be_minimal n).length := by
  rw [le_bytes_loop_eq_digits 8 n h0 (by simpa using hn), be_minimal_eq_digits]
  simp

theorem appends_write_length_prefix_ok (e : rlp_encoder_t) (n base : Nat) (hw : e.wf)
    (hn : n < SIZE_MOD) (hb : base + 63 < 256) :
    Appends ( rlp_write_length_prefix e n base) e (rlp_ref_header base n) := by
  unfold rlp_write_length_prefix rlp_ref_header
  by_cases h : n < 56
  · rw [if_pos h, if_pos h, Nat.mod_eq_of_lt (by omega)]
    exact appends_insert_byte e _ hw
  · rw [if_neg h, if_neg h]
    simp only []
    have hk := be_minimal_length_le n hn
    rw [be_in_place n (by omega) hn, le_bytes_loop_length n (by omega) hn,
      Nat.mod_eq_of_lt (by omega)]
    rw [← List.singleton_append]
    apply appends_then hw (appends_insert_byte e _ hw)
      (k := fun e1 => rlp_insert e1 (be_minimal n) (be_minimal n).length)
    · intro e1 hw1 _
      have := appends_insert e1 (be_minimal n) (be_minimal n).length hw1 (le_refl _)
      rwa [List.take_length] at this
    · intro h0; rw [if_neg (by simp [h0])]
    · intro h0; rw [if_pos h0]; simp

theorem rlp_ref_string_eq (s : List Nat) :
    rlp_ref_string s =
      if s.length = 1 ∧ s.getD 0 0 < 0x80 then s else rlp_ref_header 0x80 s.length ++ s := by
  match s with
  | [] => simp [rlp_ref_string]
  | [b] => by_cases h : b < 0x80 <;> simp [rlp_ref_string, h]
  | _ :: _ :: _ => simp [rlp_ref_string]

theorem appends_encode_bytes (e : rlp_encoder_t) (d : List Nat) (n : Nat) (hw : e.wf)
    (hn : n ≤ d.length) (hs : n < SIZE_MOD) :
    Appends (rlp_encode_bytes e (some d) n) e (rlp_ref_string (d.take n)) := by
  have hlen : (d.take n).length = n := by simp; omega
  rw [rlp_ref_string_eq, hlen]
  unfold rlp_encode_bytes
  simp only []
  by_cases h0 : n = 0
  · subst h0
    simp [rlp_ref_header]
    exact appends_insert_byte e _ hw
  · rw [if_neg h0]
    have hg : (List.take n d).getD 0 0 = d.getD 0 0 := by
      cases d with
      | nil => simp
      | cons a t =>
        cases n with
        | zero => omega
        | succ m => simp
    rw [hg]
    by_cases h1 : n = 1 ∧ d.getD 0 0 < 0x80
    · rw [if_pos h1, if_pos h1]
      have : List.take n d = [d.getD 0 0] := by
        cases d with
        | nil => simp at hn; omega
        | cons a t => simp [h1.1]
      rw [this]
      exact appends_insert_byte e _ hw
    · rw [if_neg h1, if_neg h1]
      apply appends_then hw (appends_write_length_prefix_ok e n 0x80 hw hs (by norm_num))
        (k := fun e1 => rlp_insert e1 d n)
      · intro e1 hw1 _
        exact appends_insert e1 d n hw1 hn
      · intro h; rw [if_neg (by simp [h])]
      · intro h; rw [if_pos h]; exact h

theorem appends_encode_bytes_null (e : rlp_encoder_t) (hw : e.wf) :
    Appends (rlp_encode_bytes e none 0) e (rlp_ref_string []) := by
  simp [rlp_encode_bytes, rlp_ref_string, rlp_ref_header]
  exact appends_insert_byte e _ hw

theorem appends_encode_uint (e : rlp_encoder_t) (v : Nat) (hw : e.wf) (hv : v < SIZE_MOD) :
    Appends (rlp_encode_uint e v) e (rlp_ref_string (be_minimal v)) := by
  unfold rlp_encode_uint
  by_cases h0 : v = 0
  · subst h0
    simp [be_minimal, be_minimal_aux, rlp_ref_string, rlp_ref_header]
    exact appends_insert_byte e _ hw
  · rw [if_neg h0]
    simp only []
    rw [be_copy v (by omega) hv, le_bytes_loop_length v (by omega) hv]
    have := appends_encode_bytes e (be_minimal v) (be_minimal v).length hw (le_refl _)
      (by have := be_minimal_length_le v hv; unfold SIZE_MOD; omega)
    rwa [List.take_length] at this

theorem appends_encode_byte (e : rlp_encoder_t) (v : Nat) (hw : e.wf) (hv : v < 256) :
    Appends (rlp_encode_byte e v) e (rlp_ref_string (be_minimal v)) := by
  unfold rlp_encode_byte
  by_cases h0 : v = 0
  · subst h0
    simp [be_minimal, be_minimal_aux, rlp_ref_string, rlp_ref_header]
    exact appends_insert_byte e _ hw
  · have hd : be_minimal v = [v] := by
      rw [be_minimal_eq_digits, Nat.digits_of_lt 256 v h0 hv]; rfl
    rw [if_neg h0, hd]
    by_cases h1 : v < 0x80
    · rw [if_pos h1]
      simp only [rlp_ref_string, if_pos h1]
      exact appends_insert_byte e _ hw
    · rw [if_neg h1]
      simp only [rlp_ref_string, if_neg h1, rlp_ref_header]
      apply appends_then hw (appends_insert_byte e _ hw)
        (k := fun e1 => rlp_insert_byte e1 v)
      · intro e1 hw1 _
        exact appends_insert_byte e1 v hw1
      · intro h; simp [h]
      · intro h; simp [h]

theorem memcpy_split_at (a old c src : List Nat) (off n : Nat) (hoff : a.length = off)
    (hold : old.length = n) : memcpy (a ++ old ++ c) off src n = a ++ src.take n ++ c := by
  subst hoff
  exact memcpy_split a old c src n hold

theorem end_list_long_buffer (pre payload rest lb : List Nat) (x p k : Nat)
    (hk : lb.length = k) (hr : k ≤ rest.length) :
    memcpy
      ((memcpy (pre ++ x :: (payload ++ rest)) (pre.length + 1 + k)
          ((pre ++ x :: (payload ++ rest)).drop (pre.length + 1)) payload.length).set
        pre.length p)
      (pre.length + 1) lb k
      = pre ++ p :: (lb ++ payload ++ rest.drop k) := by
  have hsrc : (pre ++ x :: (payload ++ rest)).drop (pre.length + 1) = payload ++ rest := by
    rw [show pre ++ x :: (payload ++ rest) = (pre ++ [x]) ++ (payload ++ rest) by simp]
    exact List.drop_left' (by simp)
  have hA : ((payload ++ rest).take k).length = k := by simp; omega
  have hB : (((payload ++ rest).drop k).take payload.length).length = payload.length := by
    simp; omega
  have hC : (payload ++ rest).drop (k + payload.length) = rest.drop k := by
    rw [Nat.add_comm, ← List.drop_drop]
    congr 1
    exact List.drop_left' rfl
  have hP : payload ++ rest = (payload ++ rest).take k ++
      ((payload ++ rest).drop k).take payload.length ++ rest.drop k := by
    rw [← hC, List.append_assoc, ← List.drop_drop, List.take_append_drop,
      List.take_append_drop]
  generalize (payload ++ rest).take k = A at hA hP
  generalize ((payload ++ rest).drop k).take payload.length = B at hB hP
  rw [hsrc]
  have h1 : pre ++ x :: (payload ++ rest) = (pre ++ x :: A) ++ B ++ rest.drop k := by
    conv_lhs => rw [hP]
    simp
  rw [h1, memcpy_split_at (pre ++ x :: A) B (rest.drop k) (payload ++ rest)
    (pre.length + 1 + k) payload.length (by simp [hA]; omega) hB, List.take_left' rfl]
  rw [show pre ++ x :: A ++ payload ++ rest.drop k
      = pre ++ x :: (A ++ payload ++ rest.drop k) by simp, set_at_length]
  rw [show pre ++ p :: (A ++ payload ++ rest.drop k)
      = (pre ++ [p]) ++ A ++ (payload ++ rest.drop k) by simp]
  rw [memcpy_split_at (pre ++ [p]) A (payload ++ rest.drop k) lb (pre.length + 1) k
    (by simp) hA, ← hk, List.take_length]
  simp

theorem end_list_short (pre payload rest : List Nat) (x size : Nat)
    (hs : payload.length < 56) :
    rlp_end_list ⟨pre ++ x :: (payload ++ rest), size, pre.length + 1 + payload.length⟩ pre.length
      = (0, ⟨pre ++ (0xc0 + payload.length) :: (payload ++ rest), size,
          pre.length + 1 + payload.length⟩) := by
  unfold rlp_end_list
  have hll : pre.length + 1 + payload.length - pre.length - 1 = payload.length := by omega
  simp only [hll]
  rw [if_neg (by omega), if_pos hs, set_at_length]
  show (_, _) = (_, _)
  rw [show (RLP_SHORT_LIST_PREFIX + payload.length) % 256 = 0xc0 + payload.length from
    Nat.mod_eq_of_lt (by unfold RLP_SHORT_LIST_PREFIX; omega)]

theorem end_list_long (pre payload rest : List Nat) (x size : Nat)
    (hs : ¬ payload.length < 56) (hn : payload.length < SIZE_MOD)
    (hroom : pre.length + 1 + payload.length + (be_minimal payload.length).length ≤ size)
    (hsize : size < SIZE_MOD) (hrest : (be_minimal payload.length).length ≤ rest.length) :
    rlp_end_list ⟨pre ++ x :: (payload ++ rest), size, pre.length + 1 + payload.length⟩ pre.length
      = (0, ⟨pre ++ (0xf7 + (be_minimal payload.length).length) ::
              (be_minimal payload.length ++ payload
                ++ rest.drop (be_minimal payload.length).length), size,
          pre.length + 1 + payload.length + (be_minimal payload.length).length⟩) := by
  unfold rlp_end_list
  have hll : pre.length + 1 + payload.length - pre.length - 1 = payload.length := by omega
  have hk := be_minimal_length_le payload.length hn
  simp only [hll]
  rw [if_neg (by omega), if_neg hs, be_in_place _ (by omega) hn,
    le_bytes_loop_length _ (by omega) hn, Nat.mod_eq_of_lt (by omega), if_neg (by omega),
    end_list_long_buffer pre payload rest _ x _ _ rfl hrest]
  show (_, _) = (_, _)
  rw [show (RLP_LONG_LIST_PREFIX + (be_minimal payload.length).length) % 256
      = 0xf7 + (be_minimal payload.length).length from
    Nat.mod_eq_of_lt (by unfold RLP_LONG_LIST_PREFIX; omega)]

theorem end_list_long_fail (pre payload rest : List Nat) (x size : Nat)
    (hs : ¬ payload.length < 56) (hn : payload.length < SIZE_MOD)
    (hroom : size < pre.length + 1 + payload.length + (be_minimal payload.length).length)
    (hwrap : pre.length + 1 + payload.length + (be_minimal payload.length).length < SIZE_MOD) :
    (rlp_end_list ⟨pre ++ x :: (payload ++ rest), size, pre.length + 1 + payload.length⟩
      pre.length).1 ≠ 0 := by
  unfold rlp_end_list
  have hll : pre.length + 1 + payload.length - pre.length - 1 = payload.length := by omega
  simp only [hll]
  rw [if_neg (by omega), if_neg hs, le_bytes_loop_length _ (by omega) hn,
    Nat.mod_eq_of_lt (by omega), if_pos (by omega)]
  simp

theorem ref_header_length_pos (base n : Nat) : 1 ≤ (rlp_ref_header base n).length := by
  unfold rlp_ref_header
  split <;> simp

theorem end_list_spec (e : rlp_encoder_t) (pre payload : List Nat) (x : Nat) (hw : e.wf)
    (hwr : e.written = pre ++ x :: payload) :
    (e.length + (rlp_ref_header 0xc0 payload.length).length ≤ e.buffer_size + 1 →
      (rlp_end_list e pre.length).1 = 0 ∧
      (rlp_end_list e pre.length).2.buffer_size = e.buffer_size ∧
      (rlp_end_list e pre.length).2.buffer.length = e.buffer.length ∧
      (rlp_end_list e pre.length).2.length + 1
        = e.length + (rlp_ref_header 0xc0 payload.length).length ∧
      (rlp_end_list e pre.length).2.written
        = pre ++ (rlp_ref_header 0xc0 payload.length ++ payload)) ∧
    (e.buffer_size + 1 < e.length + (rlp_ref_header 0xc0 payload.length).length →
      e.buffer_size + (rlp_ref_header 0xc0 payload.length).length < SIZE_MOD →
      (rlp_end_list e pre.length).1 ≠ 0) := by
  obtain ⟨w1, w2, w3⟩ := hw
  obtain ⟨buf, size, len⟩ := e
  simp only [rlp_encoder_t.written] at *
  have hlen : len = pre.length + 1 + payload.length := by
    have := congrArg List.length hwr
    simp at this
    omega
  have hbuf : buf = pre ++ x :: (payload ++ buf.drop len) := by
    conv_lhs => rw [← List.take_append_drop len buf, hwr]
    simp
  generalize buf.drop len = rest at hbuf
  subst hbuf hlen
  have hrest : size ≤ pre.length + 1 + payload.length + rest.length := by
    simp at w2; omega
  by_cases hs : payload.length < 56
  · rw [end_list_short pre payload rest x size hs]
    simp only [rlp_ref_header, if_pos hs, List.length_singleton]
    constructor
    · intro _
      refine ⟨by simp, by simp, by simp, by simp, ?_⟩
      show List.take _ _ = _
      rw [show pre ++ (192 + payload.length) :: (payload ++ rest)
          = (pre ++ ([192 + payload.length] ++ payload)) ++ rest by simp]
      exact List.take_left' (by simp; omega)
    · intro h; omega
  · have hn : payload.length < SIZE_MOD := by omega
    have hk := be_minimal_length_le payload.length hn
    simp only [rlp_ref_header, if_neg hs, List.length_cons]
    constructor
    · intro hr
      rw [end_list_long pre payload rest x size hs hn (by omega) w3 (by omega)]
      refine ⟨rfl, rfl, ?_, by simp only []; omega, ?_⟩
      · simp
        omega
      · show List.take _ _ = _
        rw [show pre ++ (247 + (be_minimal payload.length).length) ::
              (be_minimal payload.length ++ payload
                ++ List.drop (be_minimal payload.length).length rest)
            = (pre ++ ((192 + 55 + (be_minimal payload.length).length) ::
                be_minimal payload.length ++ payload))
              ++ List.drop (be_minimal payload.length).length rest by simp]
        exact List.take_left' (by simp; omega)
    · intro hr hm
      exact end_list_long_fail pre payload rest x size hs hn (by omega) (by omega)

theorem check_assoc (r : Int × rlp_encoder_t) (k1 k2 : rlp_encoder_t → Int × rlp_encoder_t) :
    check r (fun e1 => check (k1 e1) k2) = check (check r k1) k2 := by
  unfold check
  by_cases h : r.1 ≠ 0
  · simp [h]
  · simp [h]

theorem appends_list (e : rlp_encoder_t) (body : rlp_encoder_t → Int × rlp_encoder_t)
    (payload : List Nat) (hw : e.wf) (hbody : ∀ e1, e1.wf → Appends (body e1) e1 payload) :
    Appends
      (check ((rlp_begin_list e).1, (rlp_begin_list e).2.1) fun e1 =>
        check (body e1) fun e2 => rlp_end_list e2 (rlp_begin_list e).2.2)
      e (rlp_ref_header 0xc0 payload.length ++ payload) := by
  rw [check_assoc]
  have hm : Appends (check ((rlp_begin_list e).1, (rlp_begin_list e).2.1) body) e
      ([0xc0] ++ payload) :=
    appends_check hw (appends_insert_byte e 0xc0 hw) (fun e1 hw1 _ => hbody e1 hw1)
  generalize check ((rlp_begin_list e).1, (rlp_begin_list e).2.1) body = m at hm
  show Appends (check m fun e2 => rlp_end_list e2 e.length) e _
  have hpos := ref_header_length_pos 0xc0 payload.length
  have hpre : e.written.length = e.length := by
    simp [rlp_encoder_t.written]; have := hw.1; have := hw.2.1; omega
  constructor
  · intro hr
    simp only [List.length_append] at hr
    obtain ⟨m0, ha⟩ := hm.1 (by simp; omega)
    have hw2 := appended_wf hw (by simp; omega) ha
    obtain ⟨a1, a2, a3, a4⟩ := ha
    simp only [List.singleton_append, List.length_cons] at a3 a4
    have hend := (end_list_spec m.2 e.written payload 0xc0 hw2 a4).1 (by omega)
    rw [hpre] at hend
    obtain ⟨b0, b1, b2, b3, b4⟩ := hend
    simp only [check, m0, ne_eq, not_true_eq_false, if_false]
    exact ⟨b0, by omega, by omega, by simp; omega, b4⟩
  · intro hr hs
    simp only [List.length_append] at hr hs
    by_cases hroom : e.length + ([0xc0] ++ payload).length ≤ e.buffer_size
    · obtain ⟨m0, ha⟩ := hm.1 hroom
      have hw2 := appended_wf hw hroom ha
      obtain ⟨a1, a2, a3, a4⟩ := ha
      simp only [List.singleton_append, List.length_cons] at a3 a4
      have hend := (end_list_spec m.2 e.written payload 0xc0 hw2 a4).2 (by omega) (by omega)
      rw [hpre] at hend
      simp only [check, m0, ne_eq, not_true_eq_false, if_false]
      exact hend
    · have := hm.2 (by omega) (by simp; omega)
      simp only [check, this, ne_eq, not_false_eq_true, if_true]

/-! ## Lemmas: the transaction encoder -/

theorem rlp_ref_list_append (xs ys : List RLPItem) :
    rlp_ref_list (xs ++ ys) = rlp_ref_list xs ++ rlp_ref_list ys := by
  induction xs with
  | nil => simp [rlp_ref_list]
  | cons x xs ih => simp [rlp_ref_list, ih]

theorem appends_encode_tx_data (tx : eth_transaction_t) (e : rlp_encoder_t) (hv : tx.valid)
    (hw : e.wf) :
    Appends (encode_tx_data e tx.data tx.data_len) e (rlp_ref (.str tx.data_bytes)) := by
  obtain ⟨_, _, _, _, _, _, _, _, _, _, _, h2, _, _, _, _, h1⟩ := hv
  unfold encode_tx_data eth_transaction_t.data_bytes
  rw [rlp_ref]
  cases hd : tx.data with
  | none =>
    rw [hd] at h1
    simp at h1
    simp [h1]
    exact appends_encode_bytes_null e hw
  | some d =>
    rw [hd] at h1
    simp at h1
    simp
    exact appends_encode_bytes e d tx.data_len hw h1 h2

theorem appends_encode_tx_to (tx : eth_transaction_t) (e : rlp_encoder_t) (hv : tx.valid)
    (hw : e.wf) :
    Appends (encode_tx_to tx e) e (rlp_ref (.str (tx.to_.take tx.to_len))) := by
  obtain ⟨_, _, _, _, h1, _, _, _, _, _, _, _, h2, _, _, _, _⟩ := hv
  unfold encode_tx_to
  rw [rlp_ref]
  by_cases h0 : tx.to_len = 0
  · rw [if_pos h0, h0]
    exact appends_encode_bytes_null e hw
  · rw [if_neg h0]
    exact appends_encode_bytes e tx.to_ tx.to_len hw (by omega) (by unfold SIZE_MOD; omega)

theorem appends_field_bytes (e : rlp_encoder_t) (d : List Nat) (n : Nat) (hw : e.wf)
    (hd : d.length = 32) (hn : n ≤ 32) :
    Appends (encode_tx_field_bytes e d n) e (rlp_ref (.str (d.take n))) := by
  rw [rlp_ref]
  exact appends_encode_bytes e d n hw (by omega) (by unfold SIZE_MOD; omega)

theorem appends_field_uint (e : rlp_encoder_t) (v : Nat) (hw : e.wf) (hv : v < SIZE_MOD) :
    Appends (encode_tx_field_uint e v) e (rlp_ref (rlp_uint v)) := by
  rw [rlp_uint, rlp_ref]
  exact appends_encode_uint e v hw hv

theorem appends_access_list (e : rlp_encoder_t) (hw : e.wf) :
    Appends (encode_tx_access_list e) e (rlp_ref (.list [])) := by
  have h := appends_list e (fun e1 => (0, e1)) [] hw (fun e1 hw1 => appends_pure e1 hw1)
  simp only [rlp_ref, rlp_ref_list, List.length_nil]
  have heq : encode_tx_access_list e =
      check ((rlp_begin_list e).1, (rlp_begin_list e).2.1) fun e1 =>
        check ((fun e1 => ((0 : Int), e1)) e1) fun e2 => rlp_end_list e2 (rlp_begin_list e).2.2 := by
    unfold encode_tx_access_list
    simp [check]
  rw [heq]
  exact h

theorem appends_signature (tx : eth_transaction_t) (e : rlp_encoder_t) (hv : tx.valid)
    (hw : e.wf) :
    Appends (encode_tx_signature tx e) e
      (rlp_ref_list [rlp_uint tx.v, .str (tx.r.take 32), .str (tx.s.take 32)]) := by
  obtain ⟨_, _, _, v1, _, _, _, _, _, r1, s1, _, _, _, _, _, _⟩ := hv
  unfold encode_tx_signature
  simp only [rlp_ref_list, rlp_ref, rlp_uint]
  apply appends_check hw (appends_encode_byte e tx.v hw v1)
  intro e1 hw1 _
  apply appends_check hw1 (appends_encode_bytes e1 tx.r 32 hw1 (by omega) (by unfold SIZE_MOD; omega))
  intro e2 hw2 _
  rw [List.append_nil]
  exact appends_encode_bytes e2 tx.s 32 hw2 (by omega) (by unfold SIZE_MOD; omega)

theorem appends_check_pure {r : Int × rlp_encoder_t} {e : rlp_encoder_t} {bs : List Nat}
    (hw : e.wf) (h : Appends r e bs) : Appends (check r fun e1 => (0, e1)) e bs := by
  have := appends_check (k := fun e1 => ((0 : Int), e1)) hw h
    (fun e1 hw1 _ => appends_pure e1 hw1)
  rwa [List.append_nil] at this

theorem appends_trailing (tx : eth_transaction_t) (sig : Bool) (e : rlp_encoder_t)
    (hv : tx.valid) (hw : e.wf) :
    Appends
      (if sig = true then check (encode_tx_signature tx e) fun e1 => (0, e1)
       else if tx.tx_type = ETH_LEGACY_TX then
         check (rlp_encode_uint e tx.chain_id) fun e1 =>
         check (rlp_encode_bytes e1 none 0) fun e2 =>
         check (rlp_encode_bytes e2 none 0) fun e3 => (0, e3)
       else (0, e))
      e (rlp_ref_list (trailing_items tx sig)) := by
  unfold trailing_items replay_items
  cases sig with
  | true =>
    simp only [if_true]
    exact appends_check_pure hw (appends_signature tx e hv hw)
  | false =>
    simp only [Bool.false_eq_true, if_false]
    by_cases hl : tx.tx_type = ETH_LEGACY_TX
    · simp only [if_pos hl, rlp_ref_list]
      apply appends_check hw (appends_field_uint e tx.chain_id hw hv.2.2.1)
      intro e1 hw1 _
      apply appends_check hw1 (by rw [rlp_ref]; exact appends_encode_bytes_null e1 hw1)
      intro e2 hw2 _
      exact appends_check_pure hw2 (by rw [rlp_ref]; exact appends_encode_bytes_null e2 hw2)
    · simp only [if_neg hl, rlp_ref_list]
      exact appends_pure e hw

theorem appends_encode_tx_fields (tx : eth_transaction_t) (sig : Bool) (e : rlp_encoder_t)
    (hv : tx.valid)
    (ht : tx.tx_type = ETH_LEGACY_TX ∨ tx.tx_type = ETH_EIP2930_TX ∨ tx.tx_type = ETH_EIP1559_TX)
    (hw : e.wf) :
    Appends (encode_tx_fields tx e sig) e
      (rlp_ref_list (unsigned_items tx ++ trailing_items tx sig)) := by
  have hv' := hv
  obtain ⟨n1, g1, c1, _, _, va1, gp1, mp1, mf1, _, _, _, _, va2, hfee, hgp, _⟩ := hv'
  rw [rlp_ref_list_append]
  unfold encode_tx_fields unsigned_items legacy_items eip2930_items eip1559_items
  rcases ht with ht | ht | ht
  · have gp2 := hgp (by rw [ht]; decide)
    have htr := appends_trailing tx sig
    simp only [ht, if_true] at htr ⊢
    simp only [rlp_ref_list, List.append_assoc, List.nil_append]
    apply appends_check hw (appends_field_uint e _ hw n1)
    intro e1 hw1 _
    apply appends_check hw1 (appends_field_bytes e1 _ _ hw1 gp1 gp2)
    intro e2 hw2 _
    apply appends_check hw2 (appends_field_uint e2 _ hw2 g1)
    intro e3 hw3 _
    apply appends_check hw3 (appends_encode_tx_to tx e3 hv hw3)
    intro e4 hw4 _
    apply appends_check hw4 (appends_field_bytes e4 _ _ hw4 va1 va2)
    intro e5 hw5 _
    apply appends_check hw5 (appends_encode_tx_data tx e5 hv hw5)
    intro e6 hw6 _
    exact htr e6 hv hw6
  · have gp2 := hgp (by rw [ht]; decide)
    have htr := appends_trailing tx sig
    simp only [ht, if_true, if_false, show ¬ ((1 : Nat) = 0) by decide] at htr ⊢
    simp only [rlp_ref_list, List.append_assoc, List.nil_append]
    apply appends_check hw (appends_field_uint e _ hw c1)
    intro e0 hw0 _
    apply appends_check hw0 (appends_field_uint e0 _ hw0 n1)
    intro e1 hw1 _
    apply appends_check hw1 (appends_field_bytes e1 _ _ hw1 gp1 gp2)
    intro e2 hw2 _
    apply appends_check hw2 (appends_field_uint e2 _ hw2 g1)
    intro e3 hw3 _
    apply appends_check hw3 (appends_encode_tx_to tx e3 hv hw3)
    intro e4 hw4 _
    apply appends_check hw4 (appends_field_bytes e4 _ _ hw4 va1 va2)
    intro e5 hw5 _
    apply appends_check hw5 (appends_encode_tx_data tx e5 hv hw5)
    intro e6 hw6 _
    apply appends_check hw6 (appends_access_list e6 hw6)
    intro e7 hw7 _
    have := htr e7 hv hw7
    cases sig <;> simpa using this
  · obtain ⟨mp2, mf2⟩ := hfee ht
    have htr := appends_trailing tx sig
    simp only [ht, if_true, if_false, show ¬ ((2 : Nat) = 0) by decide,
      show ¬ ((2 : Nat) = 1) by decide] at htr ⊢
    simp only [rlp_ref_list, List.append_assoc, List.nil_append]
    apply appends_check hw (appends_field_uint e _ hw c1)
    intro e0 hw0 _
    apply appends_check hw0 (appends_field_uint e0 _ hw0 n1)
    intro e1 hw1 _
    apply appends_check hw1 (appends_field_bytes e1 _ _ hw1 mp1 mp2)
    intro e2 hw2 _
    apply appends_check hw2 (appends_field_bytes e2 _ _ hw2 mf1 mf2)
    intro e2' hw2' _
    apply appends_check hw2' (appends_field_uint e2' _ hw2' g1)
    intro e3 hw3 _
    apply appends_check hw3 (appends_encode_tx_to tx e3 hv hw3)
    intro e4 hw4 _
    apply appends_check hw4 (appends_field_bytes e4 _ _ hw4 va1 va2)
    intro e5 hw5 _
    apply appends_check hw5 (appends_encode_tx_data tx e5 hv hw5)
    intro e6 hw6 _
    apply appends_check hw6 (appends_access_list e6 hw6)
    intro e7 hw7 _
    have := htr e7 hv hw7
    cases sig <;> simpa using this

theorem appends_encode_tx_by_type (tx : eth_transaction_t) (sig : Bool) (e : rlp_encoder_t)
    (hv : tx.valid)
    (ht : tx.tx_type = ETH_LEGACY_TX ∨ tx.tx_type = ETH_EIP2930_TX ∨ tx.tx_type = ETH_EIP1559_TX)
    (hw : e.wf) :
    Appends (encode_tx_by_type tx e sig) e
      (rlp_ref (.list (unsigned_items tx ++ trailing_items tx sig))) := by
  rw [rlp_ref]
  exact appends_list e (fun e1 => encode_tx_fields tx e1 sig) _ hw
    (fun e1 hw1 => appends_encode_tx_fields tx sig e1 hv ht hw1)

theorem appends_tx_stream (tx : eth_transaction_t) (sig : Bool) (e : rlp_encoder_t)
    (hv : tx.valid)
    (ht : tx.tx_type = ETH_LEGACY_TX ∨ tx.tx_type = ETH_EIP2930_TX ∨ tx.tx_type = ETH_EIP1559_TX)
    (hw : e.wf) :
    Appends
      (check
        (if tx.tx_type = ETH_EIP2930_TX then rlp_encode_byte e 0x01
         else if tx.tx_type = ETH_EIP1559_TX then rlp_encode_byte e 0x02
         else (0, e))
        fun e1 => encode_tx_by_type tx e1 sig)
      e (tx_ref_encoding tx sig) := by
  unfold tx_ref_encoding type_tag
  apply appends_check hw _ (fun e1 hw1 _ => appends_encode_tx_by_type tx sig e1 hv ht hw1)
  rcases ht with ht | ht | ht
  · simp only [ht, show ¬ ((0 : Nat) = 1) by decide, show ¬ ((0 : Nat) = 2) by decide, if_false]
    exact appends_pure e hw
  · simp only [ht, if_true]
    have : rlp_encode_byte e 1 = rlp_insert_byte e 1 := by simp [rlp_encode_byte]
    rw [this]
    exact appends_insert_byte e 1 hw
  · simp only [ht, show ¬ ((2 : Nat) = 1) by decide, if_true, if_false]
    have : rlp_encode_byte e 2 = rlp_insert_byte e 2 := by simp [rlp_encode_byte]
    rw [this]
    exact appends_insert_byte e 2 hw

theorem eth_tx_encode_with_eq (sig : Bool) (t : eth_transaction_t) (buf : List Nat)
    (size out : Nat) (h0 : size ≠ 0) :
    eth_tx_encode_with sig (some t) (some buf) size (some out) =
      if (check
          (if t.tx_type = ETH_EIP2930_TX then rlp_encode_byte ⟨buf, size, 0⟩ 0x01
           else if t.tx_type = ETH_EIP1559_TX then rlp_encode_byte ⟨buf, size, 0⟩ 0x02
           else (0, ⟨buf, size, 0⟩))
          fun e1 => encode_tx_by_type t e1 sig).1 ≠ 0
      then
        ((check
          (if t.tx_type = ETH_EIP2930_TX then rlp_encode_byte ⟨buf, size, 0⟩ 0x01
           else if t.tx_type = ETH_EIP1559_TX then rlp_encode_byte ⟨buf, size, 0⟩ 0x02
           else (0, ⟨buf, size, 0⟩))
          fun e1 => encode_tx_by_type t e1 sig).1,
         some (check
          (if t.tx_type = ETH_EIP2930_TX then rlp_encode_byte ⟨buf, size, 0⟩ 0x01
           else if t.tx_type = ETH_EIP1559_TX then rlp_encode_byte ⟨buf, size, 0⟩ 0x02
           else (0, ⟨buf, size, 0⟩))
          fun e1 => encode_tx_by_type t e1 sig).2.buffer, some out)
      else
        (0, some (check
          (if t.tx_type = ETH_EIP2930_TX then rlp_encode_byte ⟨buf, size, 0⟩ 0x01
           else if t.tx_type = ETH_EIP1559_TX then rlp_encode_byte ⟨buf, size, 0⟩ 0x02
           else (0, ⟨buf, size, 0⟩))
          fun e1 => encode_tx_by_type t e1 sig).2.buffer,
         some (check
          (if t.tx_type = ETH_EIP2930_TX then rlp_encode_byte ⟨buf, size, 0⟩ 0x01
           else if t.tx_type = ETH_EIP1559_TX then rlp_encode_byte ⟨buf, size, 0⟩ 0x02
           else (0, ⟨buf, size, 0⟩))
          fun e1 => encode_tx_by_type t e1 sig).2.length) := by
  simp [eth_tx_encode_with, rlp_encoder_init, h0, rlp_get_length]

theorem eth_tx_encode_with_spec (sig : Bool) (tx : eth_transaction_t) (buf : List Nat)
    (size out : Nat) (hv : tx.valid)
    (ht : tx.tx_type = ETH_LEGACY_TX ∨ tx.tx_type = ETH_EIP2930_TX ∨ tx.tx_type = ETH_EIP1559_TX)
    (h0 : 0 < size) (hb : size ≤ buf.length) (hM : size < SIZE_MOD) :
    ((tx_ref_encoding tx sig).length ≤ size →
      ∃ b, eth_tx_encode_with sig (some tx) (some buf) size (some out)
          = (0, some b, some (tx_ref_encoding tx sig).length) ∧
        b.length = buf.length ∧
        b.take (tx_ref_encoding tx sig).length = tx_ref_encoding tx sig) ∧
    (size < (tx_ref_encoding tx sig).length →
      size + (tx_ref_encoding tx sig).length < SIZE_MOD →
      (eth_tx_encode_with sig (some tx) (some buf) size (some out)).1 ≠ 0 ∧
      (eth_tx_encode_with sig (some tx) (some buf) size (some out)).2.2 = some out) := by
  have hw : rlp_encoder_t.wf ⟨buf, size, 0⟩ := ⟨Nat.zero_le _, hb, hM⟩
  have hs := appends_tx_stream tx sig ⟨buf, size, 0⟩ hv ht hw
  rw [eth_tx_encode_with_eq sig tx buf size out (by omega)]
  generalize (check
          (if tx.tx_type = ETH_EIP2930_TX then rlp_encode_byte ⟨buf, size, 0⟩ 0x01
           else if tx.tx_type = ETH_EIP1559_TX then rlp_encode_byte ⟨buf, size, 0⟩ 0x02
           else (0, ⟨buf, size, 0⟩))
          fun e1 => encode_tx_by_type tx e1 sig) = r at hs ⊢
  constructor
  · intro hr
    obtain ⟨r0, a1, a2, a3, a4⟩ := hs.1 (by simpa using hr)
    simp only [Nat.zero_add] at a3
    simp only [rlp_encoder_t.written, List.take_zero, List.nil_append] at a4
    refine ⟨r.2.buffer, ?_, a2, ?_⟩
    · rw [if_neg (by simp [r0]), a3]
    · rw [← a3]; exact a4
  · intro hr hm
    have := hs.2 (by simpa using hr) hm
    rw [if_pos this]
    exact ⟨this, rfl⟩

theorem ref_encoding_pos (tx : eth_transaction_t) (sig : Bool) :
    0 < (tx_ref_encoding tx sig).length := by
  unfold tx_ref_encoding
  rw [rlp_ref]
  have := ref_header_length_pos 0xc0
    (rlp_ref_list (unsigned_items tx ++ trailing_items tx sig)).length
  simp only [List.length_append]
  omega

/-! ## The claims -/

theorem trailing_signed (tx : eth_transaction_t) (hv : tx.valid) :
    trailing_items tx true = signature_items tx := by
  obtain ⟨_, _, _, _, _, _, _, _, _, r1, s1, _⟩ := hv
  simp [trailing_items, signature_items, List.take_of_length_le (le_of_eq r1),
    List.take_of_length_le (le_of_eq s1)]

/-- C1: for every legacy transaction with valid fields and every buffer large enough,
`eth_tx_encode` succeeds, the bytes written are exactly the reference RLP encoding of the list
`[nonce, gasPrice, gasLimit, to, value, data, chainId, empty, empty]` with no type byte in
front (integers as minimal big-endian byte-strings), and `output_size` is its length. -/
theorem C1_legacy_unsigned_encoding (tx : eth_transaction_t) (buffer : List Nat)
    (buffer_size out : Nat) (hv : tx.valid) (ht : tx.tx_type = ETH_LEGACY_TX)
    (hb : buffer_size ≤ buffer.length) (hM : buffer_size < SIZE_MOD)
    (hroom : (rlp_ref (.list (legacy_items tx ++ replay_items tx))).length ≤ buffer_size) :
    ∃ b, eth_tx_encode (some tx) (some buffer) buffer_size (some out)
        = (TX_ERROR_NONE, some b,
            some (rlp_ref (.list (legacy_items tx ++ replay_items tx))).length) ∧
      b.take (rlp_ref (.list (legacy_items tx ++ replay_items tx))).length
        = rlp_ref (.list (legacy_items tx ++ replay_items tx)) := by
  have href : tx_ref_encoding tx false
      = rlp_ref (.list (legacy_items tx ++ replay_items tx)) := by
    simp [tx_ref_encoding, type_tag, unsigned_items, trailing_items, ht]
  have hpos := ref_encoding_pos tx false
  rw [href] at hpos
  obtain ⟨b, h1, _, h3⟩ := (eth_tx_encode_with_spec false tx buffer buffer_size out hv
    (Or.inl ht) (by omega) hb hM).1 (by rw [href]; exact hroom)
  rw [href] at h1 h3
  exact ⟨b, h1, h3⟩

theorem C1_legacy_unsigned_encoding_witness :
    ∃ b, eth_tx_encode (some sample_legacy_tx) (some (List.replicate 40 0)) 40 (some 0)
        = (TX_ERROR_NONE, some b, some 36) ∧
      b.take 36 = [0xe3, 0x2a, 0x03, 0x82, 0x52, 0x08, 0x94, 0x12, 0x34, 0x56, 0x78, 0x90, 0xab,
        0xcd, 0xef, 0x12, 0x34, 0x56, 0x78, 0x90, 0xab, 0xcd, 0xef, 0x12, 0x34, 0x56, 0x78,
        0x84, 0x0d, 0xe0, 0xb6, 0xb3, 0x80, 0x01, 0x80, 0x80] :=
  C1_legacy_unsigned_encoding sample_legacy_tx (List.replicate 40 0) 40 0
    (by decide) (by decide) (by decide) (by decide) (by decide)

/-- C2: for every EIP-1559 transaction with valid fields and every buffer large enough,
`eth_tx_encode` writes exactly the byte `0x02` followed by the reference RLP encoding of the
list `[chainId, nonce, maxPriorityFee, maxFee, gasLimit, to, value, data, empty-list]`; an
absent recipient (`to_len = 0`) is the empty byte-string `0x80` and the access list is the
single byte `0xc0`. -/
theorem C2_eip1559_unsigned_encoding (tx : eth_transaction_t) (buffer : List Nat)
    (buffer_size out : Nat) (hv : tx.valid) (ht : tx.tx_type = ETH_EIP1559_TX)
    (hb : buffer_size ≤ buffer.length) (hM : buffer_size < SIZE_MOD)
    (hroom : (0x02 :: rlp_ref (.list (eip1559_items tx))).length ≤ buffer_size) :
    ∃ b, eth_tx_encode (some tx) (some buffer) buffer_size (some out)
        = (TX_ERROR_NONE, some b, some (0x02 :: rlp_ref (.list (eip1559_items tx))).length) ∧
      b.take (0x02 :: rlp_ref (.list (eip1559_items tx))).length
        = 0x02 :: rlp_ref (.list (eip1559_items tx)) ∧
      (tx.to_len = 0 → rlp_ref (.str (tx.to_.take tx.to_len)) = [0x80]) ∧
      rlp_ref (.list []) = [0xc0] := by
  have href : tx_ref_encoding tx false = 0x02 :: rlp_ref (.list (eip1559_items tx)) := by
    simp [tx_ref_encoding, type_tag, unsigned_items, trailing_items, ht]
  have hpos := ref_encoding_pos tx false
  rw [href] at hpos
  obtain ⟨b, h1, _, h3⟩ := (eth_tx_encode_with_spec false tx buffer buffer_size out hv
    (Or.inr (Or.inr ht)) (by omega) hb hM).1 (by rw [href]; exact hroom)
  rw [href] at h1 h3
  exact ⟨b, h1, h3, fun h0 => by rw [h0]; rfl, rfl⟩

theorem C2_eip1559_unsigned_encoding_witness :
    ∃ b, eth_tx_encode (some sample_eip1559_tx) (some (List.replicate 40 0)) 40 (some 0)
        = (TX_ERROR_NONE, some b, some 37) ∧
      b.take 37 = [0x02, 0xe3, 0x01, 0x2a, 0x01, 0x05, 0x82, 0x52, 0x08, 0x94, 0x12, 0x34, 0x56,
        0x78, 0x90, 0xab, 0xcd, 0xef, 0x12, 0x34, 0x56, 0x78, 0x90, 0xab, 0xcd, 0xef, 0x12,
        0x34, 0x56, 0x78, 0x84, 0x0d, 0xe0, 0xb6, 0xb3, 0x80, 0xc0] :=
  let ⟨b, h1, h2, _⟩ := C2_eip1559_unsigned_encoding sample_eip1559_tx (List.replicate 40 0)
    40 0 (by decide) (by decide) (by decide) (by decide) (by decide)
  ⟨b, h1, h2⟩

/-- C3: for every EIP-2930 transaction with valid fields and every buffer large enough,
`eth_tx_encode` writes exactly the byte `0x01` followed by the reference RLP encoding of the
list `[chainId, nonce, gasPrice, gasLimit, to, value, data, empty-list]`. -/
theorem C3_eip2930_unsigned_encoding (tx : eth_transaction_t) (buffer : List Nat)
    (buffer_size out : Nat) (hv : tx.valid) (ht : tx.tx_type = ETH_EIP2930_TX)
    (hb : buffer_size ≤ buffer.length) (hM : buffer_size < SIZE_MOD)
    (hroom : (0x01 :: rlp_ref (.list (eip2930_items tx))).length ≤ buffer_size) :
    ∃ b, eth_tx_encode (some tx) (some buffer) buffer_size (some out)
        = (TX_ERROR_NONE, some b, some (0x01 :: rlp_ref (.list (eip2930_items tx))).length) ∧
      b.take (0x01 :: rlp_ref (.list (eip2930_items tx))).length
        = 0x01 :: rlp_ref (.list (eip2930_items tx)) := by
  have href : tx_ref_encoding tx false = 0x01 :: rlp_ref (.list (eip2930_items tx)) := by
    simp [tx_ref_encoding, type_tag, unsigned_items, trailing_items, ht]
  have hpos := ref_encoding_pos tx false
  rw [href] at hpos
  obtain ⟨b, h1, _, h3⟩ := (eth_tx_encode_with_spec false tx buffer buffer_size out hv
    (Or.inr (Or.inl ht)) (by omega) hb hM).1 (by rw [href]; exact hroom)
  rw [href] at h1 h3
  exact ⟨b, h1, h3⟩

theorem C3_eip2930_unsigned_encoding_witness :
    ∃ b, eth_tx_encode (some sample_eip2930_tx) (some (List.replicate 40 0)) 40 (some 0)
        = (TX_ERROR_NONE, some b, some 36) ∧
      b.take 36 = [0x01, 0xe2, 0x01, 0x2a, 0x03, 0x82, 0x52, 0x08, 0x94, 0x12, 0x34, 0x56, 0x78,
        0x90, 0xab, 0xcd, 0xef, 0x12, 0x34, 0x56, 0x78, 0x90, 0xab, 0xcd, 0xef, 0x12, 0x34,
        0x56, 0x78, 0x84, 0x0d, 0xe0, 0xb6, 0xb3, 0x80, 0xc0] :=
  C3_eip2930_unsigned_encoding sample_eip2930_tx (List.replicate 40 0) 40 0
    (by decide) (by decide) (by decide) (by decide) (by decide)

/-- C4: for every typed transaction (EIP-2930 or EIP-1559) with valid fields and every buffer
large enough, `eth_tx_encode_signed` writes the type byte (`0x01` resp. `0x02`) followed by
the reference RLP encoding of the list made of the kind's unsigned field sequence with three
items appended: `v` as an integer, `r` and `s` as 32-byte strings; the unsigned field sequence
is the one `eth_tx_encode` emits (same items, same order). -/
theorem C4_typed_signed_encoding (tx : eth_transaction_t) (buffer : List Nat)
    (buffer_size out : Nat) (hv : tx.valid)
    (ht : tx.tx_type = ETH_EIP2930_TX ∨ tx.tx_type = ETH_EIP1559_TX)
    (hb : buffer_size ≤ buffer.length) (hM : buffer_size < SIZE_MOD)
    (hroom : (tx.tx_type :: rlp_ref (.list (unsigned_items tx ++ signature_items tx))).length
      ≤ buffer_size) :
    (∃ b, eth_tx_encode_signed (some tx) (some buffer) buffer_size (some out)
        = (TX_ERROR_NONE, some b, some
            (tx.tx_type :: rlp_ref (.list (unsigned_items tx ++ signature_items tx))).length) ∧
      b.take (tx.tx_type :: rlp_ref (.list (unsigned_items tx ++ signature_items tx))).length
        = tx.tx_type :: rlp_ref (.list (unsigned_items tx ++ signature_items tx))) ∧
    tx.r.length = 32 ∧ tx.s.length = 32 ∧
    (tx.tx_type = ETH_EIP2930_TX → tx.tx_type = 0x01 ∧ unsigned_items tx = eip2930_items tx) ∧
    (tx.tx_type = ETH_EIP1559_TX → tx.tx_type = 0x02 ∧ unsigned_items tx = eip1559_items tx) ∧
    (∀ (buffer2 : List Nat) (size2 out2 : Nat), size2 ≤ buffer2.length → size2 < SIZE_MOD →
      (tx.tx_type :: rlp_ref (.list (unsigned_items tx))).length ≤ size2 →
      ∃ b2, eth_tx_encode (some tx) (some buffer2) size2 (some out2)
          = (TX_ERROR_NONE, some b2,
              some (tx.tx_type :: rlp_ref (.list (unsigned_items tx))).length) ∧
        b2.take (tx.tx_type :: rlp_ref (.list (unsigned_items tx))).length
          = tx.tx_type :: rlp_ref (.list (unsigned_items tx))) := by
  have hv' := hv
  obtain ⟨_, _, _, _, _, _, _, _, _, r1, s1, _⟩ := hv'
  have ht3 : tx.tx_type = ETH_LEGACY_TX ∨ tx.tx_type = ETH_EIP2930_TX ∨
      tx.tx_type = ETH_EIP1559_TX := Or.inr ht
  have htag : type_tag tx = [tx.tx_type] := by
    rcases ht with ht | ht <;> simp [type_tag, ht]
  have href : tx_ref_encoding tx true
      = tx.tx_type :: rlp_ref (.list (unsigned_items tx ++ signature_items tx)) := by
    simp [tx_ref_encoding, trailing_signed tx hv, htag]
  have hun : tx_ref_encoding tx false = tx.tx_type :: rlp_ref (.list (unsigned_items tx)) := by
    rcases ht with ht | ht <;> simp [tx_ref_encoding, trailing_items, type_tag, ht]
  refine ⟨?_, r1, s1, ?_, ?_, ?_⟩
  · have hpos := ref_encoding_pos tx true
    rw [href] at hpos
    obtain ⟨b, h1, _, h3⟩ := (eth_tx_encode_with_spec true tx buffer buffer_size out hv
      ht3 (by omega) hb hM).1 (by rw [href]; exact hroom)
    rw [href] at h1 h3
    exact ⟨b, h1, h3⟩
  · intro h; exact ⟨h, by simp [unsigned_items, h]⟩
  · intro h; exact ⟨h, by simp [unsigned_items, h]⟩
  · intro buffer2 size2 out2 hb2 hM2 hroom2
    have hpos := ref_encoding_pos tx false
    rw [hun] at hpos
    obtain ⟨b, h1, _, h3⟩ := (eth_tx_encode_with_spec false tx buffer2 size2 out2 hv
      ht3 (by omega) hb2 hM2).1 (by rw [hun]; exact hroom2)
    rw [hun] at h1 h3
    exact ⟨b, h1, h3⟩

theorem C4_typed_signed_encoding_witness :
    ∃ b, eth_tx_encode_signed (some sample_eip1559_tx) (some (List.replicate 128 0)) 128 (some 0)
        = (TX_ERROR_NONE, some b, some 105) ∧
      b.take 105 = [0x02, 0xf8, 0x66, 0x01, 0x2a, 0x01, 0x05, 0x82, 0x52, 0x08, 0x94, 0x12, 0x34,
        0x56, 0x78, 0x90, 0xab, 0xcd, 0xef, 0x12, 0x34, 0x56, 0x78, 0x90, 0xab, 0xcd, 0xef,
        0x12, 0x34, 0x56, 0x78, 0x84, 0x0d, 0xe0, 0xb6, 0xb3, 0x80, 0xc0, 0x80, 0xa0]
        ++ List.replicate 32 0 ++ [0xa0] ++ List.replicate 32 0 :=
  (C4_typed_signed_encoding sample_eip1559_tx (List.replicate 128 0) 128 0
    (by decide) (by decide) (by decide) (by decide) (by decide)).1

/-- C5: for every legacy transaction with valid fields and every buffer large enough,
`eth_tx_encode_signed` writes exactly the reference RLP encoding of the 9-item list
`[nonce, gasPrice, gasLimit, to, value, data, v, r, s]` with no type byte; the first six items
are those of the unsigned encoding, where `chainId, empty, empty` stand in place of
`v, r, s`. -/
theorem C5_legacy_signed_encoding (tx : eth_transaction_t) (buffer : List Nat)
    (buffer_size out : Nat) (hv : tx.valid) (ht : tx.tx_type = ETH_LEGACY_TX)
    (hb : buffer_size ≤ buffer.length) (hM : buffer_size < SIZE_MOD)
    (hroom : (rlp_ref (.list (legacy_items tx ++ signature_items tx))).length ≤ buffer_size) :
    (∃ b, eth_tx_encode_signed (some tx) (some buffer) buffer_size (some out)
        = (TX_ERROR_NONE, some b,
            some (rlp_ref (.list (legacy_items tx ++ signature_items tx))).length) ∧
      b.take (rlp_ref (.list (legacy_items tx ++ signature_items tx))).length
        = rlp_ref (.list (legacy_items tx ++ signature_items tx))) ∧
    (legacy_items tx ++ signature_items tx).length = 9 ∧
    tx.r.length = 32 ∧ tx.s.length = 32 ∧
    (∀ (buffer2 : List Nat) (size2 out2 : Nat), size2 ≤ buffer2.length → size2 < SIZE_MOD →
      (rlp_ref (.list (legacy_items tx ++ replay_items tx))).length ≤ size2 →
      ∃ b2, eth_tx_encode (some tx) (some buffer2) size2 (some out2)
          = (TX_ERROR_NONE, some b2,
              some (rlp_ref (.list (legacy_items tx ++ replay_items tx))).length) ∧
        b2.take (rlp_ref (.list (legacy_items tx ++ replay_items tx))).length
          = rlp_ref (.list (legacy_items tx ++ replay_items tx))) := by
  have hv' := hv
  obtain ⟨_, _, _, _, _, _, _, _, _, r1, s1, _⟩ := hv'
  have href : tx_ref_encoding tx true
      = rlp_ref (.list (legacy_items tx ++ signature_items tx)) := by
    simp [tx_ref_encoding, type_tag, unsigned_items, trailing_signed tx hv, ht]
  have hun : tx_ref_encoding tx false
      = rlp_ref (.list (legacy_items tx ++ replay_items tx)) := by
    simp [tx_ref_encoding, type_tag, unsigned_items, trailing_items, ht]
  refine ⟨?_, rfl, r1, s1, ?_⟩
  · have hpos := ref_encoding_pos tx true
    rw [href] at hpos
    obtain ⟨b, h1, _, h3⟩ := (eth_tx_encode_with_spec true tx buffer buffer_size out hv
      (Or.inl ht) (by omega) hb hM).1 (by rw [href]; exact hroom)
    rw [href] at h1 h3
    exact ⟨b, h1, h3⟩
  · intro buffer2 size2 out2 hb2 hM2 hroom2
    have hpos := ref_encoding_pos tx false
    rw [hun] at hpos
    obtain ⟨b, h1, _, h3⟩ := (eth_tx_encode_with_spec false tx buffer2 size2 out2 hv
      (Or.inl ht) (by omega) hb2 hM2).1 (by rw [hun]; exact hroom2)
    rw [hun] at h1 h3
    exact ⟨b, h1, h3⟩

theorem C5_legacy_signed_encoding_witness :
    ∃ b, eth_tx_encode_signed (some sample_legacy_tx) (some (List.replicate 128 0)) 128 (some 0)
        = (TX_ERROR_NONE, some b, some 101) ∧
      b.take 101 = [0xf8, 0x63, 0x2a, 0x03, 0x82, 0x52, 0x08, 0x94, 0x12, 0x34,
        0x56, 0x78, 0x90, 0xab, 0xcd, 0xef, 0x12, 0x34, 0x56, 0x78, 0x90, 0xab, 0xcd, 0xef,
        0x12, 0x34, 0x56, 0x78, 0x84, 0x0d, 0xe0, 0xb6, 0xb3, 0x80, 0x80, 0xa0]
        ++ List.replicate 32 0 ++ [0xa0] ++ List.replicate 32 0 :=
  (C5_legacy_signed_encoding sample_legacy_tx (List.replicate 128 0) 128 0
    (by decide) (by decide) (by decide) (by decide) (by decide)).1

/-- C6 (code evaluated at the failing input): signing the legacy sample transaction on chain
137 succeeds and stores `v = 53`, the low byte of `35 + 2 * 137 = 309`; it is neither
`0 + 35 + 2 * 137` nor `1 + 35 + 2 * 137`. -/
theorem C6_legacy_v_truncated_to_byte :
    (eth_tx_sign (some { sample_legacy_tx with chain_id := 137 }) (some sample_private_key)
        (List.replicate 1024 0)).1 = TX_ERROR_NONE ∧
    (eth_tx_sign (some { sample_legacy_tx with chain_id := 137 }) (some sample_private_key)
        (List.replicate 1024 0)).2.map (fun t => t.v) = some 53 ∧
    (53 : Nat) = (35 + 2 * 137) % 256 ∧
    (53 : Nat) ≠ 0 + 35 + 2 * 137 ∧ (53 : Nat) ≠ 1 + 35 + 2 * 137 := by
  decide

/-- C7: for every EIP-2930 or EIP-1559 transaction and every private key, after `eth_tx_sign`
succeeds the stored `v` is the recovery id the code uses, `0`, a value in `{0, 1}`; it does
not depend on `chain_id`: the same transaction with any other chain id gets the same `v`. -/
theorem C7_typed_v_is_recovery_id (tx : eth_transaction_t) (key : eth_private_key_t)
    (stack : List Nat) (ht : tx.tx_type = ETH_EIP2930_TX ∨ tx.tx_type = ETH_EIP1559_TX)
    (hs : (eth_tx_sign (some tx) (some key) stack).1 = TX_ERROR_NONE) :
    ∃ tx', (eth_tx_sign (some tx) (some key) stack).2 = some tx' ∧
      tx'.v = 0 ∧ (tx'.v = 0 ∨ tx'.v = 1) ∧
      ∀ (c : Nat) (stack2 : List Nat),
        (eth_tx_sign (some { tx with chain_id := c }) (some key) stack2).1 = TX_ERROR_NONE →
        ∃ tx2, (eth_tx_sign (some { tx with chain_id := c }) (some key) stack2).2 = some tx2 ∧
          tx2.v = tx'.v := by
  have hne : ¬ tx.tx_type = ETH_LEGACY_TX := by
    rcases ht with h | h <;> rw [h] <;> decide
  have key_fact : ∀ (t : eth_transaction_t) (st : List Nat), ¬ t.tx_type = ETH_LEGACY_TX →
      (eth_tx_sign (some t) (some key) st).1 = TX_ERROR_NONE →
      ∃ t', (eth_tx_sign (some t) (some key) st).2 = some t' ∧ t'.v = 0 := by
    intro t st hn h
    unfold eth_tx_sign at h ⊢
    simp only [] at h ⊢
    split at h
    · rename_i h1
      exfalso
      exact h1 h
    · split at h
      · rename_i h2
        exfalso
        exact h2 h
      · rename_i h1 h2
        rw [if_neg h1, if_neg h2, if_neg hn]
        exact ⟨_, rfl, rfl⟩
  obtain ⟨tx', h1, h2⟩ := key_fact tx stack hne hs
  refine ⟨tx', h1, h2, Or.inl h2, ?_⟩
  intro c stack2 hc
  obtain ⟨tx2, h3, h4⟩ := key_fact { tx with chain_id := c } stack2 hne hc
  exact ⟨tx2, h3, by rw [h4, h2]⟩

theorem C7_typed_v_is_recovery_id_witness :
    ∃ tx', (eth_tx_sign (some sample_eip1559_tx) (some sample_private_key)
        (List.replicate 1024 0)).2 = some tx' ∧
      tx'.v = 0 ∧ (tx'.v = 0 ∨ tx'.v = 1) ∧
      ∀ (c : Nat) (stack2 : List Nat),
        (eth_tx_sign (some { sample_eip1559_tx with chain_id := c }) (some sample_private_key)
          stack2).1 = TX_ERROR_NONE →
        ∃ tx2, (eth_tx_sign (some { sample_eip1559_tx with chain_id := c })
            (some sample_private_key) stack2).2 = some tx2 ∧
          tx2.v = tx'.v :=
  C7_typed_v_is_recovery_id sample_eip1559_tx sample_private_key (List.replicate 1024 0)
    (by decide) (by decide)

theorem getD_take_lt (b : List Nat) (n i : Nat) (h : i < n) :
    (b.take n).getD i 0 = b.getD i 0 := by
  simp [List.getElem?_take_of_lt h]

theorem eth_keccak256_take (b : List Nat) (n : Nat) (h : eth_hash_t) :
    eth_keccak256 (some (b.take n)) n (some h) = eth_keccak256 (some b) n (some h) := by
  unfold eth_keccak256
  simp only [Option.isNone_some, Bool.false_eq_true, false_and, if_false, Option.getD_some]
  by_cases h0 : n > 0
  · simp only [if_pos h0]
    rw [getD_take_lt b n 0 h0, getD_take_lt b n (n / 2) (by omega),
      getD_take_lt b n (n - 1) (by omega)]
    congr 3
    apply List.foldl_ext
    intro d i hi
    rw [List.mem_range] at hi
    rw [getD_take_lt b n i (by omega)]
  · simp only [if_neg h0]

theorem eth_keccak256_ok (x : List Nat) (n : Nat) :
    ∃ d, ∀ h' : eth_hash_t, eth_keccak256 (some x) n (some h') = (CRYPTO_ERROR_NONE, some d) := by
  unfold eth_keccak256
  simp only [Option.isNone_some, Bool.false_eq_true, false_and, if_false, Option.getD_some]
  exact ⟨_, fun _ => rfl⟩

theorem eth_tx_hash_eq (tx : eth_transaction_t) (stack : List Nat) (hash0 : eth_hash_t)
    (hv : tx.valid)
    (ht : tx.tx_type = ETH_LEGACY_TX ∨ tx.tx_type = ETH_EIP2930_TX ∨ tx.tx_type = ETH_EIP1559_TX)
    (hs : stack.length = 1024) (hfit : (tx_ref_encoding tx false).length ≤ 1024) :
    eth_tx_hash (some tx) (some hash0) stack
      = eth_keccak256 (some (tx_ref_encoding tx false)) (tx_ref_encoding tx false).length
          (some hash0) := by
  obtain ⟨b, h1, _, h3⟩ := (eth_tx_encode_with_spec false tx stack 1024 0 hv ht (by decide)
    (by omega) (by decide)).1 hfit
  unfold eth_tx_hash eth_tx_encode
  simp only [h1, ne_eq, not_true_eq_false, if_false, Option.getD_some]
  rw [← eth_keccak256_take, h3]

/-- C8 (as stated, refuted): the unsigned encoding of the legacy sample with 1100 bytes of
calldata succeeds in a 2048-byte buffer (1140 bytes), yet `eth_tx_hash` does not return the
hash of those bytes: its internal 1024-byte buffer is too small and it returns the
buffer-overflow code, leaving the hash untouched. -/
theorem C8_hash_fails_beyond_1024_bytes :
    (eth_tx_encode (some big_calldata_tx) (some (List.replicate 2048 0)) 2048 (some 0)).1
      = TX_ERROR_NONE ∧
    (eth_tx_encode (some big_calldata_tx) (some (List.replicate 2048 0)) 2048 (some 0)).2.2
      = some 1140 ∧
    eth_tx_hash (some big_calldata_tx) (some { data := List.replicate 32 0 })
        (List.replicate 1024 0)
      = (RLP_ERROR_BUFFER_OVERFLOW, some { data := List.replicate 32 0 }) ∧
    eth_tx_hash (some big_calldata_tx) (some { data := List.replicate 32 0 })
        (List.replicate 1024 0)
      ≠ eth_keccak256
          (eth_tx_encode (some big_calldata_tx) (some (List.replicate 2048 0)) 2048 (some 0)).2.1
          1140 (some { data := List.replicate 32 0 }) := by
  decide

/-- C8 (amended): for every transaction of a supported kind with valid fields whose unsigned
encoding is at most 1024 bytes long, `eth_tx_hash` succeeds and returns `eth_keccak256`
applied to exactly the bytes that `eth_tx_encode` produces for it in any buffer large enough
(the type tag followed by the RLP list), and `eth_tx_sign` hands this same digest to
`eth_sign`: the stored `r` and `s` are the two halves of that signature. -/
theorem C8_hash_is_keccak_of_unsigned_encoding (tx : eth_transaction_t)
    (key : eth_private_key_t) (stack buffer : List Nat) (buffer_size out : Nat)
    (hash0 : eth_hash_t) (hv : tx.valid)
    (ht : tx.tx_type = ETH_LEGACY_TX ∨ tx.tx_type = ETH_EIP2930_TX ∨ tx.tx_type = ETH_EIP1559_TX)
    (hs : stack.length = 1024) (hb : buffer_size ≤ buffer.length) (hM : buffer_size < SIZE_MOD)
    (hroom : (tx_ref_encoding tx false).length ≤ buffer_size)
    (hfit : (tx_ref_encoding tx false).length ≤ 1024) :
    ∃ b n d sg tx',
      eth_tx_encode (some tx) (some buffer) buffer_size (some out)
        = (TX_ERROR_NONE, some b, some n) ∧
      b.take n = type_tag tx ++
        rlp_ref (.list (unsigned_items tx ++ trailing_items tx false)) ∧
      eth_keccak256 (some (b.take n)) n (some hash0) = (CRYPTO_ERROR_NONE, some d) ∧
      eth_tx_hash (some tx) (some hash0) stack = (TX_ERROR_NONE, some d) ∧
      eth_sign (some d) (some key) (some { data := List.replicate 64 0 })
        = (CRYPTO_ERROR_NONE, some sg) ∧
      eth_tx_sign (some tx) (some key) stack = (TX_ERROR_NONE, some tx') ∧
      tx'.r = sg.data.take 32 ∧ tx'.s = (sg.data.drop 32).take 32 := by
  have hpos := ref_encoding_pos tx false
  obtain ⟨b, h1, _, h3⟩ := (eth_tx_encode_with_spec false tx buffer buffer_size out hv ht
    (by omega) hb hM).1 hroom
  obtain ⟨d, hd⟩ := eth_keccak256_ok (tx_ref_encoding tx false) (tx_ref_encoding tx false).length
  have hh : ∀ h0 : eth_hash_t, eth_tx_hash (some tx) (some h0) stack = (TX_ERROR_NONE, some d) :=
    fun h0 => by rw [eth_tx_hash_eq tx stack h0 hv ht hs hfit, hd h0]
  have hsg : ∃ sg, eth_sign (some d) (some key) (some { data := List.replicate 64 0 })
      = (CRYPTO_ERROR_NONE, some sg) := ⟨_, rfl⟩
  obtain ⟨sg, hsg⟩ := hsg
  have hsign : ∃ tx', eth_tx_sign (some tx) (some key) stack = (TX_ERROR_NONE, some tx') ∧
      tx'.r = sg.data.take 32 ∧ tx'.s = (sg.data.drop 32).take 32 := by
    unfold eth_tx_sign
    simp only [hh, hsg, ne_eq, not_true_eq_false, if_false, Option.getD_some]
    by_cases hl : tx.tx_type = ETH_LEGACY_TX
    · rw [if_pos hl]; exact ⟨_, rfl, rfl, rfl⟩
    · rw [if_neg hl]; exact ⟨_, rfl, rfl, rfl⟩
  obtain ⟨tx', hs1, hs2, hs3⟩ := hsign
  refine ⟨b, _, d, sg, tx', h1, h3, ?_, hh hash0, hsg, hs1, hs2, hs3⟩
  rw [h3]
  exact hd hash0

theorem C8_hash_is_keccak_of_unsigned_encoding_witness :
    ∃ b n d sg tx',
      eth_tx_encode (some sample_eip1559_tx) (some (List.replicate 40 0)) 40 (some 0)
        = (TX_ERROR_NONE, some b, some n) ∧
      b.take n = type_tag sample_eip1559_tx ++
        rlp_ref (.list (unsigned_items sample_eip1559_tx
          ++ trailing_items sample_eip1559_tx false)) ∧
      eth_keccak256 (some (b.take n)) n (some { data := [] }) = (CRYPTO_ERROR_NONE, some d) ∧
      eth_tx_hash (some sample_eip1559_tx) (some { data := [] }) (List.replicate 1024 0)
        = (TX_ERROR_NONE, some d) ∧
      eth_sign (some d) (some sample_private_key) (some { data := List.replicate 64 0 })
        = (CRYPTO_ERROR_NONE, some sg) ∧
      eth_tx_sign (some sample_eip1559_tx) (some sample_private_key) (List.replicate 1024 0)
        = (TX_ERROR_NONE, some tx') ∧
      tx'.r = sg.data.take 32 ∧ tx'.s = (sg.data.drop 32).take 32 :=
  C8_hash_is_keccak_of_unsigned_encoding sample_eip1559_tx sample_private_key
    (List.replicate 1024 0) (List.replicate 40 0) 40 0 { data := [] }
    (by decide) (by decide) (List.length_replicate 1024 0) (by decide) (by decide)
    (by decide) (by decide)

theorem be_decode_append (xs : List Nat) (d : Nat) :
    be_decode (xs ++ [d]) = be_decode xs * 256 + d := by
  simp [be_decode, List.foldl_append]

theorem be_decode_aux : ∀ (fuel n : Nat), n ≤ fuel → be_decode (be_minimal_aux fuel n) = n
  | 0, n, h => by
    have : n = 0 := by omega
    subst this; rfl
  | fuel + 1, n, h => by
    rw [be_minimal_aux]
    by_cases h0 : n = 0
    · subst h0; rfl
    · rw [if_neg h0, be_decode_append, be_decode_aux fuel (n / 256) (by omega)]
      omega

theorem be_decode_be_minimal (n : Nat) : be_decode (be_minimal n) = n :=
  be_decode_aux n n (le_refl n)

theorem reverse_head_of_getLast (ds : List Nat) (hne : ds ≠ []) (h : ds.getLast hne ≠ 0) :
    ∃ hd tl, ds.reverse = hd :: tl ∧ hd ≠ 0 := by
  have hr : ds.reverse ≠ [] := by simpa using hne
  cases hds : ds.reverse with
  | nil => exact absurd hds hr
  | cons hd tl =>
    refine ⟨hd, tl, rfl, ?_⟩
    have h1 : ds = (hd :: tl).reverse := by rw [← hds, List.reverse_reverse]
    subst h1
    simpa using h

theorem be_minimal_head_ne_zero (n : Nat) (h0 : n ≠ 0) :
    ∃ hd tl, be_minimal n = hd :: tl ∧ hd ≠ 0 := by
  rw [be_minimal_eq_digits]
  exact reverse_head_of_getLast _ (Nat.digits_ne_nil_iff_ne_zero.mpr h0)
    (Nat.getLast_digit_ne_zero 256 h0)

theorem be_minimal_lt_256 (n : Nat) : ∀ x ∈ be_minimal n, x < 256 := by
  intro x hx
  rw [be_minimal_eq_digits, List.mem_reverse] at hx
  exact Nat.digits_lt_base (by norm_num) hx

theorem be_minimal_length_bounds (n : Nat) (h0 : n ≠ 0) :
    1 ≤ (be_minimal n).length ∧ 256 ^ ((be_minimal n).length - 1) ≤ n ∧
      n < 256 ^ (be_minimal n).length := by
  rw [be_minimal_eq_digits, List.length_reverse]
  have h1 : 0 < (Nat.digits 256 n).length :=
    List.length_pos.mpr (Nat.digits_ne_nil_iff_ne_zero.mpr h0)
  have h2 := Nat.lt_base_pow_length_digits (b := 256) (m := n) (by norm_num)
  have h3 := Nat.base_pow_length_digits_le 256 n (by norm_num) h0
  refine ⟨h1, ?_, h2⟩
  obtain ⟨k, hk⟩ : ∃ k, (Nat.digits 256 n).length = k + 1 := ⟨_, (Nat.succ_pred_eq_of_pos h1).symm⟩
  rw [hk] at h3 ⊢
  rw [pow_succ, Nat.mul_comm] at h3
  simp only [Nat.add_sub_cancel]
  exact Nat.le_of_mul_le_mul_left h3 (by norm_num)

theorem first_appended (e e2 : rlp_encoder_t) (x : Nat) (xs : List Nat) (hw : e.wf)
    (ha : Appended e e2 (x :: xs)) : e2.buffer.getD e.length 0 = x := by
  obtain ⟨_, _, a3, a4⟩ := ha
  have hl : e.written.length = e.length := by
    simp [rlp_encoder_t.written]; have := hw.1; have := hw.2.1; omega
  have h1 : e2.written.getD e.length 0 = e2.buffer.getD e.length 0 :=
    getD_take_lt e2.buffer e2.length e.length (by simp at a3; omega)
  rw [← h1, a4]
  simp [List.getElem?_append_right (le_of_eq hl), hl]

/-- C9: for every byte-string `s` with `len(s) < 56` and an encoder with enough room,
`rlp_encode_bytes` succeeds, and the first byte it appends equals `0x80 + len(s)` if and only
if `len(s) != 1` or `s[0] >= 0x80`; in the remaining case (one byte below `0x80`) exactly that
byte is appended and nothing else, and in the prefixed case the prefix is followed by the
bytes of `s` unchanged. -/
theorem C9_short_string_first_byte (e : rlp_encoder_t) (s : List Nat) (hw : e.wf)
    (hlen : s.length < 56) (hroom : e.length + 1 + s.length ≤ e.buffer_size) :
    (rlp_encode_bytes e (some s) s.length).1 = RLP_ERROR_NONE ∧
    ((rlp_encode_bytes e (some s) s.length).2.buffer.getD e.length 0 = 0x80 + s.length ↔
      (s.length ≠ 1 ∨ 0x80 ≤ s.getD 0 0)) ∧
    (s.length = 1 ∧ s.getD 0 0 < 0x80 →
      (rlp_encode_bytes e (some s) s.length).2.length = e.length + 1 ∧
      (rlp_encode_bytes e (some s) s.length).2.written = e.written ++ [s.getD 0 0]) ∧
    (s.length ≠ 1 ∨ 0x80 ≤ s.getD 0 0 →
      (rlp_encode_bytes e (some s) s.length).2.length = e.length + 1 + s.length ∧
      (rlp_encode_bytes e (some s) s.length).2.written
        = e.written ++ (0x80 + s.length) :: s) := by
  have hsp := appends_encode_bytes e s s.length hw (le_refl _) (by unfold SIZE_MOD; omega)
  rw [List.take_length, rlp_ref_string_eq] at hsp
  by_cases hc : s.length = 1 ∧ s.getD 0 0 < 0x80
  · rw [if_pos hc] at hsp
    obtain ⟨r0, ha⟩ := hsp.1 (by omega)
    have hs1 : s = [s.getD 0 0] := by
      match s, hc.1 with
      | [a], _ => simp
    have hfirst : (rlp_encode_bytes e (some s) s.length).2.buffer.getD e.length 0
        = s.getD 0 0 := by
      apply first_appended e _ (s.getD 0 0) [] hw
      rw [← hs1]; exact ha
    refine ⟨r0, ?_, ?_, ?_⟩
    · rw [hfirst]
      constructor
      · intro h; omega
      · intro h; omega
    · intro _
      refine ⟨by rw [ha.2.2.1]; omega, ?_⟩
      rw [ha.2.2.2, ← hs1]
    · intro h; omega
  · rw [if_neg hc] at hsp
    simp only [rlp_ref_header, if_pos hlen, List.singleton_append] at hsp
    obtain ⟨r0, ha⟩ := hsp.1 (by simp; omega)
    have hfirst := first_appended e _ _ _ hw ha
    refine ⟨r0, ?_, ?_, ?_⟩
    · rw [hfirst]
      constructor
      · intro _; omega
      · intro _; rfl
    · intro h; exact absurd h hc
    · intro _
      refine ⟨by rw [ha.2.2.1]; simp; omega, ha.2.2.2⟩

theorem C9_short_string_first_byte_witness :
    (rlp_encode_bytes ⟨List.replicate 16 0, 16, 0⟩ (some [0x64, 0x6f, 0x67]) 3).1
      = RLP_ERROR_NONE ∧
    (rlp_encode_bytes ⟨List.replicate 16 0, 16, 0⟩ (some [0x64, 0x6f, 0x67]) 3).2.written
      = [0x83, 0x64, 0x6f, 0x67] :=
  have h := C9_short_string_first_byte ⟨List.replicate 16 0, 16, 0⟩ [0x64, 0x6f, 0x67]
    (by decide) (by decide) (by decide)
  ⟨h.1, (h.2.2.2 (by decide)).2⟩

/-- C10: for every byte-string `s` with `len(s) >= 56` (below `2^64`) and an encoder with
enough room, `rlp_encode_bytes` appends the byte `0xb7 + k`, then the `k` bytes of `len(s)` in
big-endian form, then `s`, where `k` is the minimal number of bytes that holds `len(s)` (at
most 8, first length byte non-zero); the cursor advances by `1 + k + len(s)`. -/
theorem C10_long_string_encoding (e : rlp_encoder_t) (s : List Nat) (hw : e.wf)
    (hlen : 56 ≤ s.length)
    (hroom : e.length + 1 + (be_minimal s.length).length + s.length ≤ e.buffer_size) :
    (rlp_encode_bytes e (some s) s.length).1 = RLP_ERROR_NONE ∧
    (rlp_encode_bytes e (some s) s.length).2.written
      = e.written ++ (0xb7 + (be_minimal s.length).length) :: (be_minimal s.length ++ s) ∧
    (rlp_encode_bytes e (some s) s.length).2.length
      = e.length + 1 + (be_minimal s.length).length + s.length ∧
    be_decode (be_minimal s.length) = s.length ∧
    (∀ x ∈ be_minimal s.length, x < 256) ∧
    (∃ hd tl, be_minimal s.length = hd :: tl ∧ hd ≠ 0) ∧
    1 ≤ (be_minimal s.length).length ∧ (be_minimal s.length).length ≤ 8 ∧
    256 ^ ((be_minimal s.length).length - 1) ≤ s.length ∧
    s.length < 256 ^ (be_minimal s.length).length ∧
    s.length < SIZE_MOD := by
  have hM : s.length < SIZE_MOD := by have := hw.2.2; omega
  have hsp := appends_encode_bytes e s s.length hw (le_refl _) hM
  rw [List.take_length, rlp_ref_string_eq, if_neg (by omega)] at hsp
  simp only [rlp_ref_header, if_neg (by omega : ¬ s.length < 56), List.cons_append] at hsp
  obtain ⟨r0, ha⟩ := hsp.1 (by simp; omega)
  obtain ⟨b1, b2, b3⟩ := be_minimal_length_bounds s.length (by omega)
  refine ⟨r0, ha.2.2.2, by rw [ha.2.2.1]; simp; omega, be_decode_be_minimal _,
    be_minimal_lt_256 _, be_minimal_head_ne_zero _ (by omega), b1,
    be_minimal_length_le _ hM, b2, b3, hM⟩

theorem C10_long_string_encoding_witness :
    (rlp_encode_bytes ⟨List.replicate 80 0, 80, 0⟩ (some (List.range 60)) 60).1
      = RLP_ERROR_NONE ∧
    (rlp_encode_bytes ⟨List.replicate 80 0, 80, 0⟩ (some (List.range 60)) 60).2.written
      = 0xb8 :: 60 :: List.range 60 :=
  have h := C10_long_string_encoding ⟨List.replicate 80 0, 80, 0⟩ (List.range 60)
    (by decide) (by decide) (by decide)
  ⟨h.1, h.2.1⟩

/-- C11: `rlp_encode_uint(0)` appends exactly the byte `0x80`; for every 64-bit `v > 0`,
`rlp_encode_uint(v)` does exactly what `rlp_encode_bytes` does for the big-endian byte
sequence `b` of `v` (same status, same encoder state), where `b` has no leading zero byte,
has at most 8 bytes, each below 256, and decodes back to `v` under big-endian decoding. -/
theorem C11_uint_as_minimal_big_endian (e : rlp_encoder_t) (v : Nat) (hw : e.wf)
    (hv : v < SIZE_MOD) :
    rlp_encode_uint e 0 = rlp_encode_bytes e (some []) 0 ∧
    (e.length + 1 ≤ e.buffer_size →
      (rlp_encode_uint e 0).1 = RLP_ERROR_NONE ∧
      (rlp_encode_uint e 0).2.written = e.written ++ [0x80] ∧
      (rlp_encode_uint e 0).2.length = e.length + 1) ∧
    (0 < v →
      rlp_encode_uint e v = rlp_encode_bytes e (some (be_minimal v)) (be_minimal v).length ∧
      be_decode (be_minimal v) = v ∧
      (∃ hd tl, be_minimal v = hd :: tl ∧ hd ≠ 0) ∧
      (be_minimal v).length ≤ 8 ∧
      (∀ x ∈ be_minimal v, x < 256)) := by
  refine ⟨by simp [rlp_encode_uint, rlp_encode_bytes], ?_, ?_⟩
  · intro hroom
    have h := (appends_encode_uint e 0 hw (by decide)).1 (by
      show e.length + (rlp_ref_string (be_minimal 0)).length ≤ e.buffer_size
      exact hroom)
    obtain ⟨h0, _, _, h3, h4⟩ := h
    exact ⟨h0, h4, h3⟩
  · intro h0
    refine ⟨?_, be_decode_be_minimal v, be_minimal_head_ne_zero v (by omega),
      be_minimal_length_le v hv, be_minimal_lt_256 v⟩
    unfold rlp_encode_uint
    rw [if_neg (by omega)]
    simp only []
    rw [be_copy v h0 hv, le_bytes_loop_length v h0 hv]

theorem C11_uint_as_minimal_big_endian_witness :
    (rlp_encode_uint ⟨List.replicate 16 0, 16, 0⟩ 0).2.written = [0x80] ∧
    rlp_encode_uint ⟨List.replicate 16 0, 16, 0⟩ 21000
      = rlp_encode_bytes ⟨List.replicate 16 0, 16, 0⟩ (some [0x52, 0x08]) 2 ∧
    be_decode [0x52, 0x08] = 21000 :=
  have h := C11_uint_as_minimal_big_endian ⟨List.replicate 16 0, 16, 0⟩ 21000
    (by decide) (by decide)
  ⟨(h.2.1 (by decide)).2.1, (h.2.2 (by decide)).1, (h.2.2 (by decide)).2.1⟩

/-- C17: `rlp_encoder_init` fails with the invalid-argument error when the encoder or the
buffer is absent or the capacity is 0; otherwise it succeeds with cursor 0 and the given
buffer and capacity, whatever the encoder held before, and `rlp_get_length` then returns 0;
in general `rlp_get_length` returns the current cursor (0 for an absent encoder). -/
theorem C17_encoder_init_and_length (encoder : Option rlp_encoder_t)
    (buffer : Option (List Nat)) (e0 e : rlp_encoder_t) (buf : List Nat) (size : Nat) :
    (rlp_encoder_init none buffer size).1 = RLP_ERROR_INVALID_PARAM ∧
    (rlp_encoder_init encoder none size).1 = RLP_ERROR_INVALID_PARAM ∧
    (rlp_encoder_init encoder buffer 0).1 = RLP_ERROR_INVALID_PARAM ∧
    rlp_encoder_init (some e0) (some buf) (size + 1)
      = (RLP_ERROR_NONE, some { buffer := buf, buffer_size := size + 1, length := 0 }) ∧
    rlp_get_length (rlp_encoder_init (some e0) (some buf) (size + 1)).2 = 0 ∧
    rlp_get_length (some e) = e.length ∧
    rlp_get_length none = 0 := by
  refine ⟨rfl, ?_, ?_, ?_, ?_, rfl, rfl⟩
  · cases encoder <;> rfl
  · cases encoder <;> cases buffer <;> rfl
  · simp [rlp_encoder_init]
  · simp [rlp_encoder_init, rlp_get_length]

theorem getD_append_lt (a b : List Nat) (i : Nat) (h : i < a.length) :
    (a ++ b).getD i 0 = a.getD i 0 := by
  simp [List.getElem?_append_left h]

theorem getD_append_add (a b : List Nat) (i : Nat) :
    (a ++ b).getD (a.length + i) 0 = b.getD i 0 := by
  simp [List.getElem?_append_right (Nat.le_add_right a.length i)]

theorem getD_append_at (a b : List Nat) (off i : Nat) (h : a.length = off) :
    (a ++ b).getD (off + i) 0 = b.getD i 0 := by
  subst h
  exact getD_append_add a b i

theorem getD_append_ge (a b : List Nat) (i : Nat) (h : a.length ≤ i) :
    (a ++ b).getD i 0 = b.getD (i - a.length) 0 := by
  simp [List.getElem?_append_right h]

theorem memcpy_bytes (dst src : List Nat) (off n : Nat) (h1 : off + n ≤ dst.length)
    (h2 : n ≤ src.length) :
    (memcpy dst off src n).length = dst.length ∧
    (∀ i, i < n → (memcpy dst off src n).getD (off + i) 0 = src.getD i 0) ∧
    (∀ i, i < off ∨ off + n ≤ i → (memcpy dst off src n).getD i 0 = dst.getD i 0) := by
  have ha : (dst.take off).length = off := by simp; omega
  have hs : (src.take n).length = n := by simp; omega
  unfold memcpy
  refine ⟨by simp; omega, ?_, ?_⟩
  · intro i hi
    rw [List.append_assoc, getD_append_at _ _ off i ha, getD_append_lt _ _ _ (by omega)]
    exact getD_take_lt src n i hi
  · intro i hi
    rcases hi with hi | hi
    · rw [List.append_assoc, getD_append_lt _ _ _ (by omega)]
      exact getD_take_lt dst off i hi
    · rw [getD_append_ge _ _ _ (by simp; omega)]
      simp only [List.length_append, ha, hs]
      simp only [List.getD_eq_getElem?_getD, List.getElem?_drop]
      congr 2
      omega

/-- C15: the append primitive `rlp_insert` (and its one-byte form `rlp_insert_byte`) fails
with the buffer-overflow error if and only if `cursor + len > capacity`, and then leaves the
encoder (cursor and buffer) unchanged; otherwise it copies the bytes to offsets
`cursor .. cursor + len - 1`, leaves every other byte as it was, and advances the cursor by
exactly `len`. The data holds `len` bytes and lies with the buffer in one 64-bit address
space. -/
theorem C15_append_primitive (e : rlp_encoder_t) (data : List Nat) (len b : Nat) (hw : e.wf)
    (hlen : len ≤ data.length) (hmem : e.buffer_size + len + 1 < SIZE_MOD) :
    ((rlp_insert e data len).1 = RLP_ERROR_BUFFER_OVERFLOW ↔ e.length + len > e.buffer_size) ∧
    ((rlp_insert e data len).1 = RLP_ERROR_NONE ↔ e.length + len ≤ e.buffer_size) ∧
    (e.length + len > e.buffer_size → rlp_insert e data len = (RLP_ERROR_BUFFER_OVERFLOW, e)) ∧
    (e.length + len ≤ e.buffer_size →
      (rlp_insert e data len).2.length = e.length + len ∧
      (rlp_insert e data len).2.buffer_size = e.buffer_size ∧
      (rlp_insert e data len).2.buffer.length = e.buffer.length ∧
      (∀ i, i < len → (rlp_insert e data len).2.buffer.getD (e.length + i) 0 = data.getD i 0) ∧
      (∀ i, i < e.length ∨ e.length + len ≤ i →
        (rlp_insert e data len).2.buffer.getD i 0 = e.buffer.getD i 0)) ∧
    ((rlp_insert_byte e b).1 = RLP_ERROR_BUFFER_OVERFLOW ↔ e.length + 1 > e.buffer_size) ∧
    ((rlp_insert_byte e b).1 = RLP_ERROR_NONE ↔ e.length + 1 ≤ e.buffer_size) ∧
    (e.length + 1 > e.buffer_size → rlp_insert_byte e b = (RLP_ERROR_BUFFER_OVERFLOW, e)) ∧
    (e.length + 1 ≤ e.buffer_size →
      (rlp_insert_byte e b).2.length = e.length + 1 ∧
      (rlp_insert_byte e b).2.buffer_size = e.buffer_size ∧
      (rlp_insert_byte e b).2.buffer.length = e.buffer.length ∧
      (rlp_insert_byte e b).2.buffer.getD e.length 0 = b ∧
      (∀ i, i ≠ e.length → (rlp_insert_byte e b).2.buffer.getD i 0 = e.buffer.getD i 0)) := by
  obtain ⟨w1, w2, w3⟩ := hw
  have hm : (e.length + len) % SIZE_MOD = e.length + len := Nat.mod_eq_of_lt (by omega)
  have hm1 : (e.length + 1) % SIZE_MOD = e.length + 1 := Nat.mod_eq_of_lt (by omega)
  unfold rlp_insert rlp_insert_byte
  rw [hm, hm1]
  refine ⟨?_, ?_, ?_, ?_, ?_, ?_, ?_, ?_⟩
  · by_cases h : e.length + len > e.buffer_size
    · simp [h]
    · simp [h]
  · by_cases h : e.length + len > e.buffer_size
    · simp [h]
    · simp [h]; omega
  · intro h; rw [if_pos h]
  · intro h
    rw [if_neg (by omega)]
    obtain ⟨m1, m2, m3⟩ := memcpy_bytes e.buffer data e.length len (by omega) hlen
    exact ⟨rfl, rfl, m1, m2, m3⟩
  · by_cases h : e.length + 1 > e.buffer_size
    · simp [h]
    · simp [h]
  · by_cases h : e.length + 1 > e.buffer_size
    · simp [h]
    · simp [h]; omega
  · intro h; rw [if_pos h]
  · intro h
    rw [if_neg (by omega)]
    refine ⟨rfl, rfl, by simp, ?_, ?_⟩
    · have hlt : e.length < e.buffer.length := by omega
      simp [List.getElem?_set, hlt]
    · intro i hi
      simp [List.getElem?_set, Ne.symm hi]

theorem C15_append_primitive_witness :
    rlp_insert ⟨List.replicate 4 0, 4, 1⟩ [0x64, 0x6f, 0x67] 3
      = (RLP_ERROR_NONE, ⟨[0, 0x64, 0x6f, 0x67], 4, 4⟩) ∧
    rlp_insert ⟨List.replicate 4 0, 4, 2⟩ [0x64, 0x6f, 0x67] 3
      = (RLP_ERROR_BUFFER_OVERFLOW, ⟨List.replicate 4 0, 4, 2⟩) :=
  have h := C15_append_primitive ⟨List.replicate 4 0, 4, 2⟩ [0x64, 0x6f, 0x67] 3 0
    (by decide) (by decide) (by decide)
  ⟨by decide, h.2.2.1 (by decide)⟩

theorem written_length (e : rlp_encoder_t) (hw : e.wf) : e.written.length = e.length := by
  simp [rlp_encoder_t.written]; have := hw.1; have := hw.2.1; omega

/-- C12: let `m` be the marker returned by a successful `rlp_begin_list` in state `e0`, and
let `e` be a later state in which `content` (fewer than 56 bytes) is everything written since
that call, inner lists being closed. Then `m` is the cursor of `e0`, the content length is
`cursor - m - 1`, and `rlp_end_list(m)` succeeds and only overwrites the byte at `m` with
`0xc0 + n` (the list prefix for content length `n`): the cursor is unchanged and no other
byte is touched. -/
theorem C12_short_list_backpatch (e0 e : rlp_encoder_t) (content : List Nat) (hw0 : e0.wf)
    (hw : e.wf) (hroom : e0.length + 1 ≤ e0.buffer_size)
    (hcontent : e.written = (rlp_begin_list e0).2.1.written ++ content)
    (hshort : content.length < 56) :
    (rlp_begin_list e0).1 = RLP_ERROR_NONE ∧
    (rlp_begin_list e0).2.2 = e0.length ∧
    e.length - (rlp_begin_list e0).2.2 - 1 = content.length ∧
    (rlp_end_list e (rlp_begin_list e0).2.2).1 = RLP_ERROR_NONE ∧
    (rlp_end_list e (rlp_begin_list e0).2.2).2.length = e.length ∧
    (rlp_end_list e (rlp_begin_list e0).2.2).2.buffer_size = e.buffer_size ∧
    (rlp_end_list e (rlp_begin_list e0).2.2).2.buffer
      = e.buffer.set e0.length (0xc0 + content.length) ∧
    (rlp_end_list e (rlp_begin_list e0).2.2).2.buffer.getD e0.length 0
      = 0xc0 + content.length ∧
    (∀ i, i ≠ e0.length →
      (rlp_end_list e (rlp_begin_list e0).2.2).2.buffer.getD i 0 = e.buffer.getD i 0) ∧
    (rlp_end_list e (rlp_begin_list e0).2.2).2.written
      = e0.written ++ (0xc0 + content.length) :: content ∧
    rlp_ref_header 0xc0 content.length = [0xc0 + content.length] := by
  have hb := appends_insert_byte e0 0xc0 hw0
  obtain ⟨hb0, _, _, _, hbw⟩ := hb.1 hroom
  have hm : (rlp_begin_list e0).2.2 = e0.length := rfl
  have hcw : e.written = e0.written ++ 0xc0 :: content := by
    rw [hcontent]
    show (rlp_insert_byte e0 0xc0).2.written ++ content = _
    rw [hbw]; simp
  have hl0 := written_length e0 hw0
  have hl := written_length e hw
  have hlen : e.length = e0.length + 1 + content.length := by
    have := congrArg List.length hcw
    simp at this
    omega
  have hmlt : e0.length < e.buffer.length := by have := hw.1; have := hw.2.1; omega
  have hres : rlp_end_list e e0.length
      = (RLP_ERROR_NONE, { e with buffer := e.buffer.set e0.length (0xc0 + content.length) }) := by
    unfold rlp_end_list
    have hn : e.length - e0.length - 1 = content.length := by omega
    simp only [hn]
    rw [if_neg (by omega), if_pos hshort,
      show (RLP_SHORT_LIST_PREFIX + content.length) % 256 = 0xc0 + content.length from
        Nat.mod_eq_of_lt (by unfold RLP_SHORT_LIST_PREFIX; omega)]
  rw [hm, hres]
  refine ⟨hb0, rfl, by omega, rfl, rfl, rfl, rfl, ?_, ?_, ?_, ?_⟩
  · simp [List.getElem?_set, hmlt]
  · intro i hi
    simp [List.getElem?_set, Ne.symm hi]
  · have h := (end_list_spec e e0.written content 0xc0 hw hcw).1 (by
      have hle := hw.1
      simp only [rlp_ref_header, if_pos hshort, List.length_singleton]
      omega)
    rw [hl0, hres] at h
    have h5 := h.2.2.2.2
    simp only [rlp_ref_header, if_pos hshort, List.singleton_append] at h5
    exact h5
  · simp [rlp_ref_header, hshort]

theorem C12_short_list_backpatch_witness :
    (rlp_end_list ⟨[0xc0, 0x83, 0x63, 0x61, 0x74, 0x83, 0x64, 0x6f, 0x67, 0, 0, 0], 12, 9⟩ 0).1
      = RLP_ERROR_NONE ∧
    (rlp_end_list ⟨[0xc0, 0x83, 0x63, 0x61, 0x74, 0x83, 0x64, 0x6f, 0x67, 0, 0, 0], 12, 9⟩
        0).2.buffer
      = [0xc8, 0x83, 0x63, 0x61, 0x74, 0x83, 0x64, 0x6f, 0x67, 0, 0, 0] ∧
    (rlp_end_list ⟨[0xc0, 0x83, 0x63, 0x61, 0x74, 0x83, 0x64, 0x6f, 0x67, 0, 0, 0], 12, 9⟩
        0).2.length = 9 :=
  have h := C12_short_list_backpatch ⟨List.replicate 12 0, 12, 0⟩
    ⟨[0xc0, 0x83, 0x63, 0x61, 0x74, 0x83, 0x64, 0x6f, 0x67, 0, 0, 0], 12, 9⟩
    [0x83, 0x63, 0x61, 0x74, 0x83, 0x64, 0x6f, 0x67]
    (by decide) (by decide) (by decide) (by decide) (by decide)
  ⟨h.2.2.2.1, h.2.2.2.2.2.2.1, h.2.2.2.2.1⟩

theorem split_cons (w : List Nat) (m : Nat) (h : m < w.length) :
    ∃ pre x post, w = pre ++ x :: post ∧ pre.length = m := by
  have hd : w.drop m ≠ [] := by
    intro hc
    have := congrArg List.length hc
    simp at this
    omega
  cases hdm : w.drop m with
  | nil => exact absurd hdm hd
  | cons x post =>
    refine ⟨w.take m, x, post, ?_, by simp; omega⟩
    rw [← hdm, List.take_append_drop]

/-- C13: for every encoder state where the content after marker `m` has `n >= 56` bytes and
the buffer has room for `k` more bytes (`k` the minimal big-endian byte count of `n`),
`rlp_end_list(m)` succeeds and yields: byte `m` is `0xf7 + k`, bytes `m+1 .. m+k` are `n` in
big-endian (`1 <= k <= 8`, no leading zero), bytes `m+1+k .. m+k+n` are the former content
bytes `m+1 .. m+n` in the same order, the cursor has advanced by exactly `k`, and every byte
at an offset below `m` is unchanged. -/
theorem C13_long_list_shift (e : rlp_encoder_t) (m : Nat) (hw : e.wf) (hm : m < e.length)
    (hlong : 56 ≤ e.length - m - 1)
    (hroom : e.length + (be_minimal (e.length - m - 1)).length ≤ e.buffer_size) :
    (rlp_end_list e m).1 = RLP_ERROR_NONE ∧
    (rlp_end_list e m).2.length = e.length + (be_minimal (e.length - m - 1)).length ∧
    (rlp_end_list e m).2.buffer_size = e.buffer_size ∧
    (rlp_end_list e m).2.buffer.length = e.buffer.length ∧
    (rlp_end_list e m).2.buffer.getD m 0 = 0xf7 + (be_minimal (e.length - m - 1)).length ∧
    (∀ i, i < (be_minimal (e.length - m - 1)).length →
      (rlp_end_list e m).2.buffer.getD (m + 1 + i) 0
        = (be_minimal (e.length - m - 1)).getD i 0) ∧
    (∀ i, i < e.length - m - 1 →
      (rlp_end_list e m).2.buffer.getD
          (m + 1 + (be_minimal (e.length - m - 1)).length + i) 0
        = e.buffer.getD (m + 1 + i) 0) ∧
    (∀ i, i < m → (rlp_end_list e m).2.buffer.getD i 0 = e.buffer.getD i 0) ∧
    be_decode (be_minimal (e.length - m - 1)) = e.length - m - 1 ∧
    (∃ hd tl, be_minimal (e.length - m - 1) = hd :: tl ∧ hd ≠ 0) ∧
    1 ≤ (be_minimal (e.length - m - 1)).length ∧
    (be_minimal (e.length - m - 1)).length ≤ 8 ∧
    256 ^ ((be_minimal (e.length - m - 1)).length - 1) ≤ e.length - m - 1 ∧
    e.length - m - 1 < 256 ^ (be_minimal (e.length - m - 1)).length := by
  have hwl := written_length e hw
  obtain ⟨pre, x, payload, hwr, hpre⟩ := split_cons e.written m (by omega)
  obtain ⟨w1, w2, w3⟩ := hw
  obtain ⟨buf, size, len⟩ := e
  simp only [rlp_encoder_t.written] at *
  have hlen : len = pre.length + 1 + payload.length := by
    have := congrArg List.length hwr
    simp at this
    omega
  have hbuf : buf = pre ++ x :: (payload ++ buf.drop len) := by
    conv_lhs => rw [← List.take_append_drop len buf, hwr]
    simp
  generalize buf.drop len = rest at hbuf
  subst hbuf hlen hpre
  have hn : pre.length + 1 + payload.length - pre.length - 1 = payload.length := by omega
  rw [hn] at hlong hroom ⊢
  have hrest : size ≤ pre.length + 1 + payload.length + rest.length := by
    simp at w2; omega
  have hnM : payload.length < SIZE_MOD := by omega
  obtain ⟨b1, b2, b3⟩ := be_minimal_length_bounds payload.length (by omega)
  have hk8 := be_minimal_length_le payload.length hnM
  rw [end_list_long pre payload rest x size (by omega) hnM hroom w3 (by omega)]
  refine ⟨rfl, rfl, rfl, ?_, ?_, ?_, ?_, ?_, be_decode_be_minimal _,
    be_minimal_head_ne_zero _ (by omega), b1, hk8, b2, b3⟩
  · simp
    omega
  · show (pre ++ _ :: _).getD pre.length 0 = _
    have := getD_append_at pre
      ((0xf7 + (be_minimal payload.length).length) ::
        (be_minimal payload.length ++ payload
          ++ List.drop (be_minimal payload.length).length rest)) pre.length 0 rfl
    simpa using this
  · intro i hi
    show (pre ++ _ :: _).getD (pre.length + 1 + i) 0 = _
    rw [show pre ++ (0xf7 + (be_minimal payload.length).length) ::
          (be_minimal payload.length ++ payload
            ++ List.drop (be_minimal payload.length).length rest)
        = (pre ++ [0xf7 + (be_minimal payload.length).length])
          ++ (be_minimal payload.length ++ (payload
            ++ List.drop (be_minimal payload.length).length rest)) by simp]
    rw [getD_append_at _ _ (pre.length + 1) i (by simp), getD_append_lt _ _ _ hi]
  · intro i hi
    show (pre ++ _ :: _).getD (pre.length + 1 + (be_minimal payload.length).length + i) 0
      = (pre ++ x :: (payload ++ rest)).getD (pre.length + 1 + i) 0
    rw [show pre ++ (0xf7 + (be_minimal payload.length).length) ::
          (be_minimal payload.length ++ payload
            ++ List.drop (be_minimal payload.length).length rest)
        = (pre ++ [0xf7 + (be_minimal payload.length).length] ++ be_minimal payload.length)
          ++ (payload ++ List.drop (be_minimal payload.length).length rest) by simp]
    rw [show pre ++ x :: (payload ++ rest) = (pre ++ [x]) ++ (payload ++ rest) by simp]
    rw [getD_append_at _ _ (pre.length + 1 + (be_minimal payload.length).length) i
        (by simp; omega),
      getD_append_at _ _ (pre.length + 1) i (by simp), getD_append_lt _ _ _ hi,
      getD_append_lt _ _ _ hi]
  · intro i hi
    show (pre ++ _ :: _).getD i 0 = (pre ++ x :: (payload ++ rest)).getD i 0
    rw [getD_append_lt _ _ _ hi, getD_append_lt _ _ _ hi]

theorem C13_long_list_shift_witness :
    (rlp_end_list ⟨0xc0 :: List.range 60 ++ [0, 0, 0], 64, 61⟩ 0).1 = RLP_ERROR_NONE ∧
    (rlp_end_list ⟨0xc0 :: List.range 60 ++ [0, 0, 0], 64, 61⟩ 0).2.length = 62 ∧
    (rlp_end_list ⟨0xc0 :: List.range 60 ++ [0, 0, 0], 64, 61⟩ 0).2.buffer.getD 0 0 = 0xf8 :=
  have h := C13_long_list_shift ⟨0xc0 :: List.range 60 ++ [0, 0, 0], 64, 61⟩ 0
    (by decide) (by decide) (by decide) (by decide)
  ⟨h.1, h.2.1, h.2.2.2.2.1⟩

theorem appends_success {r : Int × rlp_encoder_t} {e : rlp_encoder_t} {bs : List Nat}
    (h : Appends r e bs) (hm : e.buffer_size + bs.length < SIZE_MOD) (h0 : r.1 = 0) :
    Appended e r.2 bs := by
  by_cases hr : e.length + bs.length ≤ e.buffer_size
  · exact (h.1 hr).2
  · exact absurd h0 (h.2 (by omega) hm)

theorem insert_byte_fail (e : rlp_encoder_t) (b : Nat) (h : (rlp_insert_byte e b).1 ≠ 0) :
    (rlp_insert_byte e b).2 = e := by
  unfold rlp_insert_byte at h ⊢
  split
  · rfl
  · rename_i hc
    rw [if_neg hc] at h
    exact absurd rfl h

theorem insert_fail (e : rlp_encoder_t) (d : List Nat) (n : Nat)
    (h : (rlp_insert e d n).1 ≠ 0) : (rlp_insert e d n).2 = e := by
  unfold rlp_insert at h ⊢
  split
  · rfl
  · rename_i hc
    rw [if_neg hc] at h
    exact absurd rfl h

theorem write_length_prefix_fail (e : rlp_encoder_t) (n : Nat) (hw : e.wf)
    (hsz : e.buffer_size + 9 < SIZE_MOD)
    (h : ( rlp_write_length_prefix e n RLP_SHORT_STRING_PREFIX).1 ≠ 0) :
    ( rlp_write_length_prefix e n RLP_SHORT_STRING_PREFIX).2.length = e.length ∨
    (56 ≤ n ∧
      ( rlp_write_length_prefix e n RLP_SHORT_STRING_PREFIX).2.length = e.length + 1) := by
  unfold rlp_write_length_prefix at h ⊢
  by_cases hn : n < 56
  · rw [if_pos hn] at h ⊢
    left
    rw [insert_byte_fail e _ h]
  · rw [if_neg hn] at h ⊢
    simp only [] at h ⊢
    by_cases hp : (rlp_insert_byte e
        ((RLP_SHORT_STRING_PREFIX + 55 + (le_bytes_loop 8 n).length) % 256)).1 ≠ RLP_ERROR_NONE
    · rw [if_pos hp] at h ⊢
      left
      rw [insert_byte_fail e _ hp]
    · rw [if_neg hp] at h ⊢
      right
      refine ⟨by omega, ?_⟩
      rw [insert_fail _ _ _ h]
      have ha := appends_success (appends_insert_byte e
        ((RLP_SHORT_STRING_PREFIX + 55 + (le_bytes_loop 8 n).length) % 256) hw)
        (by simp; omega) (by simpa using hp)
      simpa using ha.2.2.1

/-- C14 (as stated, refuted): `rlp_encode_bytes("dog")` with room for 3 bytes writes the
prefix `0x83`, then fails with the buffer-overflow error, and leaves the cursor at 1, not 0;
a later `rlp_encode_byte(0x42)` succeeds and the encoded data is `83 42`, so the dangling
prefix is counted. `rlp_encode_byte(0x80)` with room for one byte fails likewise with the
cursor advanced to 1. -/
theorem C14_failed_encode_keeps_written_bytes :
    (rlp_encode_bytes ⟨[0, 0, 0], 3, 0⟩ (some [0x64, 0x6f, 0x67]) 3).1
      = RLP_ERROR_BUFFER_OVERFLOW ∧
    (rlp_encode_bytes ⟨[0, 0, 0], 3, 0⟩ (some [0x64, 0x6f, 0x67]) 3).2.length = 1 ∧
    (rlp_encode_byte
      (rlp_encode_bytes ⟨[0, 0, 0], 3, 0⟩ (some [0x64, 0x6f, 0x67]) 3).2 0x42).1
      = RLP_ERROR_NONE ∧
    (rlp_encode_byte
      (rlp_encode_bytes ⟨[0, 0, 0], 3, 0⟩ (some [0x64, 0x6f, 0x67]) 3).2 0x42).2.written
      = [0x83, 0x42] ∧
    (rlp_encode_byte ⟨[0], 1, 0⟩ 0x80).1 = RLP_ERROR_BUFFER_OVERFLOW ∧
    (rlp_encode_byte ⟨[0], 1, 0⟩ 0x80).2.length = 1 ∧
    (rlp_encode_uint ⟨[0, 0], 2, 0⟩ 21000).1 = RLP_ERROR_BUFFER_OVERFLOW ∧
    (rlp_encode_uint ⟨[0, 0], 2, 0⟩ 21000).2.length = 1 := by
  decide

/-- C14 (amended): for every well-formed encoder state (capacity below `2^64 - 9`): when
`rlp_begin_list` or `rlp_end_list` returns an error the encoder is exactly what it was; when
`rlp_encode_byte`, `rlp_encode_bytes` or `rlp_encode_uint` returns an error, the cursor is
either what it was or has advanced by exactly the length-prefix bytes already written (1 for
a short prefix, `1 + k` for the long-string prefix), never by any data byte; it is unchanged
whenever the encoding is a single byte (value below `0x80`, empty string, one byte below
`0x80`) or the arguments are invalid. -/
theorem C14_cursor_after_error (e : rlp_encoder_t) (hw : e.wf)
    (hsz : e.buffer_size + 9 < SIZE_MOD) :
    ((rlp_begin_list e).1 ≠ 0 → (rlp_begin_list e).2.1 = e) ∧
    (∀ m, (rlp_end_list e m).1 ≠ 0 → (rlp_end_list e m).2 = e) ∧
    (∀ v, (rlp_encode_byte e v).1 ≠ 0 →
      (rlp_encode_byte e v).2.length = e.length ∨
      (0x80 ≤ v ∧ (rlp_encode_byte e v).2.length = e.length + 1)) ∧
    (∀ n, (rlp_encode_bytes e none n).1 ≠ 0 → (rlp_encode_bytes e none n).2 = e) ∧
    (∀ d n, n < SIZE_MOD → (rlp_encode_bytes e (some d) n).1 ≠ 0 →
      (rlp_encode_bytes e (some d) n).2.length = e.length ∨
      (¬ (n = 0 ∨ (n = 1 ∧ d.getD 0 0 < 0x80)) ∧
        (rlp_encode_bytes e (some d) n).2.length = e.length + 1) ∨
      (56 ≤ n ∧
        (rlp_encode_bytes e (some d) n).2.length = e.length + 1 + (be_minimal n).length)) ∧
    (∀ v, v < SIZE_MOD → (rlp_encode_uint e v).1 ≠ 0 →
      (rlp_encode_uint e v).2.length = e.length ∨
      (0x80 ≤ v ∧ (rlp_encode_uint e v).2.length = e.length + 1)) := by
  have hbytes : ∀ (d : List Nat) (n : Nat), n < SIZE_MOD →
      (rlp_encode_bytes e (some d) n).1 ≠ 0 →
      (rlp_encode_bytes e (some d) n).2.length = e.length ∨
      (¬ (n = 0 ∨ (n = 1 ∧ d.getD 0 0 < 0x80)) ∧
        (rlp_encode_bytes e (some d) n).2.length = e.length + 1) ∨
      (56 ≤ n ∧
        (rlp_encode_bytes e (some d) n).2.length = e.length + 1 + (be_minimal n).length) := by
    intro d n hn h
    unfold rlp_encode_bytes at h ⊢
    simp only [] at h ⊢
    by_cases h0 : n = 0
    · rw [if_pos h0] at h ⊢
      left; rw [insert_byte_fail e _ h]
    · rw [if_neg h0] at h ⊢
      by_cases h1 : n = 1 ∧ d.getD 0 0 < 0x80
      · rw [if_pos h1] at h ⊢
        left; rw [insert_byte_fail e _ h]
      · rw [if_neg h1] at h ⊢
        have hsingle : ¬ (n = 0 ∨ (n = 1 ∧ d.getD 0 0 < 0x80)) := by
          intro hc; rcases hc with hc | hc
          · exact h0 hc
          · exact h1 hc
        by_cases hp : ( rlp_write_length_prefix e n RLP_SHORT_STRING_PREFIX).1 ≠ RLP_ERROR_NONE
        · rw [if_pos hp] at h ⊢
          rcases write_length_prefix_fail e n hw hsz hp with hf | hf
          · left; exact hf
          · right; left; exact ⟨hsingle, hf.2⟩
        · rw [if_neg hp] at h ⊢
          rw [insert_fail _ _ _ h]
          have hk := be_minimal_length_le n hn
          have ha := appends_success (appends_write_length_prefix_ok e n 0x80 hw hn
            (by norm_num)) (by
              have := ref_header_length_pos 0x80 n
              unfold rlp_ref_header
              split <;> simp <;> omega) (by simpa using hp)
          have hl := ha.2.2.1
          unfold rlp_ref_header at hl
          by_cases h56 : n < 56
          · rw [if_pos h56] at hl
            right; left
            exact ⟨hsingle, by simpa using hl⟩
          · rw [if_neg h56] at hl
            right; right
            refine ⟨by omega, ?_⟩
            simp only [List.length_cons] at hl
            rw [hl]; omega
  refine ⟨?_, ?_, ?_, ?_, hbytes, ?_⟩
  · intro h
    exact insert_byte_fail e _ h
  · intro m h
    unfold rlp_end_list at h ⊢
    split
    · rfl
    · rename_i hc
      rw [if_neg hc] at h
      simp only [] at h ⊢
      split
      · rename_i hs
        rw [if_pos hs] at h
        exact absurd rfl h
      · rename_i hs
        rw [if_neg hs] at h
        split
        · rfl
        · rename_i hr
          rw [if_neg hr] at h
          exact absurd rfl h
  · intro v h
    unfold rlp_encode_byte at h ⊢
    by_cases h0 : v = 0
    · rw [if_pos h0] at h ⊢
      left; rw [insert_byte_fail e _ h]
    · rw [if_neg h0] at h ⊢
      by_cases h1 : v < 0x80
      · rw [if_pos h1] at h ⊢
        left; rw [insert_byte_fail e _ h]
      · rw [if_neg h1] at h ⊢
        simp only [] at h ⊢
        by_cases hp : (rlp_insert_byte e (RLP_SHORT_STRING_PREFIX + 1)).1 ≠ RLP_ERROR_NONE
        · rw [if_pos hp] at h ⊢
          left; rw [insert_byte_fail e _ hp]
        · rw [if_neg hp] at h ⊢
          right
          refine ⟨by omega, ?_⟩
          rw [insert_byte_fail _ _ h]
          have ha := appends_success (appends_insert_byte e (RLP_SHORT_STRING_PREFIX + 1) hw)
            (by simp; omega) (by simpa using hp)
          simpa using ha.2.2.1
  · intro n h
    unfold rlp_encode_bytes at h ⊢
    simp only [] at h ⊢
    split
    · rfl
    · rename_i hc
      rw [if_neg hc] at h
      exact insert_byte_fail e _ h
  · intro v hv h
    unfold rlp_encode_uint at h ⊢
    by_cases h0 : v = 0
    · rw [if_pos h0] at h ⊢
      left; rw [insert_byte_fail e _ h]
    · rw [if_neg h0] at h ⊢
      simp only [] at h ⊢
      rw [be_copy v (by omega) hv, le_bytes_loop_length v (by omega) hv] at h ⊢
      have hk := be_minimal_length_le v hv
      rcases hbytes (be_minimal v) (be_minimal v).length (by unfold SIZE_MOD; omega) h
        with hf | hf | hf
      · left; exact hf
      · right
        refine ⟨?_, hf.2⟩
        by_contra hc
        apply hf.1
        right
        have hd : be_minimal v = [v] := by
          rw [be_minimal_eq_digits, Nat.digits_of_lt 256 v h0 (by omega)]; rfl
        rw [hd]
        exact ⟨rfl, by simp; omega⟩
      · omega

theorem C14_cursor_after_error_witness :
    (rlp_begin_list ⟨[0, 0], 2, 2⟩).1 ≠ 0 ∧ (rlp_begin_list ⟨[0, 0], 2, 2⟩).2.1 = ⟨[0, 0], 2, 2⟩ :=
  ⟨by decide, (C14_cursor_after_error ⟨[0, 0], 2, 2⟩ (by decide) (by decide)).1 (by decide)⟩

theorem bounded_insert_byte (e : rlp_encoder_t) (b : Nat) (h : e.length ≤ e.buffer_size) :
    Bounded e (rlp_insert_byte e b).2 := by
  unfold rlp_insert_byte Bounded
  split
  · exact ⟨rfl, h⟩
  · rename_i hc
    exact ⟨rfl, by simpa using hc⟩

theorem bounded_insert (e : rlp_encoder_t) (d : List Nat) (n : Nat)
    (h : e.length ≤ e.buffer_size) : Bounded e (rlp_insert e d n).2 := by
  unfold rlp_insert Bounded
  split
  · exact ⟨rfl, h⟩
  · rename_i hc
    exact ⟨rfl, by simpa using hc⟩

theorem bounded_trans {e e1 e2 : rlp_encoder_t} (h1 : Bounded e e1) (h2 : Bounded e1 e2) :
    Bounded e e2 := ⟨h2.1.trans h1.1, h2.2⟩

theorem bounded_write_length_prefix_ok (e : rlp_encoder_t) (n base : Nat)
    (h : e.length ≤ e.buffer_size) : Bounded e ( rlp_write_length_prefix e n base).2 := by
  unfold rlp_write_length_prefix
  split
  · exact bounded_insert_byte e _ h
  · simp only []
    have h1 := bounded_insert_byte e ((base + 55 + (le_bytes_loop 8 n).length) % 256) h
    split
    · exact h1
    · exact bounded_trans h1 (bounded_insert _ _ _ h1.2)

theorem bounded_encode_byte (e : rlp_encoder_t) (v : Nat) (h : e.length ≤ e.buffer_size) :
    Bounded e (rlp_encode_byte e v).2 := by
  unfold rlp_encode_byte
  split
  · exact bounded_insert_byte e _ h
  · split
    · exact bounded_insert_byte e _ h
    · simp only []
      have h1 := bounded_insert_byte e (RLP_SHORT_STRING_PREFIX + 1) h
      split
      · exact h1
      · exact bounded_trans h1 (bounded_insert_byte _ _ h1.2)

theorem bounded_encode_bytes (e : rlp_encoder_t) (d : Option (List Nat)) (n : Nat)
    (h : e.length ≤ e.buffer_size) : Bounded e (rlp_encode_bytes e d n).2 := by
  unfold rlp_encode_bytes
  cases d with
  | none =>
    simp only []
    split
    · exact ⟨rfl, h⟩
    · exact bounded_insert_byte e _ h
  | some d =>
    simp only []
    split
    · exact bounded_insert_byte e _ h
    · split
      · exact bounded_insert_byte e _ h
      · have h1 := bounded_write_length_prefix_ok e n RLP_SHORT_STRING_PREFIX h
        split
        · exact h1
        · exact bounded_trans h1 (bounded_insert _ _ _ h1.2)

theorem bounded_encode_uint (e : rlp_encoder_t) (v : Nat) (h : e.length ≤ e.buffer_size) :
    Bounded e (rlp_encode_uint e v).2 := by
  unfold rlp_encode_uint
  split
  · exact bounded_insert_byte e _ h
  · exact bounded_encode_bytes e _ _ h

theorem bounded_begin_list (e : rlp_encoder_t) (h : e.length ≤ e.buffer_size) :
    Bounded e (rlp_begin_list e).2.1 := bounded_insert_byte e _ h

theorem bounded_end_list (e : rlp_encoder_t) (m : Nat) (h : e.length ≤ e.buffer_size) :
    Bounded e (rlp_end_list e m).2 := by
  unfold rlp_end_list
  split
  · exact ⟨rfl, h⟩
  · simp only []
    split
    · exact ⟨rfl, h⟩
    · split
      · exact ⟨rfl, h⟩
      · rename_i hc
        exact ⟨rfl, by simpa using hc⟩

theorem bounded_apply (e : rlp_encoder_t) (op : rlp_op) (h : e.length ≤ e.buffer_size) :
    Bounded e (rlp_apply e op) := by
  cases op with
  | encode_byte v => exact bounded_encode_byte e v h
  | encode_bytes d n => exact bounded_encode_bytes e d n h
  | encode_uint v => exact bounded_encode_uint e v h
  | begin_list => exact bounded_begin_list e h
  | end_list m => exact bounded_end_list e m h

theorem bounded_run (ops : List rlp_op) :
    ∀ (e : rlp_encoder_t), e.length ≤ e.buffer_size → Bounded e (rlp_run e ops) := by
  induction ops with
  | nil => intro e h; exact ⟨rfl, h⟩
  | cons op ops ih =>
    intro e h
    have h1 := bounded_apply e op h
    exact bounded_trans h1 (ih (rlp_apply e op) h1.2)

/-- C16: starting from a successful `rlp_encoder_init`, after any finite sequence of public
operations (`rlp_encode_byte`, `rlp_encode_bytes`, `rlp_encode_uint`, `rlp_begin_list`,
`rlp_end_list`, with any arguments and any marker value), whether each call succeeds or
fails, the write cursor does not exceed the capacity and the capacity is the one given to
`rlp_encoder_init`. -/
theorem C16_cursor_within_fixed_capacity (e0 e : rlp_encoder_t) (buf : List Nat) (size : Nat)
    (ops : List rlp_op)
    (hinit : rlp_encoder_init (some e0) (some buf) size = (RLP_ERROR_NONE, some e)) :
    (rlp_run e ops).length ≤ (rlp_run e ops).buffer_size ∧
    (rlp_run e ops).buffer_size = size := by
  have he : e = ⟨buf, size, 0⟩ := by
    unfold rlp_encoder_init at hinit
    simp only [] at hinit
    split at hinit
    · simp at hinit
    · simp at hinit
      exact hinit.symm
  subst he
  have h := bounded_run ops ⟨buf, size, 0⟩ (Nat.zero_le _)
  exact ⟨h.2, h.1⟩

theorem C16_cursor_within_fixed_capacity_witness :
    (rlp_run ⟨List.replicate 4 0, 4, 0⟩
        [.begin_list, .encode_bytes (some [0x64, 0x6f, 0x67]) 3, .encode_byte 0x80,
          .encode_uint 21000, .end_list 7, .end_list 0]).length ≤ 4 ∧
    (rlp_run ⟨List.replicate 4 0, 4, 0⟩
        [.begin_list, .encode_bytes (some [0x64, 0x6f, 0x67]) 3, .encode_byte 0x80,
          .encode_uint 21000, .end_list 7, .end_list 0]).buffer_size = 4 :=
  have h := C16_cursor_within_fixed_capacity ⟨[], 0, 0⟩ ⟨List.replicate 4 0, 4, 0⟩
    (List.replicate 4 0) 4
    [.begin_list, .encode_bytes (some [0x64, 0x6f, 0x67]) 3, .encode_byte 0x80,
      .encode_uint 21000, .end_list 7, .end_list 0] (by decide)
  ⟨by rw [h.2] at h; exact h.1, h.2⟩

/-- C18 (as stated, refuted): the unsigned encoding of the all-empty legacy transaction is
not the 7-byte list `c6 80 80 80 80 80 80`: `eth_tx_encode` also writes the three EIP-155
items `chainId, empty, empty`, so it produces the 10 bytes `c9 80 80 80 80 80 80 80 80 80`
with `output_size = 10`, and in a 7-byte buffer it fails. -/
theorem C18_empty_legacy_is_not_seven_bytes :
    eth_tx_init (some sample_legacy_tx) ETH_LEGACY_TX = (TX_ERROR_NONE, some empty_legacy_tx) ∧
    eth_tx_encode (some empty_legacy_tx) (some (List.replicate 16 0)) 16 (some 0)
      = (TX_ERROR_NONE,
          some ([0xc9, 0x80, 0x80, 0x80, 0x80, 0x80, 0x80, 0x80, 0x80, 0x80]
            ++ List.replicate 6 0), some 10) ∧
    (eth_tx_encode (some empty_legacy_tx) (some (List.replicate 16 0)) 16 (some 0)).2.2
      ≠ some 7 ∧
    ((eth_tx_encode (some empty_legacy_tx) (some (List.replicate 16 0)) 16 (some 0)).2.1.getD
        []).take 7 ≠ [0xc6, 0x80, 0x80, 0x80, 0x80, 0x80, 0x80] ∧
    (eth_tx_encode (some empty_legacy_tx) (some (List.replicate 7 0)) 7 (some 0)).1 ≠ 0 := by
  decide

/-- C18 (amended): the legacy unsigned encoding (`eth_tx_encode`) of the transaction
`{nonce: 0, gasPrice: empty, gasLimit: 0, to: empty, value: empty, data: empty}` with chain id
0 is, in every buffer of at least 10 bytes, the 10-byte RLP list `c9 80 80 80 80 80 80 80 80
80`: the list prefix, the six field encodings, and the EIP-155 items `chainId, empty,
empty`; `output_size` is 10. -/
theorem C18_empty_legacy_encoding (t0 : eth_transaction_t) (buffer : List Nat)
    (buffer_size out : Nat) (hb : buffer_size ≤ buffer.length) (hM : buffer_size < SIZE_MOD)
    (hroom : 10 ≤ buffer_size) :
    eth_tx_init (some t0) ETH_LEGACY_TX = (TX_ERROR_NONE, some empty_legacy_tx) ∧
    rlp_ref (.list (legacy_items empty_legacy_tx ++ replay_items empty_legacy_tx))
      = [0xc9, 0x80, 0x80, 0x80, 0x80, 0x80, 0x80, 0x80, 0x80, 0x80] ∧
    ∃ b, eth_tx_encode (some empty_legacy_tx) (some buffer) buffer_size (some out)
        = (TX_ERROR_NONE, some b, some 10) ∧
      b.take 10 = [0xc9, 0x80, 0x80, 0x80, 0x80, 0x80, 0x80, 0x80, 0x80, 0x80] := by
  have href : tx_ref_encoding empty_legacy_tx false
      = [0xc9, 0x80, 0x80, 0x80, 0x80, 0x80, 0x80, 0x80, 0x80, 0x80] := by decide
  refine ⟨rfl, by decide, ?_⟩
  obtain ⟨b, h1, _, h3⟩ := (eth_tx_encode_with_spec false empty_legacy_tx buffer buffer_size
    out (by decide) (Or.inl rfl) (by omega) hb hM).1 (by rw [href]; exact hroom)
  rw [href] at h1 h3
  exact ⟨b, h1, h3⟩

theorem C18_empty_legacy_encoding_witness :
    ∃ b, eth_tx_encode (some empty_legacy_tx) (some (List.replicate 10 0)) 10 (some 0)
        = (TX_ERROR_NONE, some b, some 10) ∧
      b.take 10 = [0xc9, 0x80, 0x80, 0x80, 0x80, 0x80, 0x80, 0x80, 0x80, 0x80] :=
  (C18_empty_legacy_encoding sample_legacy_tx (List.replicate 10 0) 10 0
    (by decide) (by decide) (by decide)).2.2

/-- C20 (code evaluated at the failing input): with a 20-byte buffer, too small for the
36-byte (unsigned) and 101-byte (signed) encodings of the legacy sample transaction,
`eth_tx_encode` and `eth_tx_encode_signed` return `-1`, the RLP layer's overflow code, which
is `TX_ERROR_INVALID` and not `TX_ERROR_BUFFER_SMALL`; it is the very code they return for
an absent transaction, buffer or output pointer and for capacity 0. -/
theorem C20_small_buffer_returns_invalid_code :
    (tx_ref_encoding sample_legacy_tx false).length = 36 ∧
    (tx_ref_encoding sample_legacy_tx true).length = 101 ∧
    (eth_tx_encode (some sample_legacy_tx) (some (List.replicate 20 0)) 20 (some 0)).1
      = TX_ERROR_INVALID ∧
    (eth_tx_encode_signed (some sample_legacy_tx) (some (List.replicate 20 0)) 20 (some 0)).1
      = TX_ERROR_INVALID ∧
    (eth_tx_encode (some sample_legacy_tx) (some (List.replicate 20 0)) 20 (some 0)).1
      ≠ TX_ERROR_BUFFER_SMALL ∧
    (eth_tx_encode_signed (some sample_legacy_tx) (some (List.replicate 20 0)) 20 (some 0)).1
      ≠ TX_ERROR_BUFFER_SMALL ∧
    (eth_tx_encode none (some (List.replicate 20 0)) 20 (some 0)).1 = TX_ERROR_INVALID ∧
    (eth_tx_encode (some sample_legacy_tx) none 20 (some 0)).1 = TX_ERROR_INVALID ∧
    (eth_tx_encode (some sample_legacy_tx) (some (List.replicate 20 0)) 20 none).1
      = TX_ERROR_INVALID ∧
    (eth_tx_encode (some sample_legacy_tx) (some (List.replicate 20 0)) 0 (some 0)).1
      = TX_ERROR_INVALID ∧
    RLP_ERROR_BUFFER_OVERFLOW = TX_ERROR_INVALID ∧
    TX_ERROR_BUFFER_SMALL ≠ TX_ERROR_INVALID := by
  decide

theorem demo_encode_list_eq (e : rlp_encoder_t) :
    demo_encode_list e =
      ([(rlp_insert_byte e 0xc0).1,
        (rlp_encode_bytes (rlp_insert_byte e 0xc0).2 (some [0x63, 0x61, 0x74]) 3).1,
        (rlp_encode_bytes (rlp_encode_bytes (rlp_insert_byte e 0xc0).2
          (some [0x63, 0x61, 0x74]) 3).2 (some [0x64, 0x6f, 0x67]) 3).1,
        (rlp_end_list (rlp_encode_bytes (rlp_encode_bytes (rlp_insert_byte e 0xc0).2
          (some [0x63, 0x61, 0x74]) 3).2 (some [0x64, 0x6f, 0x67]) 3).2 e.length).1],
       (rlp_end_list (rlp_encode_bytes (rlp_encode_bytes (rlp_insert_byte e 0xc0).2
          (some [0x63, 0x61, 0x74]) 3).2 (some [0x64, 0x6f, 0x67]) 3).2 e.length).2) := rfl

/-- C19: on a fresh encoder (just initialised) with room for 9 bytes, whatever the buffer
held: `rlp_encode_byte(0x42)` produces `[0x42]`; `rlp_encode_bytes("dog")` produces
`[0x83, 'd', 'o', 'g']`; and `rlp_begin_list`, `rlp_encode_bytes("cat")`,
`rlp_encode_bytes("dog")`, `rlp_end_list` all succeed and produce the 9 bytes
`c8 83 63 61 74 83 64 6f 67`. -/
theorem C19_concrete_rlp_vectors (e0 : rlp_encoder_t) (buf : List Nat) (size : Nat)
    (hb : size ≤ buf.length) (hM : size < SIZE_MOD) (hroom : 9 ≤ size) :
    rlp_encoder_init (some e0) (some buf) size = (RLP_ERROR_NONE, some ⟨buf, size, 0⟩) ∧
    (rlp_encode_byte ⟨buf, size, 0⟩ 0x42).1 = RLP_ERROR_NONE ∧
    (rlp_encode_byte ⟨buf, size, 0⟩ 0x42).2.written = [0x42] ∧
    (rlp_encode_bytes ⟨buf, size, 0⟩ (some [0x64, 0x6f, 0x67]) 3).1 = RLP_ERROR_NONE ∧
    (rlp_encode_bytes ⟨buf, size, 0⟩ (some [0x64, 0x6f, 0x67]) 3).2.written
      = [0x83, 0x64, 0x6f, 0x67] ∧
    (demo_encode_list ⟨buf, size, 0⟩).1
      = [RLP_ERROR_NONE, RLP_ERROR_NONE, RLP_ERROR_NONE, RLP_ERROR_NONE] ∧
    (demo_encode_list ⟨buf, size, 0⟩).2.written
      = [0xc8, 0x83, 0x63, 0x61, 0x74, 0x83, 0x64, 0x6f, 0x67] ∧
    rlp_get_length (some (demo_encode_list ⟨buf, size, 0⟩).2) = 9 := by
  have hw : rlp_encoder_t.wf ⟨buf, size, 0⟩ := ⟨Nat.zero_le _, hb, hM⟩
  refine ⟨by simp [rlp_encoder_init]; omega, ?_⟩
  have hwr0 : rlp_encoder_t.written ⟨buf, size, 0⟩ = [] := by simp [rlp_encoder_t.written]
  have h1 := (appends_encode_byte ⟨buf, size, 0⟩ 0x42 hw (by decide)).1 (by
    show 0 + (rlp_ref_string (be_minimal 0x42)).length ≤ size
    rw [show rlp_ref_string (be_minimal 0x42) = [0x42] by decide]
    simp; omega)
  rw [show rlp_ref_string (be_minimal 0x42) = [0x42] by decide] at h1
  have h1w := h1.2.2.2.2
  rw [hwr0] at h1w
  have h2 := (appends_encode_bytes ⟨buf, size, 0⟩ [0x64, 0x6f, 0x67] 3 hw (by decide)
    (by decide)).1 (by
    show 0 + (rlp_ref_string (List.take 3 [0x64, 0x6f, 0x67])).length ≤ size
    rw [show rlp_ref_string (List.take 3 [0x64, 0x6f, 0x67]) = [0x83, 0x64, 0x6f, 0x67]
      by decide]
    simp; omega)
  rw [show rlp_ref_string (List.take 3 [0x64, 0x6f, 0x67]) = [0x83, 0x64, 0x6f, 0x67]
    by decide] at h2
  have h2w := h2.2.2.2.2
  rw [hwr0] at h2w
  have hbg := (appends_insert_byte ⟨buf, size, 0⟩ 0xc0 hw).1 (by
    show 0 + 1 ≤ size
    omega)
  have hwb := appended_wf hw (by show 0 + 1 ≤ size; omega) hbg.2
  obtain ⟨b0, b1, b2, b3, b4⟩ := hbg
  simp only [List.length_singleton] at b3
  have hcat := (appends_encode_bytes (rlp_insert_byte ⟨buf, size, 0⟩ 0xc0).2
    [0x63, 0x61, 0x74] 3 hwb (by decide) (by decide)).1 (by
    rw [show rlp_ref_string (List.take 3 [0x63, 0x61, 0x74]) = [0x83, 0x63, 0x61, 0x74]
      by decide, b1, b3]
    show 0 + 1 + 4 ≤ size
    omega)
  rw [show rlp_ref_string (List.take 3 [0x63, 0x61, 0x74]) = [0x83, 0x63, 0x61, 0x74]
    by decide] at hcat
  have hwc := appended_wf hwb (by
    rw [b1, b3]
    show 0 + 1 + 4 ≤ size
    omega) hcat.2
  obtain ⟨c0, c1, c2, c3, c4⟩ := hcat
  simp only [List.length_cons, List.length_nil] at c3
  have hdog := (appends_encode_bytes
    (rlp_encode_bytes (rlp_insert_byte ⟨buf, size, 0⟩ 0xc0).2 (some [0x63, 0x61, 0x74]) 3).2
    [0x64, 0x6f, 0x67] 3 hwc (by decide) (by decide)).1 (by
    rw [show rlp_ref_string (List.take 3 [0x64, 0x6f, 0x67]) = [0x83, 0x64, 0x6f, 0x67]
      by decide, c1, c3, b1, b3]
    show 0 + 1 + (0 + 1 + 1 + 1 + 1) + 4 ≤ size
    omega)
  rw [show rlp_ref_string (List.take 3 [0x64, 0x6f, 0x67]) = [0x83, 0x64, 0x6f, 0x67]
    by decide] at hdog
  have hwd := appended_wf hwc (by
    rw [c1, c3, b1, b3]
    show 0 + 1 + (0 + 1 + 1 + 1 + 1) + 4 ≤ size
    omega) hdog.2
  obtain ⟨d0, d1, d2, d3, d4⟩ := hdog
  simp only [List.length_cons, List.length_nil] at d3
  rw [c4, b4, hwr0] at d4
  have hend := (end_list_spec _ [] [0x83, 0x63, 0x61, 0x74, 0x83, 0x64, 0x6f, 0x67] 0xc0 hwd
    (by rw [d4]; rfl)).1 (by
    rw [d1, d3, c1, c3, b1, b3]
    show 0 + 1 + (0 + 1 + 1 + 1 + 1) + (0 + 1 + 1 + 1 + 1) + 1 ≤ size + 1
    omega)
  obtain ⟨e0', e1, e2, e3, e4⟩ := hend
  rw [show rlp_ref_header 0xc0 [0x83, 0x63, 0x61, 0x74, 0x83, 0x64, 0x6f, 0x67].length
    = [0xc8] by decide] at e3 e4
  simp only [List.length_nil, List.nil_append, List.singleton_append,
    List.length_singleton] at e0' e3 e4
  rw [demo_encode_list_eq]
  simp only [rlp_get_length]
  refine ⟨h1.1, h1w, h2.1, h2w, ?_, e4, ?_⟩
  · rw [b0, c0, d0, e0']
  · rw [d3, c3, b3] at e3
    omega

theorem C19_concrete_rlp_vectors_witness :
    (rlp_encode_byte ⟨List.replicate 256 0, 256, 0⟩ 0x42).2.written = [0x42] ∧
    (rlp_encode_bytes ⟨List.replicate 256 0, 256, 0⟩ (some [0x64, 0x6f, 0x67]) 3).2.written
      = [0x83, 0x64, 0x6f, 0x67] ∧
    (demo_encode_list ⟨List.replicate 256 0, 256, 0⟩).2.written
      = [0xc8, 0x83, 0x63, 0x61, 0x74, 0x83, 0x64, 0x6f, 0x67] :=
  have h := C19_concrete_rlp_vectors ⟨[], 0, 0⟩ (List.replicate 256 0) 256
    (le_of_eq (List.length_replicate 256 0).symm) (by decide) (by decide)
  ⟨h.2.2.1, h.2.2.2.2.1, h.2.2.2.2.2.2.1⟩

theorem encode_with_unsupported (sig : Bool) (tx : eth_transaction_t) (buf : List Nat)
    (size out : Nat)
    (ht : tx.tx_type ≠ ETH_LEGACY_TX ∧ tx.tx_type ≠ ETH_EIP2930_TX ∧ tx.tx_type ≠ ETH_EIP1559_TX)
    (h0 : 0 < size) :
    eth_tx_encode_with sig (some tx) (some buf) size (some out)
      = (TX_ERROR_UNSUPPORTED, some (buf.set 0 RLP_SHORT_LIST_PREFIX), some out) := by
  obtain ⟨t0, t1, t2⟩ := ht
  rw [eth_tx_encode_with_eq sig tx buf size out (by omega)]
  have hs : size ≠ 0 := by omega
  simp [check, encode_tx_by_type, encode_tx_fields, rlp_begin_list, rlp_insert_byte, t0, t1, t2,
    hs]

/-- C21: for every transaction whose kind tag is none of Legacy, EIP-2930, EIP-1559 and every
non-null buffer of positive capacity, `eth_tx_encode` and `eth_tx_encode_signed` return
`TX_ERROR_UNSUPPORTED` and leave `*output_size` as it was; `eth_tx_hash` and `eth_tx_sign`
return the same error, the hash is not written and the transaction is unchanged. -/
theorem C21_unsupported_kind (tx : eth_transaction_t) (buffer stack : List Nat)
    (buffer_size out : Nat) (hash0 : eth_hash_t) (key : eth_private_key_t)
    (ht : tx.tx_type ≠ ETH_LEGACY_TX ∧ tx.tx_type ≠ ETH_EIP2930_TX ∧ tx.tx_type ≠ ETH_EIP1559_TX)
    (h0 : 0 < buffer_size) :
    (eth_tx_encode (some tx) (some buffer) buffer_size (some out)).1 = TX_ERROR_UNSUPPORTED ∧
    (eth_tx_encode (some tx) (some buffer) buffer_size (some out)).2.2 = some out ∧
    (eth_tx_encode_signed (some tx) (some buffer) buffer_size (some out)).1
      = TX_ERROR_UNSUPPORTED ∧
    (eth_tx_encode_signed (some tx) (some buffer) buffer_size (some out)).2.2 = some out ∧
    eth_tx_hash (some tx) (some hash0) stack = (TX_ERROR_UNSUPPORTED, some hash0) ∧
    eth_tx_sign (some tx) (some key) stack = (TX_ERROR_UNSUPPORTED, some tx) := by
  have hh : ∀ h : eth_hash_t,
      eth_tx_hash (some tx) (some h) stack = (TX_ERROR_UNSUPPORTED, some h) := by
    intro h
    unfold eth_tx_hash eth_tx_encode
    simp only [encode_with_unsupported false tx stack 1024 0 ht (by decide)]
    simp
  unfold eth_tx_encode eth_tx_encode_signed
  rw [encode_with_unsupported false tx buffer buffer_size out ht h0,
    encode_with_unsupported true tx buffer buffer_size out ht h0]
  refine ⟨rfl, rfl, rfl, rfl, hh hash0, ?_⟩
  unfold eth_tx_sign
  simp only [hh]
  simp

theorem C21_unsupported_kind_witness :
    (eth_tx_encode (some unsupported_tx) (some [0, 0, 0, 0]) 4 (some 7)).1
      = TX_ERROR_UNSUPPORTED ∧
    (eth_tx_encode (some unsupported_tx) (some [0, 0, 0, 0]) 4 (some 7)).2.2 = some 7 ∧
    (eth_tx_encode_signed (some unsupported_tx) (some [0, 0, 0, 0]) 4 (some 7)).1
      = TX_ERROR_UNSUPPORTED ∧
    (eth_tx_encode_signed (some unsupported_tx) (some [0, 0, 0, 0]) 4 (some 7)).2.2 = some 7 ∧
    eth_tx_hash (some unsupported_tx) (some { data := List.replicate 32 0 })
        (List.replicate 1024 0)
      = (TX_ERROR_UNSUPPORTED, some { data := List.replicate 32 0 }) ∧
    eth_tx_sign (some unsupported_tx) (some sample_private_key) (List.replicate 1024 0)
      = (TX_ERROR_UNSUPPORTED, some unsupported_tx) :=
  C21_unsupported_kind unsupported_tx [0, 0, 0, 0] (List.replicate 1024 0) 4 7
    { data := List.replicate 32 0 } sample_private_key (by decide) (by decide)

/-- C22: on a well-formed encoder whose capacity is below `2^64 - 8` (so that `cursor + k`
is the mathematical sum), `rlp_end_list` returns `RLP_ERROR_INVALID_PARAM` when the marker is
not below the cursor, and `RLP_ERROR_BUFFER_OVERFLOW` when the content has at least 56 bytes
and `cursor + k` exceeds the capacity, `k` being the number of bytes of the minimal big-endian
form of the content length; in both cases the encoder (cursor and every buffer byte) is
returned unchanged. -/
theorem C22_end_list_errors (e : rlp_encoder_t) (m : Nat) (hw : e.wf)
    (hsz : e.buffer_size + 8 < SIZE_MOD) :
    (e.length ≤ m → rlp_end_list e m = (RLP_ERROR_INVALID_PARAM, e)) ∧
    (m < e.length → 56 ≤ e.length - m - 1 →
      e.buffer_size < e.length + (be_minimal (e.length - m - 1)).length →
      rlp_end_list e m = (RLP_ERROR_BUFFER_OVERFLOW, e)) := by
  obtain ⟨w1, w2, w3⟩ := hw
  constructor
  · intro h
    unfold rlp_end_list
    rw [if_pos h]
  · intro h1 h2 h3
    have hn : e.length - m - 1 < SIZE_MOD := by omega
    have hk := be_minimal_length_le (e.length - m - 1) hn
    unfold rlp_end_list
    rw [if_neg (by omega), if_neg (by omega)]
    simp only []
    rw [le_bytes_loop_length (e.length - m - 1) (by omega) hn,
      Nat.mod_eq_of_lt (by omega), if_pos (by omega)]

theorem C22_end_list_errors_witness :
    rlp_end_list ⟨List.replicate 60 7, 60, 60⟩ 60
      = (RLP_ERROR_INVALID_PARAM, ⟨List.replicate 60 7, 60, 60⟩) ∧
    rlp_end_list ⟨List.replicate 60 7, 60, 60⟩ 0
      = (RLP_ERROR_BUFFER_OVERFLOW, ⟨List.replicate 60 7, 60, 60⟩) :=
  ⟨(C22_end_list_errors ⟨List.replicate 60 7, 60, 60⟩ 60 (by decide) (by decide)).1
      (by decide),
    (C22_end_list_errors ⟨List.replicate 60 7, 60, 60⟩ 0 (by decide) (by decide)).2
      (by decide) (by decide) (by decide)⟩

theorem insert_one (e : rlp_encoder_t) (b : Nat) (hw : e.wf)
    (hsz : e.buffer_size + 1 < SIZE_MOD) : rlp_insert e [b] 1 = rlp_insert_byte e b := by
  obtain ⟨w1, w2, w3⟩ := hw
  unfold rlp_insert rlp_insert_byte
  rw [Nat.mod_eq_of_lt (show e.length + 1 < SIZE_MOD by omega)]
  by_cases h : e.length + 1 > e.buffer_size
  · rw [if_pos h, if_pos h]
  · rw [if_neg h, if_neg h]
    have hlt : e.length < e.buffer.length := by omega
    have : memcpy e.buffer e.length [b] 1 = e.buffer.set e.length b := by
      unfold memcpy
      rw [List.set_eq_take_append_cons_drop, if_pos hlt]
      simp
    rw [this]

theorem le_bytes_loop_byte (b : Nat) (hb : b < 256) : le_bytes_loop 8 b = [b] := by
  have h1 : b &&& 0xFF = b := by rw [and_ff]; exact Nat.mod_eq_of_lt hb
  have h2 : b >>> 8 = 0 := by rw [shr_8]; exact Nat.div_eq_of_lt hb
  simp [le_bytes_loop, h1, h2]

theorem insert_byte_code (e : rlp_encoder_t) (b : Nat) (h : (rlp_insert_byte e b).1 ≠ 0) :
    rlp_insert_byte e b = (RLP_ERROR_BUFFER_OVERFLOW, (rlp_insert_byte e b).2) := by
  unfold rlp_insert_byte at h ⊢
  split
  · rfl
  · rename_i hc
    rw [if_neg hc] at h
    exact absurd rfl h

theorem insert_byte_wf (e : rlp_encoder_t) (b : Nat) (hw : e.wf)
    (hsz : e.buffer_size + 1 < SIZE_MOD) :
    (rlp_insert_byte e b).2.wf ∧ (rlp_insert_byte e b).2.buffer_size = e.buffer_size := by
  obtain ⟨w1, w2, w3⟩ := hw
  unfold rlp_insert_byte
  rw [Nat.mod_eq_of_lt (show e.length + 1 < SIZE_MOD by omega)]
  split
  · exact ⟨⟨w1, w2, w3⟩, rfl⟩
  · rename_i hc
    exact ⟨⟨by simp only []; omega, by simp only [List.length_set]; omega, w3⟩, rfl⟩

theorem encode_uint_byte (e : rlp_encoder_t) (b : Nat) (h0 : b ≠ 0) (hb : b < 256) :
    rlp_encode_uint e b = rlp_encode_bytes e (some [b]) 1 := by
  unfold rlp_encode_uint
  rw [if_neg h0]
  simp only [le_bytes_loop_byte b hb, reverse_copy, List.length_singleton]
  have hr : List.map (fun i => [b].getD (1 - i - 1) 0) (List.range 1) = [b] := by
    simp [List.range_succ]
  rw [hr]

theorem encode_bytes_one (e : rlp_encoder_t) (b : Nat) :
    rlp_encode_bytes e (some [b]) 1 =
      if b < 0x80 then rlp_insert_byte e b
      else if (rlp_insert_byte e (RLP_SHORT_STRING_PREFIX + 1)).1 ≠ RLP_ERROR_NONE then
        rlp_insert_byte e (RLP_SHORT_STRING_PREFIX + 1)
      else rlp_insert (rlp_insert_byte e (RLP_SHORT_STRING_PREFIX + 1)).2 [b] 1 := by
  have hp : rlp_write_length_prefix e 1 RLP_SHORT_STRING_PREFIX
      = rlp_insert_byte e (RLP_SHORT_STRING_PREFIX + 1) := by
    unfold rlp_write_length_prefix
    rw [if_pos (by decide)]
    rfl
  unfold rlp_encode_bytes
  simp only [hp]
  by_cases h1 : b < 0x80
  · simp [h1]
  · simp [h1]

/-- C24: for every byte value `b` (0..255) and every well-formed encoder state (capacity
below `2^64 - 1`, so that the cursor arithmetic does not wrap),
`rlp_encode_byte(b)` and `rlp_encode_uint(b)` return the same result code and the same
encoder (cursor and buffer); with room the bytes appended are `0x80` for 0, the byte itself
for `1..0x7f`, and `0x81` followed by the byte for `0x80..0xff`. -/
theorem C24_byte_and_uint_agree (e : rlp_encoder_t) (b : Nat) (hw : e.wf)
    (hsz : e.buffer_size + 1 < SIZE_MOD) (hb : b < 256) :
    rlp_encode_byte e b = rlp_encode_uint e b ∧
    (b = 0 → e.length + 1 ≤ e.buffer_size →
      (rlp_encode_byte e b).1 = RLP_ERROR_NONE ∧
      (rlp_encode_byte e b).2.written = e.written ++ [0x80] ∧
      (rlp_encode_byte e b).2.length = e.length + 1) ∧
    (0 < b → b < 0x80 → e.length + 1 ≤ e.buffer_size →
      (rlp_encode_byte e b).1 = RLP_ERROR_NONE ∧
      (rlp_encode_byte e b).2.written = e.written ++ [b] ∧
      (rlp_encode_byte e b).2.length = e.length + 1) ∧
    (0x80 ≤ b → e.length + 2 ≤ e.buffer_size →
      (rlp_encode_byte e b).1 = RLP_ERROR_NONE ∧
      (rlp_encode_byte e b).2.written = e.written ++ [0x81, b] ∧
      (rlp_encode_byte e b).2.length = e.length + 2) := by
  have happ := appends_encode_byte e b hw hb
  refine ⟨?_, ?_, ?_, ?_⟩
  · by_cases h0 : b = 0
    · subst h0
      simp [rlp_encode_byte, rlp_encode_uint]
    · rw [encode_uint_byte e b h0 hb, encode_bytes_one]
      unfold rlp_encode_byte
      rw [if_neg h0]
      by_cases h1 : b < 0x80
      · rw [if_pos h1, if_pos h1]
      · rw [if_neg h1, if_neg h1]
        simp only []
        by_cases hf : (rlp_insert_byte e (RLP_SHORT_STRING_PREFIX + 1)).1 ≠ RLP_ERROR_NONE
        · rw [if_pos hf, if_pos hf]
          exact (insert_byte_code e _ hf).symm
        · rw [if_neg hf, if_neg hf]
          have hw1 := insert_byte_wf e (RLP_SHORT_STRING_PREFIX + 1) hw (by omega)
          exact (insert_one _ b hw1.1 (by rw [hw1.2]; omega)).symm
  · intro h0 hr
    subst h0
    have := happ.1 (by simpa [rlp_ref_string, be_minimal, be_minimal_aux, rlp_ref_header] using hr)
    obtain ⟨r0, _, _, a3, a4⟩ := this
    simp [rlp_ref_string, be_minimal, be_minimal_aux, rlp_ref_header] at a3 a4
    exact ⟨r0, a4, a3⟩
  · intro h0 h1 hr
    have hd : be_minimal b = [b] := by
      rw [be_minimal_eq_digits, Nat.digits_of_lt 256 b (by omega) hb]; rfl
    rw [hd] at happ
    simp only [rlp_ref_string, if_pos h1] at happ
    obtain ⟨r0, _, _, a3, a4⟩ := happ.1 (by simpa using hr)
    exact ⟨r0, a4, by simpa using a3⟩
  · intro h1 hr
    have hd : be_minimal b = [b] := by
      rw [be_minimal_eq_digits, Nat.digits_of_lt 256 b (by omega) hb]; rfl
    rw [hd] at happ
    simp only [rlp_ref_string, if_neg (show ¬ b < 0x80 by omega), rlp_ref_header,
      if_pos (show 1 < 56 by decide)] at happ
    obtain ⟨r0, _, _, a3, a4⟩ := happ.1 (by simpa using hr)
    exact ⟨r0, by simpa using a4, by simpa using a3⟩

theorem C24_byte_and_uint_agree_witness :
    rlp_encode_byte ⟨[0, 0, 0], 3, 0⟩ 0x90 = rlp_encode_uint ⟨[0, 0, 0], 3, 0⟩ 0x90 ∧
    (rlp_encode_byte ⟨[0, 0, 0], 3, 0⟩ 0x90).1 = RLP_ERROR_NONE ∧
    (rlp_encode_byte ⟨[0, 0, 0], 3, 0⟩ 0x90).2.written
      = rlp_encoder_t.written ⟨[0, 0, 0], 3, 0⟩ ++ [0x81, 0x90] ∧
    (rlp_encode_byte ⟨[0, 0, 0], 3, 0⟩ 0x90).2.length = 0 + 2 :=
  ⟨(C24_byte_and_uint_agree ⟨[0, 0, 0], 3, 0⟩ 0x90 (by decide) (by decide) (by decide)).1,
    (C24_byte_and_uint_agree ⟨[0, 0, 0], 3, 0⟩ 0x90 (by decide) (by decide) (by decide)).2.2.2
      (by decide) (by decide)⟩

theorem keccak_some (x : Option (List Nat)) (n : Nat) (h0 : eth_hash_t)
    (h : (eth_keccak256 x n (some h0)).1 = 0) :
    ∃ d, eth_keccak256 x n (some h0) = (CRYPTO_ERROR_NONE, some d) := by
  unfold eth_keccak256 at h ⊢
  split
  · rename_i hc
    rw [if_pos hc] at h
    simp at h
  · exact ⟨_, rfl⟩

theorem tx_hash_some (tx : eth_transaction_t) (h0 : eth_hash_t) (stack : List Nat)
    (h : (eth_tx_hash (some tx) (some h0) stack).1 = 0) :
    ∃ d, eth_tx_hash (some tx) (some h0) stack = (TX_ERROR_NONE, some d) := by
  unfold eth_tx_hash at h ⊢
  simp only [] at h ⊢
  split
  · rename_i hc
    rw [if_pos hc] at h
    exact absurd h hc
  · rename_i hc
    rw [if_neg hc] at h
    exact keccak_some _ _ _ h

theorem eth_sign_some (d : eth_hash_t) (key : eth_private_key_t) (sg0 : eth_signature_t) :
    ∃ sg, eth_sign (some d) (some key) (some sg0) = (CRYPTO_ERROR_NONE, some sg) ∧
      sg.data.length = 64 :=
  ⟨_, rfl, by simp⟩

theorem eth_tx_sign_ok (tx : eth_transaction_t) (key : eth_private_key_t) (stack : List Nat)
    (d : eth_hash_t) (sg : eth_signature_t)
    (hh : eth_tx_hash (some tx) (some { data := List.replicate 32 0 }) stack
      = (TX_ERROR_NONE, some d))
    (hs : eth_sign (some d) (some key) (some { data := List.replicate 64 0 })
      = (CRYPTO_ERROR_NONE, some sg)) :
    eth_tx_sign (some tx) (some key) stack =
      (TX_ERROR_NONE, some { tx with
        r := sg.data.take 32, s := (sg.data.drop 32).take 32,
        v := if tx.tx_type = ETH_LEGACY_TX then (35 + (tx.chain_id * 2) % SIZE_MOD) % 256
             else 0 }) := by
  unfold eth_tx_sign
  simp only [hh, hs, ne_eq, not_true_eq_false, if_false, Option.getD_some]
  by_cases hl : tx.tx_type = ETH_LEGACY_TX
  · rw [if_pos hl, if_pos hl]
  · rw [if_neg hl, if_neg hl]

/-- C25: for every transaction and private key, a successful `eth_tx_sign` stores as `r` the
first 32 bytes and as `s` the last 32 bytes of the 64-byte output of `eth_sign` on the
transaction hash, and changes no field other than `v`, `r` and `s` (putting the old `v`, `r`,
`s` back gives the original transaction); when `eth_tx_hash` fails, or when it succeeds and
`eth_sign` fails, `eth_tx_sign` returns that error code with the transaction unchanged, and
whenever `eth_tx_sign` returns an error the transaction is unchanged. -/
theorem C25_sign_changes_only_signature (tx : eth_transaction_t) (key : eth_private_key_t)
    (stack : List Nat) :
    ((eth_tx_sign (some tx) (some key) stack).1 = TX_ERROR_NONE →
      ∃ d sg tx',
        eth_tx_hash (some tx) (some { data := List.replicate 32 0 }) stack
          = (TX_ERROR_NONE, some d) ∧
        eth_sign (some d) (some key) (some { data := List.replicate 64 0 })
          = (CRYPTO_ERROR_NONE, some sg) ∧
        sg.data.length = 64 ∧
        (eth_tx_sign (some tx) (some key) stack).2 = some tx' ∧
        tx'.r = sg.data.take 32 ∧ tx'.s = sg.data.drop 32 ∧
        { tx' with v := tx.v, r := tx.r, s := tx.s } = tx) ∧
    ((eth_tx_hash (some tx) (some { data := List.replicate 32 0 }) stack).1 ≠ 0 →
      eth_tx_sign (some tx) (some key) stack
        = ((eth_tx_hash (some tx) (some { data := List.replicate 32 0 }) stack).1, some tx)) ∧
    ((eth_tx_hash (some tx) (some { data := List.replicate 32 0 }) stack).1 = 0 →
      (eth_sign (eth_tx_hash (some tx) (some { data := List.replicate 32 0 }) stack).2
        (some key) (some { data := List.replicate 64 0 })).1 ≠ 0 →
      eth_tx_sign (some tx) (some key) stack
        = ((eth_sign (eth_tx_hash (some tx) (some { data := List.replicate 32 0 }) stack).2
            (some key) (some { data := List.replicate 64 0 })).1, some tx)) ∧
    ((eth_tx_sign (some tx) (some key) stack).1 ≠ TX_ERROR_NONE →
      (eth_tx_sign (some tx) (some key) stack).2 = some tx) := by
  have hsigfail : (eth_tx_hash (some tx) (some { data := List.replicate 32 0 }) stack).1 = 0 →
      (eth_sign (eth_tx_hash (some tx) (some { data := List.replicate 32 0 }) stack).2
        (some key) (some { data := List.replicate 64 0 })).1 ≠ 0 →
      eth_tx_sign (some tx) (some key) stack
        = ((eth_sign (eth_tx_hash (some tx) (some { data := List.replicate 32 0 }) stack).2
            (some key) (some { data := List.replicate 64 0 })).1, some tx) := by
    intro h1 h2
    unfold eth_tx_sign
    simp only []
    rw [if_neg (by simpa using h1), if_pos h2]
  by_cases hh : (eth_tx_hash (some tx) (some { data := List.replicate 32 0 }) stack).1 = 0
  · obtain ⟨d, hd⟩ := tx_hash_some tx _ stack hh
    obtain ⟨sg, hs, hlen⟩ := eth_sign_some d key { data := List.replicate 64 0 }
    have hsign := eth_tx_sign_ok tx key stack d sg hd hs
    refine ⟨fun _ => ⟨d, sg, { tx with
        r := sg.data.take 32, s := (sg.data.drop 32).take 32,
        v := if tx.tx_type = ETH_LEGACY_TX then (35 + (tx.chain_id * 2) % SIZE_MOD) % 256
             else 0 }, hd, hs, hlen, by rw [hsign], rfl, ?_, rfl⟩, ?_, hsigfail, ?_⟩
    · show (sg.data.drop 32).take 32 = sg.data.drop 32
      exact List.take_of_length_le (by simp; omega)
    · intro hne
      exact absurd hh hne
    · intro hne
      rw [hsign] at hne
      exact absurd rfl hne
  · have hfail : eth_tx_sign (some tx) (some key) stack
        = ((eth_tx_hash (some tx) (some { data := List.replicate 32 0 }) stack).1, some tx) := by
      unfold eth_tx_sign
      simp only []
      rw [if_pos hh]
    refine ⟨?_, fun _ => hfail, hsigfail, fun _ => by rw [hfail]⟩
    intro h0
    rw [hfail] at h0
    exact absurd h0 hh

theorem C25_sign_changes_only_signature_witness :
    (∃ d sg tx',
        eth_tx_hash (some sample_eip1559_tx) (some { data := List.replicate 32 0 })
            (List.replicate 1024 0)
          = (TX_ERROR_NONE, some d) ∧
        eth_sign (some d) (some sample_private_key) (some { data := List.replicate 64 0 })
          = (CRYPTO_ERROR_NONE, some sg) ∧
        sg.data.length = 64 ∧
        (eth_tx_sign (some sample_eip1559_tx) (some sample_private_key)
          (List.replicate 1024 0)).2 = some tx' ∧
        tx'.r = sg.data.take 32 ∧ tx'.s = sg.data.drop 32 ∧
        { tx' with v := sample_eip1559_tx.v, r := sample_eip1559_tx.r,
                   s := sample_eip1559_tx.s } = sample_eip1559_tx) ∧
    eth_tx_sign (some big_calldata_tx) (some sample_private_key) (List.replicate 1024 0)
      = ((eth_tx_hash (some big_calldata_tx) (some { data := List.replicate 32 0 })
          (List.replicate 1024 0)).1, some big_calldata_tx) :=
  ⟨(C25_sign_changes_only_signature sample_eip1559_tx sample_private_key
      (List.replicate 1024 0)).1 (by decide),
    (C25_sign_changes_only_signature big_calldata_tx sample_private_key
      (List.replicate 1024 0)).2.1 (by decide)⟩

theorem zero_signature_ref (tx : eth_transaction_t) (hv : tx.v = 0)
    (hr : tx.r = List.replicate 32 0) (hs : tx.s = List.replicate 32 0) :
    rlp_ref_list (trailing_items tx true) = zero_signature_bytes := by
  simp only [trailing_items, if_true, hv, hr, hs]
  decide

/-- C26: for every supported transaction kind, `eth_tx_encode_signed` on a valid transaction
whose signature fields are still what `eth_tx_init` left (`v = 0`, `r` and `s` all zero)
succeeds in every buffer large enough: the bytes written are the type tag and the RLP list of
the unsigned fields followed by three signature items, `v` as the single byte `0x80` and `r`
and `s` each as `0xa0` followed by 32 zero bytes (67 bytes in all), and `output_size` is the
length of that encoding. -/
theorem C26_unsigned_tx_signed_encoding (tx t0 ti : eth_transaction_t) (kind : Nat)
    (buffer : List Nat) (buffer_size out : Nat) (hv : tx.valid)
    (ht : tx.tx_type = ETH_LEGACY_TX ∨ tx.tx_type = ETH_EIP2930_TX ∨ tx.tx_type = ETH_EIP1559_TX)
    (hinit : eth_tx_init (some t0) kind = (TX_ERROR_NONE, some ti))
    (hv0 : tx.v = ti.v) (hr0 : tx.r = ti.r) (hs0 : tx.s = ti.s)
    (hb : buffer_size ≤ buffer.length) (hM : buffer_size < SIZE_MOD)
    (hroom : (tx_ref_encoding tx true).length ≤ buffer_size) :
    ∃ b n,
      eth_tx_encode_signed (some tx) (some buffer) buffer_size (some out)
        = (TX_ERROR_NONE, some b, some n) ∧
      b.take n = type_tag tx ++
        (rlp_ref_header 0xc0 (rlp_ref_list (unsigned_items tx) ++ zero_signature_bytes).length
          ++ (rlp_ref_list (unsigned_items tx) ++ zero_signature_bytes)) ∧
      zero_signature_bytes
        = [0x80] ++ (0xa0 :: List.replicate 32 0) ++ (0xa0 :: List.replicate 32 0) ∧
      zero_signature_bytes.length = 67 ∧
      n = (tx_ref_encoding tx true).length ∧ n ≤ buffer_size := by
  have hti : ti.v = 0 ∧ ti.r = List.replicate 32 0 ∧ ti.s = List.replicate 32 0 := by
    simp only [eth_tx_init, Prod.mk.injEq, Option.some.injEq, true_and] at hinit
    subst hinit
    exact ⟨rfl, rfl, rfl⟩
  have hz := zero_signature_ref tx (by rw [hv0, hti.1]) (by rw [hr0, hti.2.1])
    (by rw [hs0, hti.2.2])
  have hpos := ref_encoding_pos tx true
  obtain ⟨b, h1, _, h3⟩ := (eth_tx_encode_with_spec true tx buffer buffer_size out hv ht
    (by omega) hb hM).1 hroom
  refine ⟨b, _, h1, ?_, rfl, by decide, rfl, hroom⟩
  rw [h3]
  unfold tx_ref_encoding
  rw [rlp_ref, rlp_ref_list_append, hz]

theorem C26_unsigned_tx_signed_encoding_witness :
    ∃ b n,
      eth_tx_encode_signed (some fresh_eip1559_tx) (some (List.replicate 100 0)) 100 (some 0)
        = (TX_ERROR_NONE, some b, some n) ∧
      b.take n = type_tag fresh_eip1559_tx ++
        (rlp_ref_header 0xc0
            (rlp_ref_list (unsigned_items fresh_eip1559_tx) ++ zero_signature_bytes).length
          ++ (rlp_ref_list (unsigned_items fresh_eip1559_tx) ++ zero_signature_bytes)) ∧
      zero_signature_bytes
        = [0x80] ++ (0xa0 :: List.replicate 32 0) ++ (0xa0 :: List.replicate 32 0) ∧
      zero_signature_bytes.length = 67 ∧
      n = (tx_ref_encoding fresh_eip1559_tx true).length ∧ n ≤ 100 :=
  C26_unsigned_tx_signed_encoding fresh_eip1559_tx sample_legacy_tx fresh_eip1559_tx
    ETH_EIP1559_TX (List.replicate 100 0) 100 0 (by decide) (by decide) (by decide)
    rfl rfl rfl (by decide) (by decide) (by decide)

/-- C23 (code evaluated at the failing input): the legacy sample transaction on chain 137 is
signed, and the signed transaction is signed again with the same key. Both calls succeed, and
the second one stores as `r` and `s` the two halves of the output of `eth_sign` on the hash of
the unsigned encoding; but the `v` it stores is 53, the low byte of `35 + 2 * 137 = 309`, which
is neither `0 + 35 + 2 * 137` nor `1 + 35 + 2 * 137`. -/
theorem C23_resigned_legacy_v_truncated :
    (eth_tx_sign (some { sample_legacy_tx with chain_id := 137 }) (some sample_private_key)
        (List.replicate 1024 0)).1 = TX_ERROR_NONE ∧
    (eth_tx_sign
        (eth_tx_sign (some { sample_legacy_tx with chain_id := 137 }) (some sample_private_key)
          (List.replicate 1024 0)).2
        (some sample_private_key) (List.replicate 1024 0)).1 = TX_ERROR_NONE ∧
    (eth_tx_sign
        (eth_tx_sign (some { sample_legacy_tx with chain_id := 137 }) (some sample_private_key)
          (List.replicate 1024 0)).2
        (some sample_private_key) (List.replicate 1024 0)).2.map (fun t => (t.r, t.s))
      = (eth_sign
          (eth_tx_hash (some { sample_legacy_tx with chain_id := 137 })
            (some { data := List.replicate 32 0 }) (List.replicate 1024 0)).2
          (some sample_private_key) (some { data := List.replicate 64 0 })).2.map
        (fun sg => (sg.data.take 32, sg.data.drop 32)) ∧
    (eth_tx_sign
        (eth_tx_sign (some { sample_legacy_tx with chain_id := 137 }) (some sample_private_key)
          (List.replicate 1024 0)).2
        (some sample_private_key) (List.replicate 1024 0)).2.map (fun t => t.v) = some 53 ∧
    (53 : Nat) = (35 + 2 * 137) % 256 ∧
    (53 : Nat) ≠ 0 + 35 + 2 * 137 ∧ (53 : Nat) ≠ 1 + 35 + 2 * 137 := by
  decide

theorem encode_fields_ignores_signature (t : eth_transaction_t) (v : Nat) (r s : List Nat)
    (e : rlp_encoder_t) :
    encode_tx_fields { t with v := v, r := r, s := s } e false = encode_tx_fields t e false :=
  rfl

theorem encode_ignores_signature (t : eth_transaction_t) (v : Nat) (r s : List Nat)
    (buffer : Option (List Nat)) (size : Nat) (out : Option Nat) :
    eth_tx_encode (some { t with v := v, r := r, s := s }) buffer size out
      = eth_tx_encode (some t) buffer size out := by
  cases buffer <;> cases out <;> rfl

theorem hash_ignores_signature (t : eth_transaction_t) (v : Nat) (r s : List Nat)
    (hash : Option eth_hash_t) (stack : List Nat) :
    eth_tx_hash (some { t with v := v, r := r, s := s }) hash stack
      = eth_tx_hash (some t) hash stack := by
  cases hash with
  | none => rfl
  | some h =>
    unfold eth_tx_hash
    simp only [encode_ignores_signature]

theorem sign_success_hash (tx : eth_transaction_t) (key : eth_private_key_t) (stack : List Nat)
    (h : (eth_tx_sign (some tx) (some key) stack).1 = 0) :
    (eth_tx_hash (some tx) (some { data := List.replicate 32 0 }) stack).1 = 0 := by
  by_contra hc
  unfold eth_tx_sign at h
  simp only [] at h
  rw [if_pos hc] at h
  exact hc h

theorem sign_twice_same (tx tx1 : eth_transaction_t) (key : eth_private_key_t)
    (stack stack2 : List Nat)
    (hs : eth_tx_sign (some tx) (some key) stack = (TX_ERROR_NONE, some tx1))
    (hh : eth_tx_hash (some tx) (some { data := List.replicate 32 0 }) stack2
      = eth_tx_hash (some tx) (some { data := List.replicate 32 0 }) stack) :
    eth_tx_sign (some tx1) (some key) stack2 = (TX_ERROR_NONE, some tx1) := by
  obtain ⟨d, hd⟩ := tx_hash_some tx _ stack (sign_success_hash tx key stack (by rw [hs]))
  obtain ⟨sg, hsg, _⟩ := eth_sign_some d key { data := List.replicate 64 0 }
  have h1 := eth_tx_sign_ok tx key stack d sg hd hsg
  rw [hs] at h1
  simp only [Prod.mk.injEq, Option.some.injEq, true_and] at h1
  have hd2 : eth_tx_hash (some tx1) (some { data := List.replicate 32 0 }) stack2
      = (TX_ERROR_NONE, some d) := by
    rw [h1, hash_ignores_signature, hh, hd]
  rw [eth_tx_sign_ok tx1 key stack2 d sg hd2 hsg]
  rw [h1]

/-- C30: the unsigned encoding and the signing hash do not depend on the signature fields.
For any two transactions that differ only in `v`, `r` and `s`, `eth_tx_encode` returns the
same result code, the same buffer and the same `output_size`, and `eth_tx_hash` the same
result code and digest. Hence signing is idempotent: if `eth_tx_sign` succeeds and yields
`tx1`, signing `tx1` again with the same key yields `tx1` again; and for a valid transaction
of a supported kind whose unsigned encoding fits the 1024-byte internal buffer this holds
whatever the internal buffers contain before the two calls. -/
theorem C30_encoding_ignores_signature (tx tx2 : eth_transaction_t) (key : eth_private_key_t)
    (buffer : Option (List Nat)) (buffer_size : Nat) (out : Option Nat)
    (hash0 : Option eth_hash_t) (stack stack2 : List Nat)
    (hdiff : { tx2 with v := tx.v, r := tx.r, s := tx.s } = tx) :
    eth_tx_encode (some tx2) buffer buffer_size out
      = eth_tx_encode (some tx) buffer buffer_size out ∧
    eth_tx_hash (some tx2) hash0 stack = eth_tx_hash (some tx) hash0 stack ∧
    (∀ tx1, eth_tx_sign (some tx) (some key) stack = (TX_ERROR_NONE, some tx1) →
      eth_tx_sign (some tx1) (some key) stack = (TX_ERROR_NONE, some tx1)) ∧
    (tx.valid →
      tx.tx_type = ETH_LEGACY_TX ∨ tx.tx_type = ETH_EIP2930_TX ∨ tx.tx_type = ETH_EIP1559_TX →
      stack.length = 1024 → stack2.length = 1024 →
      (tx_ref_encoding tx false).length ≤ 1024 →
      ∃ tx1, eth_tx_sign (some tx) (some key) stack = (TX_ERROR_NONE, some tx1) ∧
        eth_tx_sign (some tx1) (some key) stack2 = (TX_ERROR_NONE, some tx1)) := by
  refine ⟨?_, ?_, ?_, ?_⟩
  · have := encode_ignores_signature tx2 tx.v tx.r tx.s buffer buffer_size out
    rw [hdiff] at this
    exact this.symm
  · have := hash_ignores_signature tx2 tx.v tx.r tx.s hash0 stack
    rw [hdiff] at this
    exact this.symm
  · intro tx1 hs
    exact sign_twice_same tx tx1 key stack stack hs rfl
  · intro hv ht hl hl2 hfit
    obtain ⟨d, hd⟩ := eth_keccak256_ok (tx_ref_encoding tx false)
      (tx_ref_encoding tx false).length
    have hh : ∀ st : List Nat, st.length = 1024 →
        eth_tx_hash (some tx) (some { data := List.replicate 32 0 }) st
          = (TX_ERROR_NONE, some d) :=
      fun st hst => by rw [eth_tx_hash_eq tx st _ hv ht hst hfit, hd]
    obtain ⟨sg, hsg, _⟩ := eth_sign_some d key { data := List.replicate 64 0 }
    have h1 := eth_tx_sign_ok tx key stack d sg (hh stack hl) hsg
    exact ⟨_, h1, sign_twice_same tx _ key stack stack2 h1 (by rw [hh stack hl, hh stack2 hl2])⟩

theorem C30_encoding_ignores_signature_witness :
    eth_tx_encode (some signed_sample_tx) (some (List.replicate 40 0)) 40 (some 0)
      = eth_tx_encode (some sample_legacy_tx) (some (List.replicate 40 0)) 40 (some 0) ∧
    eth_tx_hash (some signed_sample_tx) (some { data := [] }) (List.replicate 1024 0)
      = eth_tx_hash (some sample_legacy_tx) (some { data := [] }) (List.replicate 1024 0) ∧
    ∃ tx1, eth_tx_sign (some sample_legacy_tx) (some sample_private_key)
        (List.replicate 1024 0) = (TX_ERROR_NONE, some tx1) ∧
      eth_tx_sign (some tx1) (some sample_private_key) (List.replicate 1024 9)
        = (TX_ERROR_NONE, some tx1) :=
  ⟨(C30_encoding_ignores_signature sample_legacy_tx signed_sample_tx sample_private_key
      (some (List.replicate 40 0)) 40 (some 0) (some { data := [] }) (List.replicate 1024 0)
      (List.replicate 1024 9) (by decide)).1,
    (C30_encoding_ignores_signature sample_legacy_tx signed_sample_tx sample_private_key
      (some (List.replicate 40 0)) 40 (some 0) (some { data := [] }) (List.replicate 1024 0)
      (List.replicate 1024 9) (by decide)).2.1,
    (C30_encoding_ignores_signature sample_legacy_tx signed_sample_tx sample_private_key
      (some (List.replicate 40 0)) 40 (some 0) (some { data := [] }) (List.replicate 1024 0)
      (List.replicate 1024 9) (by decide)).2.2.2 (by decide) (by decide)
      (List.length_replicate 1024 0) (List.length_replicate 1024 9) (by decide)⟩

theorem encode_with_capacity (sig : Bool) (tx : eth_transaction_t) (buffer : List Nat)
    (buffer_size out : Nat) (hv : tx.valid)
    (ht : tx.tx_type = ETH_LEGACY_TX ∨ tx.tx_type = ETH_EIP2930_TX ∨ tx.tx_type = ETH_EIP1559_TX)
    (hb : buffer_size ≤ buffer.length)
    (hM : buffer_size + (tx_ref_encoding tx sig).length < SIZE_MOD) :
    ((eth_tx_encode_with sig (some tx) (some buffer) buffer_size (some out)).1 = TX_ERROR_NONE
      ↔ (tx_ref_encoding tx sig).length ≤ buffer_size) ∧
    ((eth_tx_encode_with sig (some tx) (some buffer) buffer_size (some out)).1 = TX_ERROR_NONE →
      (eth_tx_encode_with sig (some tx) (some buffer) buffer_size (some out)).2.2
        = some (tx_ref_encoding tx sig).length) := by
  have hpos := ref_encoding_pos tx sig
  by_cases h0 : buffer_size = 0
  · subst h0
    have : eth_tx_encode_with sig (some tx) (some buffer) 0 (some out)
        = (TX_ERROR_INVALID, some buffer, some out) := by
      simp [eth_tx_encode_with]
    rw [this]
    have hne : ¬ ((TX_ERROR_INVALID : Int) = TX_ERROR_NONE) := by decide
    constructor
    · constructor
      · intro h; exact absurd h hne
      · intro h; omega
    · intro h; exact absurd h hne
  · have hspec := eth_tx_encode_with_spec sig tx buffer buffer_size out hv ht (by omega) hb
      (by omega)
    by_cases hr : (tx_ref_encoding tx sig).length ≤ buffer_size
    · obtain ⟨b, h1, _, _⟩ := hspec.1 hr
      rw [h1]
      exact ⟨⟨fun _ => hr, fun _ => rfl⟩, fun _ => rfl⟩
    · have hf := (hspec.2 (by omega) hM).1
      exact ⟨⟨fun h => absurd h hf, fun h => absurd h hr⟩, fun h => absurd h hf⟩

/-- C28: exact capacity bound. For every transaction of a supported kind with valid fields,
in a buffer that really has `buffer_size` bytes (buffer and encoding together within the
64-bit address space), `eth_tx_encode` succeeds if and only if `buffer_size` is at least the
length of the final encoding (type byte, list prefix with any long-form length bytes, and
fields), and likewise `eth_tx_encode_signed`; on success `output_size` is that length, which
is at most `buffer_size`. -/
theorem C28_exact_capacity_bound (tx : eth_transaction_t) (buffer : List Nat)
    (buffer_size out : Nat) (hv : tx.valid)
    (ht : tx.tx_type = ETH_LEGACY_TX ∨ tx.tx_type = ETH_EIP2930_TX ∨ tx.tx_type = ETH_EIP1559_TX)
    (hb : buffer_size ≤ buffer.length)
    (hM : buffer_size + (tx_ref_encoding tx false).length < SIZE_MOD)
    (hMs : buffer_size + (tx_ref_encoding tx true).length < SIZE_MOD) :
    ((eth_tx_encode (some tx) (some buffer) buffer_size (some out)).1 = TX_ERROR_NONE
      ↔ (tx_ref_encoding tx false).length ≤ buffer_size) ∧
    ((eth_tx_encode (some tx) (some buffer) buffer_size (some out)).1 = TX_ERROR_NONE →
      (eth_tx_encode (some tx) (some buffer) buffer_size (some out)).2.2
        = some (tx_ref_encoding tx false).length ∧
      (tx_ref_encoding tx false).length ≤ buffer_size) ∧
    ((eth_tx_encode_signed (some tx) (some buffer) buffer_size (some out)).1 = TX_ERROR_NONE
      ↔ (tx_ref_encoding tx true).length ≤ buffer_size) ∧
    ((eth_tx_encode_signed (some tx) (some buffer) buffer_size (some out)).1 = TX_ERROR_NONE →
      (eth_tx_encode_signed (some tx) (some buffer) buffer_size (some out)).2.2
        = some (tx_ref_encoding tx true).length ∧
      (tx_ref_encoding tx true).length ≤ buffer_size) ∧
    ∀ sig : Bool, (tx_ref_encoding tx sig).length
      = (type_tag tx).length
        + (rlp_ref_header 0xc0
            (rlp_ref_list (unsigned_items tx ++ trailing_items tx sig)).length).length
        + (rlp_ref_list (unsigned_items tx ++ trailing_items tx sig)).length := by
  have h1 := encode_with_capacity false tx buffer buffer_size out hv ht hb hM
  have h2 := encode_with_capacity true tx buffer buffer_size out hv ht hb hMs
  refine ⟨h1.1, fun h => ⟨h1.2 h, h1.1.1 h⟩, h2.1, fun h => ⟨h2.2 h, h2.1.1 h⟩, ?_⟩
  intro sig
  unfold tx_ref_encoding
  rw [rlp_ref]
  simp only [List.length_append]
  omega

theorem C28_exact_capacity_bound_witness :
    ((eth_tx_encode (some sample_legacy_tx) (some (List.replicate 36 0)) 36 (some 0)).1
        = TX_ERROR_NONE
      ↔ (tx_ref_encoding sample_legacy_tx false).length ≤ 36) ∧
    ((eth_tx_encode (some sample_legacy_tx) (some (List.replicate 35 0)) 35 (some 0)).1
        = TX_ERROR_NONE
      ↔ (tx_ref_encoding sample_legacy_tx false).length ≤ 35) ∧
    (tx_ref_encoding sample_legacy_tx false).length = 36 :=
  ⟨(C28_exact_capacity_bound sample_legacy_tx (List.replicate 36 0) 36 0 (by decide)
      (by decide) (by decide) (by decide) (by decide)).1,
    (C28_exact_capacity_bound sample_legacy_tx (List.replicate 35 0) 35 0 (by decide)
      (by decide) (by decide) (by decide) (by decide)).1,
    by decide⟩

theorem ref_string_length_ge (s : List Nat) : s.length ≤ (rlp_ref_string s).length := by
  rw [rlp_ref_string_eq]
  split
  · exact le_refl _
  · simp

theorem begin_list_ok (e : rlp_encoder_t) (hw : e.wf) (hr : e.length + 1 ≤ e.buffer_size) :
    (rlp_begin_list e).1 = 0 ∧ (rlp_begin_list e).2.2 = e.length ∧
    Appended e (rlp_begin_list e).2.1 [0xc0] := by
  obtain ⟨h0, ha⟩ := (appends_insert_byte e 0xc0 hw).1 (by simpa using hr)
  exact ⟨h0, rfl, ha⟩

mutual
theorem encode_item_ok : ∀ (t : RLPItem) (e : rlp_encoder_t), e.wf →
    e.length + (rlp_ref t).length ≤ e.buffer_size →
    (rlp_encode_item t e).1 = 0 ∧ Appended e (rlp_encode_item t e).2 (rlp_ref t)
  | .str s, e, hw, hr => by
    rw [rlp_ref] at hr ⊢
    rw [rlp_encode_item]
    have hs : s.length < SIZE_MOD := by
      have := ref_string_length_ge s
      have := hw.2.2
      omega
    have := appends_encode_bytes e s s.length hw (le_refl _) hs
    rw [List.take_length] at this
    exact this.1 hr
  | .list items, e, hw, hr => by
    rw [rlp_ref] at hr ⊢
    rw [rlp_encode_item]
    simp only [List.length_append] at hr
    have hpos := ref_header_length_pos 0xc0 (rlp_ref_list items).length
    obtain ⟨b0, bm, ba⟩ := begin_list_ok e hw (by omega)
    have hw1 := appended_wf hw (by simp; omega) ba
    have hlen1 : (rlp_begin_list e).2.1.length = e.length + 1 := by
      simpa using ba.2.2.1
    obtain ⟨i0, ia⟩ := encode_items_ok items (rlp_begin_list e).2.1 hw1
      (by rw [hlen1, ba.1]; omega)
    have hw2 := appended_wf hw1 (by rw [hlen1, ba.1]; omega) ia
    have hwr : (rlp_encode_items items (rlp_begin_list e).2.1).2.written
        = e.written ++ 0xc0 :: rlp_ref_list items := by
      rw [ia.2.2.2, ba.2.2.2]; simp
    have hend := (end_list_spec _ e.written (rlp_ref_list items) 0xc0 hw2 hwr).1
      (by rw [ia.2.2.1, hlen1, ia.1, ba.1]; omega)
    rw [written_length e hw] at hend
    obtain ⟨e0, e1, e2, e3, e4⟩ := hend
    simp only [check, b0, i0, bm, ne_eq, not_true_eq_false, if_false]
    refine ⟨e0, ?_, ?_, ?_, e4⟩
    · rw [e1, ia.1, ba.1]
    · rw [e2, ia.2.1, ba.2.1]
    · have h3 := ia.2.2.1
      simp only [List.length_append]
      omega
  termination_by t => sizeOf t
theorem encode_items_ok : ∀ (ts : List RLPItem) (e : rlp_encoder_t), e.wf →
    e.length + (rlp_ref_list ts).length ≤ e.buffer_size →
    (rlp_encode_items ts e).1 = 0 ∧ Appended e (rlp_encode_items ts e).2 (rlp_ref_list ts)
  | [], e, hw, hr => by
    rw [rlp_encode_items, rlp_ref_list]
    exact ⟨rfl, rfl, rfl, by simp, by simp⟩
  | x :: xs, e, hw, hr => by
    rw [rlp_ref_list] at hr ⊢
    rw [rlp_encode_items]
    simp only [List.length_append] at hr
    obtain ⟨x0, xa⟩ := encode_item_ok x e hw (by omega)
    have hw1 := appended_wf hw (by omega) xa
    obtain ⟨r0, ra⟩ := encode_items_ok xs (rlp_encode_item x e).2 hw1
      (by rw [xa.2.2.1, xa.1]; omega)
    simp only [check, x0, ne_eq, not_true_eq_false, if_false]
    exact ⟨r0, appended_trans xa ra⟩
  termination_by ts => sizeOf ts
end

/-- C27: the streaming encoder equals the reference RLP encoding. For every finite tree `t`
of byte-strings and lists (any depth, any content length), driving the encoder by the
traversal `rlp_encode_item` from a well-formed state with cursor `c` and capacity at least
`c + |RLP(t)|` returns 0 (so every call of the traversal returned 0), leaves the bytes
`c .. c + |RLP(t)| - 1` equal to the reference encoding `rlp_ref t`, the cursor at
`c + |RLP(t)|`, the bytes below `c` and the capacity unchanged; this includes trees in which
the prefix of an inner list grows while outer lists are still open. -/
theorem C27_streaming_equals_reference (t : RLPItem) (e : rlp_encoder_t) (hw : e.wf)
    (hroom : e.length + (rlp_ref t).length ≤ e.buffer_size) :
    (rlp_encode_item t e).1 = RLP_ERROR_NONE ∧
    (rlp_encode_item t e).2.length = e.length + (rlp_ref t).length ∧
    ((rlp_encode_item t e).2.buffer.drop e.length).take (rlp_ref t).length = rlp_ref t ∧
    (rlp_encode_item t e).2.buffer.take e.length = e.buffer.take e.length ∧
    (rlp_encode_item t e).2.buffer_size = e.buffer_size ∧
    (rlp_encode_item t e).2.buffer.length = e.buffer.length := by
  obtain ⟨h0, a1, a2, a3, a4⟩ := encode_item_ok t e hw hroom
  have hlen := written_length e hw
  simp only [rlp_encoder_t.written] at a4 hlen
  refine ⟨h0, a3, ?_, ?_, a1, a2⟩
  · have := congrArg (List.drop e.length) a4
    rw [List.drop_take, a3] at this
    rw [show e.length + (rlp_ref t).length - e.length = (rlp_ref t).length by omega] at this
    rw [this, List.drop_left' hlen]
  · have := congrArg (List.take e.length) a4
    rw [List.take_take, a3, Nat.min_eq_left (by omega)] at this
    rw [this, List.take_left' hlen]

theorem C27_streaming_equals_reference_witness :
    (rlp_encode_item nested_tree ⟨List.replicate 80 0, 80, 2⟩).1 = RLP_ERROR_NONE ∧
    (rlp_encode_item nested_tree ⟨List.replicate 80 0, 80, 2⟩).2.length
      = 2 + (rlp_ref nested_tree).length ∧
    ((rlp_encode_item nested_tree ⟨List.replicate 80 0, 80, 2⟩).2.buffer.drop 2).take
      (rlp_ref nested_tree).length = rlp_ref nested_tree ∧
    (rlp_encode_item nested_tree ⟨List.replicate 80 0, 80, 2⟩).2.buffer.take 2
      = (List.replicate 80 0).take 2 ∧
    (rlp_encode_item nested_tree ⟨List.replicate 80 0, 80, 2⟩).2.buffer_size = 80 ∧
    (rlp_encode_item nested_tree ⟨List.replicate 80 0, 80, 2⟩).2.buffer.length
      = (List.replicate 80 0).length :=
  C27_streaming_equals_reference nested_tree ⟨List.replicate 80 0, 80, 2⟩ (by decide)
    (by decide)

theorem be_minimal_inj (a b : Nat) (h : be_minimal a = be_minimal b) : a = b := by
  have := congrArg be_decode h
  rwa [be_decode_be_minimal, be_decode_be_minimal] at this

theorem header_prefix_free (base n1 n2 : Nat) (r1 r2 : List Nat)
    (h : rlp_ref_header base n1 ++ r1 = rlp_ref_header base n2 ++ r2) : n1 = n2 ∧ r1 = r2 := by
  unfold rlp_ref_header at h
  by_cases h1 : n1 < 56 <;> by_cases h2 : n2 < 56
  · rw [if_pos h1, if_pos h2] at h
    simp only [List.singleton_append, List.cons.injEq] at h
    exact ⟨by omega, h.2⟩
  · rw [if_pos h1, if_neg h2] at h
    simp only [List.singleton_append, List.cons_append, List.cons.injEq] at h
    have := (be_minimal_length_bounds n2 (by omega)).1
    omega
  · rw [if_neg h1, if_pos h2] at h
    simp only [List.singleton_append, List.cons_append, List.cons.injEq] at h
    have := (be_minimal_length_bounds n1 (by omega)).1
    omega
  · rw [if_neg h1, if_neg h2] at h
    simp only [List.cons_append, List.cons.injEq] at h
    obtain ⟨hk, ht⟩ := h
    obtain ⟨hb, hr⟩ := List.append_inj ht (by omega)
    exact ⟨be_minimal_inj n1 n2 hb, hr⟩

theorem header_head (base n : Nat) :
    ∃ x t, rlp_ref_header base n = x :: t ∧ base ≤ x := by
  unfold rlp_ref_header
  split
  · exact ⟨_, _, rfl, by omega⟩
  · exact ⟨_, _, rfl, by omega⟩

theorem string_prefix_free (s1 s2 r1 r2 : List Nat)
    (h : rlp_ref_string s1 ++ r1 = rlp_ref_string s2 ++ r2) : s1 = s2 ∧ r1 = r2 := by
  have single : ∀ s : List Nat, s.length = 1 ∧ s.getD 0 0 < 0x80 → ∃ a, s = [a] ∧ a < 0x80 := by
    intro s hs
    match s, hs with
    | [a], hs => exact ⟨a, rfl, by simpa using hs.2⟩
  rw [rlp_ref_string_eq, rlp_ref_string_eq] at h
  by_cases h1 : s1.length = 1 ∧ s1.getD 0 0 < 0x80 <;>
    by_cases h2 : s2.length = 1 ∧ s2.getD 0 0 < 0x80
  · rw [if_pos h1, if_pos h2] at h
    exact List.append_inj h (by rw [h1.1, h2.1])
  · rw [if_pos h1, if_neg h2] at h
    obtain ⟨a, ha, ha2⟩ := single s1 h1
    obtain ⟨x, t, hx, hx2⟩ := header_head 0x80 s2.length
    rw [ha, hx] at h
    simp only [List.singleton_append, List.cons_append, List.cons.injEq] at h
    omega
  · rw [if_neg h1, if_pos h2] at h
    obtain ⟨a, ha, ha2⟩ := single s2 h2
    obtain ⟨x, t, hx, hx2⟩ := header_head 0x80 s1.length
    rw [ha, hx] at h
    simp only [List.singleton_append, List.cons_append, List.cons.injEq] at h
    omega
  · rw [if_neg h1, if_neg h2, List.append_assoc, List.append_assoc] at h
    obtain ⟨hn, hr⟩ := header_prefix_free 0x80 _ _ _ _ h
    exact List.append_inj hr hn

theorem string_list_inj : ∀ (l1 l2 : List (List Nat)) (r1 r2 : List Nat),
    l1.length = l2.length →
    rlp_ref_list (l1.map RLPItem.str) ++ r1 = rlp_ref_list (l2.map RLPItem.str) ++ r2 →
    l1 = l2 ∧ r1 = r2
  | [], [], r1, r2, _, h => by
    simp only [List.map_nil, rlp_ref_list, List.nil_append] at h
    exact ⟨rfl, h⟩
  | [], _ :: _, _, _, hl, _ => by simp at hl
  | _ :: _, [], _, _, hl, _ => by simp at hl
  | a :: l1, b :: l2, r1, r2, hl, h => by
    simp only [List.map_cons, rlp_ref_list, rlp_ref, List.append_assoc] at h
    obtain ⟨hab, hrest⟩ := string_prefix_free a b _ _ h
    obtain ⟨hl12, hr⟩ := string_list_inj l1 l2 r1 r2 (by simpa using hl) hrest
    exact ⟨by rw [hab, hl12], hr⟩



theorem ref_encoding_shape (tx : eth_transaction_t) (sig : Bool) :
    tx_ref_encoding tx sig = type_tag tx ++
      (rlp_ref_header 0xc0 (rlp_ref_list (unsigned_items tx ++ trailing_items tx sig)).length
        ++ rlp_ref_list (unsigned_items tx ++ trailing_items tx sig)) := by
  unfold tx_ref_encoding
  rw [rlp_ref]

theorem items_legacy (tx : eth_transaction_t) (ht : tx.tx_type = ETH_LEGACY_TX) :
    unsigned_items tx ++ trailing_items tx false =
      List.map RLPItem.str [be_minimal tx.nonce, tx.gas_price.take tx.gas_price_len,
        be_minimal tx.gas_limit, tx.to_.take tx.to_len, tx.value.take tx.value_len,
        tx.data_bytes, be_minimal tx.chain_id, [], []] := by
  simp [unsigned_items, legacy_items, trailing_items, replay_items, rlp_uint, ht]

theorem items_eip2930 (tx : eth_transaction_t) (ht : tx.tx_type = ETH_EIP2930_TX) :
    unsigned_items tx ++ trailing_items tx false =
      List.map RLPItem.str [be_minimal tx.chain_id, be_minimal tx.nonce,
        tx.gas_price.take tx.gas_price_len, be_minimal tx.gas_limit, tx.to_.take tx.to_len,
        tx.value.take tx.value_len, tx.data_bytes] ++ [RLPItem.list []] := by
  simp [unsigned_items, eip2930_items, trailing_items, rlp_uint, ht]

theorem items_eip1559 (tx : eth_transaction_t) (ht : tx.tx_type = ETH_EIP1559_TX) :
    unsigned_items tx ++ trailing_items tx false =
      List.map RLPItem.str [be_minimal tx.chain_id, be_minimal tx.nonce,
        tx.max_priority_fee.take tx.max_priority_fee_len, tx.max_fee.take tx.max_fee_len,
        be_minimal tx.gas_limit, tx.to_.take tx.to_len, tx.value.take tx.value_len,
        tx.data_bytes] ++ [RLPItem.list []] := by
  simp [unsigned_items, eip1559_items, trailing_items, rlp_uint, ht]

theorem ref_encoding_head (tx : eth_transaction_t) (sig : Bool) :
    (tx.tx_type = ETH_EIP2930_TX → (tx_ref_encoding tx sig).headD 0 = 0x01) ∧
    (tx.tx_type = ETH_EIP1559_TX → (tx_ref_encoding tx sig).headD 0 = 0x02) ∧
    (tx.tx_type ≠ ETH_EIP2930_TX → tx.tx_type ≠ ETH_EIP1559_TX →
      0xc0 ≤ (tx_ref_encoding tx sig).headD 0) := by
  rw [ref_encoding_shape]
  obtain ⟨x, t, hx, hx2⟩ := header_head 0xc0
    (rlp_ref_list (unsigned_items tx ++ trailing_items tx sig)).length
  rw [hx]
  refine ⟨?_, ?_, ?_⟩
  · intro h; simp [type_tag, h]
  · intro h; simp [type_tag, h]
  · intro h1 h2; simp [type_tag, h1, h2]; exact hx2

theorem ref_encoding_inj (tx1 tx2 : eth_transaction_t)
    (ht1 : tx1.tx_type = ETH_LEGACY_TX ∨ tx1.tx_type = ETH_EIP2930_TX ∨
      tx1.tx_type = ETH_EIP1559_TX)
    (ht2 : tx2.tx_type = ETH_LEGACY_TX ∨ tx2.tx_type = ETH_EIP2930_TX ∨
      tx2.tx_type = ETH_EIP1559_TX)
    (h : tx_ref_encoding tx1 false = tx_ref_encoding tx2 false) :
    tx1.tx_type = tx2.tx_type ∧ tx1.nonce = tx2.nonce ∧ tx1.gas_limit = tx2.gas_limit ∧
    tx1.chain_id = tx2.chain_id ∧
    tx1.to_.take tx1.to_len = tx2.to_.take tx2.to_len ∧
    tx1.value.take tx1.value_len = tx2.value.take tx2.value_len ∧
    tx1.data_bytes = tx2.data_bytes ∧
    (tx1.tx_type = ETH_EIP1559_TX →
      tx1.max_priority_fee.take tx1.max_priority_fee_len
        = tx2.max_priority_fee.take tx2.max_priority_fee_len ∧
      tx1.max_fee.take tx1.max_fee_len = tx2.max_fee.take tx2.max_fee_len) ∧
    (tx1.tx_type ≠ ETH_EIP1559_TX →
      tx1.gas_price.take tx1.gas_price_len = tx2.gas_price.take tx2.gas_price_len) := by
  have hh1 := ref_encoding_head tx1 false
  have hh2 := ref_encoding_head tx2 false
  rw [h] at hh1
  have hkind : tx1.tx_type = tx2.tx_type := by
    rcases ht1 with a | a | a <;> rcases ht2 with b | b | b
    · rw [a, b]
    · have := hh1.2.2 (by rw [a]; decide) (by rw [a]; decide)
      have := hh2.1 b
      omega
    · have := hh1.2.2 (by rw [a]; decide) (by rw [a]; decide)
      have := hh2.2.1 b
      omega
    · have := hh2.2.2 (by rw [b]; decide) (by rw [b]; decide)
      have := hh1.1 a
      omega
    · rw [a, b]
    · have := hh1.1 a
      have := hh2.2.1 b
      omega
    · have := hh2.2.2 (by rw [b]; decide) (by rw [b]; decide)
      have := hh1.2.1 a
      omega
    · have := hh1.2.1 a
      have := hh2.1 b
      omega
    · rw [a, b]
  have htag : type_tag tx1 = type_tag tx2 := by simp [type_tag, hkind]
  rw [ref_encoding_shape, ref_encoding_shape, htag] at h
  have hP := (header_prefix_free 0xc0 _ _ _ _ (List.append_cancel_left h)).2
  rcases ht1 with a | a | a
  · have b : tx2.tx_type = ETH_LEGACY_TX := by rw [← hkind, a]
    rw [items_legacy tx1 a, items_legacy tx2 b] at hP
    have hP2 := congrArg (fun l => l ++ ([] : List Nat)) hP
    simp only [] at hP2
    have := (string_list_inj _ _ _ _ (by rfl) hP2).1
    simp only [List.cons.injEq, and_true] at this
    obtain ⟨n, g, l, t, v, d, c⟩ := this
    refine ⟨hkind, be_minimal_inj _ _ n, be_minimal_inj _ _ l, be_minimal_inj _ _ c, t, v, d,
      ?_, fun _ => g⟩
    intro h5; rw [a] at h5; exact absurd h5 (by decide)
  · have b : tx2.tx_type = ETH_EIP2930_TX := by rw [← hkind, a]
    rw [items_eip2930 tx1 a, items_eip2930 tx2 b, rlp_ref_list_append,
      rlp_ref_list_append] at hP
    have := (string_list_inj _ _ _ _ (by rfl) hP).1
    simp only [List.cons.injEq, and_true] at this
    obtain ⟨c, n, g, l, t, v, d⟩ := this
    refine ⟨hkind, be_minimal_inj _ _ n, be_minimal_inj _ _ l, be_minimal_inj _ _ c, t, v, d,
      ?_, fun _ => g⟩
    intro h5; rw [a] at h5; exact absurd h5 (by decide)
  · have b : tx2.tx_type = ETH_EIP1559_TX := by rw [← hkind, a]
    rw [items_eip1559 tx1 a, items_eip1559 tx2 b, rlp_ref_list_append,
      rlp_ref_list_append] at hP
    have := (string_list_inj _ _ _ _ (by rfl) hP).1
    simp only [List.cons.injEq, and_true] at this
    obtain ⟨c, n, p, f, l, t, v, d⟩ := this
    refine ⟨hkind, be_minimal_inj _ _ n, be_minimal_inj _ _ l, be_minimal_inj _ _ c, t, v, d,
      fun _ => ⟨p, f⟩, ?_⟩
    intro h5; exact absurd a h5



theorem encode_success_supported (tx : eth_transaction_t) (buf : List Nat) (size out : Nat)
    (h : (eth_tx_encode (some tx) (some buf) size (some out)).1 = TX_ERROR_NONE) :
    tx.tx_type = ETH_LEGACY_TX ∨ tx.tx_type = ETH_EIP2930_TX ∨ tx.tx_type = ETH_EIP1559_TX := by
  by_contra hc
  have ht : tx.tx_type ≠ ETH_LEGACY_TX ∧ tx.tx_type ≠ ETH_EIP2930_TX ∧
      tx.tx_type ≠ ETH_EIP1559_TX := by
    refine ⟨fun a => hc (Or.inl a), fun a => hc (Or.inr (Or.inl a)),
      fun a => hc (Or.inr (Or.inr a))⟩
  by_cases h0 : size = 0
  · subst h0
    simp [eth_tx_encode, eth_tx_encode_with] at h
  · unfold eth_tx_encode at h
    rw [encode_with_unsupported false tx buf size out ht (by omega)] at h
    simp at h

theorem encode_success_bytes (tx : eth_transaction_t) (buf b : List Nat) (size out n : Nat)
    (hv : tx.valid) (hb : size ≤ buf.length)
    (hM : size + (tx_ref_encoding tx false).length < SIZE_MOD)
    (h : eth_tx_encode (some tx) (some buf) size (some out) = (TX_ERROR_NONE, some b, some n)) :
    (tx.tx_type = ETH_LEGACY_TX ∨ tx.tx_type = ETH_EIP2930_TX ∨ tx.tx_type = ETH_EIP1559_TX) ∧
    b.take n = tx_ref_encoding tx false := by
  have ht := encode_success_supported tx buf size out (by rw [h])
  have hroom := (encode_with_capacity false tx buf size out hv ht hb hM).1.1
    (by unfold eth_tx_encode at h; rw [h])
  have hpos := ref_encoding_pos tx false
  obtain ⟨b', h1, _, h3⟩ := (eth_tx_encode_with_spec false tx buf size out hv ht (by omega) hb
    (by omega)).1 hroom
  unfold eth_tx_encode at h
  rw [h] at h1
  simp only [Prod.mk.injEq, Option.some.injEq, true_and] at h1
  rw [h1.1, h1.2]
  exact ⟨ht, h3⟩

/-- C29: the unsigned encoding is injective on transactions. For any two transactions with
valid field lengths (buffers that really have their `buffer_size` bytes, buffer and encoding
together within the 64-bit address space), if `eth_tx_encode` succeeds on both and produces
the same byte sequence, then they have the same kind and equal nonce, gas limit, chain id,
recipient bytes, value bytes, data bytes, and gas price (legacy, EIP-2930) or the two fee
fields (EIP-1559). A legacy encoding starts with a byte `>= 0xc0`, an EIP-2930 one with
`0x01` and an EIP-1559 one with `0x02`. -/
theorem C29_unsigned_encoding_injective (tx1 tx2 : eth_transaction_t)
    (buf1 buf2 b1 b2 : List Nat) (size1 size2 out1 out2 n1 n2 : Nat)
    (hv1 : tx1.valid) (hv2 : tx2.valid)
    (hb1 : size1 ≤ buf1.length) (hb2 : size2 ≤ buf2.length)
    (hM1 : size1 + (tx_ref_encoding tx1 false).length < SIZE_MOD)
    (hM2 : size2 + (tx_ref_encoding tx2 false).length < SIZE_MOD)
    (h1 : eth_tx_encode (some tx1) (some buf1) size1 (some out1)
      = (TX_ERROR_NONE, some b1, some n1))
    (h2 : eth_tx_encode (some tx2) (some buf2) size2 (some out2)
      = (TX_ERROR_NONE, some b2, some n2))
    (hsame : b1.take n1 = b2.take n2) :
    tx1.tx_type = tx2.tx_type ∧ tx1.nonce = tx2.nonce ∧ tx1.gas_limit = tx2.gas_limit ∧
    tx1.chain_id = tx2.chain_id ∧
    tx1.to_.take tx1.to_len = tx2.to_.take tx2.to_len ∧
    tx1.value.take tx1.value_len = tx2.value.take tx2.value_len ∧
    tx1.data_bytes = tx2.data_bytes ∧
    (tx1.tx_type = ETH_EIP1559_TX →
      tx1.max_priority_fee.take tx1.max_priority_fee_len
        = tx2.max_priority_fee.take tx2.max_priority_fee_len ∧
      tx1.max_fee.take tx1.max_fee_len = tx2.max_fee.take tx2.max_fee_len) ∧
    (tx1.tx_type ≠ ETH_EIP1559_TX →
      tx1.gas_price.take tx1.gas_price_len = tx2.gas_price.take tx2.gas_price_len) ∧
    (tx1.tx_type = ETH_LEGACY_TX → 0xc0 ≤ (b1.take n1).headD 0) ∧
    (tx1.tx_type = ETH_EIP2930_TX → (b1.take n1).headD 0 = 0x01) ∧
    (tx1.tx_type = ETH_EIP1559_TX → (b1.take n1).headD 0 = 0x02) := by
  obtain ⟨ht1, e1⟩ := encode_success_bytes tx1 buf1 b1 size1 out1 n1 hv1 hb1 hM1 h1
  obtain ⟨ht2, e2⟩ := encode_success_bytes tx2 buf2 b2 size2 out2 n2 hv2 hb2 hM2 h2
  have hinj := ref_encoding_inj tx1 tx2 ht1 ht2 (by rw [← e1, ← e2, hsame])
  have hh := ref_encoding_head tx1 false
  rw [← e1] at hh
  obtain ⟨i1, i2, i3, i4, i5, i6, i7, i8, i9⟩ := hinj
  refine ⟨i1, i2, i3, i4, i5, i6, i7, i8, i9, ?_, hh.1, hh.2.1⟩
  intro hl
  exact hh.2.2 (by rw [hl]; decide) (by rw [hl]; decide)

theorem C29_unsigned_encoding_injective_witness :
    sample_legacy_tx.tx_type = signed_sample_tx.tx_type ∧
    sample_legacy_tx.nonce = signed_sample_tx.nonce ∧
    sample_legacy_tx.gas_limit = signed_sample_tx.gas_limit ∧
    sample_legacy_tx.chain_id = signed_sample_tx.chain_id ∧
    sample_legacy_tx.to_.take sample_legacy_tx.to_len
      = signed_sample_tx.to_.take signed_sample_tx.to_len ∧
    sample_legacy_tx.value.take sample_legacy_tx.value_len
      = signed_sample_tx.value.take signed_sample_tx.value_len ∧
    sample_legacy_tx.data_bytes = signed_sample_tx.data_bytes ∧
    (sample_legacy_tx.tx_type = ETH_EIP1559_TX →
      sample_legacy_tx.max_priority_fee.take sample_legacy_tx.max_priority_fee_len
        = signed_sample_tx.max_priority_fee.take signed_sample_tx.max_priority_fee_len ∧
      sample_legacy_tx.max_fee.take sample_legacy_tx.max_fee_len
        = signed_sample_tx.max_fee.take signed_sample_tx.max_fee_len) ∧
    (sample_legacy_tx.tx_type ≠ ETH_EIP1559_TX →
      sample_legacy_tx.gas_price.take sample_legacy_tx.gas_price_len
        = signed_sample_tx.gas_price.take signed_sample_tx.gas_price_len) ∧
    (sample_legacy_tx.tx_type = ETH_LEGACY_TX →
      0xc0 ≤ (((eth_tx_encode (some sample_legacy_tx) (some (List.replicate 36 0)) 36
        (some 0)).2.1.getD []).take 36).headD 0) ∧
    (sample_legacy_tx.tx_type = ETH_EIP2930_TX →
      (((eth_tx_encode (some sample_legacy_tx) (some (List.replicate 36 0)) 36
        (some 0)).2.1.getD []).take 36).headD 0 = 0x01) ∧
    (sample_legacy_tx.tx_type = ETH_EIP1559_TX →
      (((eth_tx_encode (some sample_legacy_tx) (some (List.replicate 36 0)) 36
        (some 0)).2.1.getD []).take 36).headD 0 = 0x02) :=
  C29_unsigned_encoding_injective sample_legacy_tx signed_sample_tx
    (List.replicate 36 0) (List.replicate 40 9)
    ((eth_tx_encode (some sample_legacy_tx) (some (List.replicate 36 0)) 36 (some 0)).2.1.getD [])
    ((eth_tx_encode (some signed_sample_tx) (some (List.replicate 40 9)) 40 (some 5)).2.1.getD [])
    36 40 0 5 36 36 (by decide) (by decide) (by decide) (by decide) (by decide) (by decide)
    (by decide) (by decide) (by decide)

theorem tx_hash_code (tx : eth_transaction_t) (hash0 : eth_hash_t) (stack : List Nat) :
    (eth_tx_hash (some tx) (some hash0) stack).1 = 0 ↔
      (eth_tx_encode (some tx) (some stack) 1024 (some 0)).1 = 0 := by
  unfold eth_tx_hash
  simp only []
  by_cases h : (eth_tx_encode (some tx) (some stack) 1024 (some 0)).1 ≠ 0
  · rw [if_pos h]
  · rw [if_neg h]
    have h0 : (eth_tx_encode (some tx) (some stack) 1024 (some 0)).1 = 0 := by
      by_contra hc; exact h hc
    refine ⟨fun _ => h0, fun _ => ?_⟩
    have hb : ∃ b, (eth_tx_encode (some tx) (some stack) 1024 (some 0)).2.1 = some b := by
      unfold eth_tx_encode
      rw [eth_tx_encode_with_eq false tx stack 1024 0 (by decide)]
      generalize (check
          (if tx.tx_type = ETH_EIP2930_TX then rlp_encode_byte ⟨stack, 1024, 0⟩ 0x01
           else if tx.tx_type = ETH_EIP1559_TX then rlp_encode_byte ⟨stack, 1024, 0⟩ 0x02
           else (0, ⟨stack, 1024, 0⟩))
          fun e1 => encode_tx_by_type tx e1 false) = r
      by_cases hc : r.1 ≠ 0
      · rw [if_pos hc]; exact ⟨_, rfl⟩
      · rw [if_neg hc]; exact ⟨_, rfl⟩
    obtain ⟨b, hb⟩ := hb
    rw [hb]
    obtain ⟨d, hd⟩ := eth_keccak256_ok b
      ((eth_tx_encode (some tx) (some stack) 1024 (some 0)).2.2.getD 0)
    rw [hd]

theorem tx_hash_fail (tx : eth_transaction_t) (hash0 : eth_hash_t) (stack : List Nat)
    (h : (eth_tx_hash (some tx) (some hash0) stack).1 ≠ 0) :
    (eth_tx_hash (some tx) (some hash0) stack).2 = some hash0 := by
  have hne : (eth_tx_encode (some tx) (some stack) 1024 (some 0)).1 ≠ 0 :=
    fun hc => h ((tx_hash_code tx hash0 stack).2 hc)
  unfold eth_tx_hash
  simp only []
  rw [if_pos hne]

theorem tx_sign_code (tx : eth_transaction_t) (key : eth_private_key_t) (stack : List Nat) :
    (eth_tx_sign (some tx) (some key) stack).1 = 0 ↔
      (eth_tx_hash (some tx) (some { data := List.replicate 32 0 }) stack).1 = 0 := by
  constructor
  · exact sign_success_hash tx key stack
  · intro h
    obtain ⟨d, hd⟩ := tx_hash_some tx _ stack h
    obtain ⟨sg, hsg, _⟩ := eth_sign_some d key { data := List.replicate 64 0 }
    rw [eth_tx_sign_ok tx key stack d sg hd hsg]

theorem tx_sign_fail (tx : eth_transaction_t) (key : eth_private_key_t) (stack : List Nat)
    (h : (eth_tx_sign (some tx) (some key) stack).1 ≠ 0) :
    (eth_tx_sign (some tx) (some key) stack).2 = some tx := by
  have hne : (eth_tx_hash (some tx) (some { data := List.replicate 32 0 }) stack).1 ≠ 0 :=
    fun hc => h ((tx_sign_code tx key stack).2 hc)
  unfold eth_tx_sign
  simp only []
  rw [if_pos hne]

/-- C31: signing size limit. `eth_tx_hash` and `eth_tx_sign` encode into an internal
1024-byte buffer: for every valid transaction of a supported kind (encoding and internal
buffer together within the 64-bit address space) each of them succeeds if and only if the
unsigned encoding is at most 1024 bytes long. When the encoding is longer they return an
error, `eth_tx_hash` leaves the hash and `eth_tx_sign` leaves the transaction (so `v`, `r`,
`s`) unchanged, while `eth_tx_encode` succeeds on the same transaction in every caller buffer
that is large enough. -/
theorem C31_signing_size_limit (tx : eth_transaction_t) (key : eth_private_key_t)
    (hash0 : eth_hash_t) (stack buffer : List Nat) (buffer_size out : Nat) (hv : tx.valid)
    (ht : tx.tx_type = ETH_LEGACY_TX ∨ tx.tx_type = ETH_EIP2930_TX ∨ tx.tx_type = ETH_EIP1559_TX)
    (hs : stack.length = 1024)
    (hM : 1024 + (tx_ref_encoding tx false).length < SIZE_MOD) :
    ((eth_tx_hash (some tx) (some hash0) stack).1 = TX_ERROR_NONE
      ↔ (tx_ref_encoding tx false).length ≤ 1024) ∧
    ((eth_tx_sign (some tx) (some key) stack).1 = TX_ERROR_NONE
      ↔ (tx_ref_encoding tx false).length ≤ 1024) ∧
    (1024 < (tx_ref_encoding tx false).length →
      (eth_tx_hash (some tx) (some hash0) stack).1 ≠ TX_ERROR_NONE ∧
      (eth_tx_hash (some tx) (some hash0) stack).2 = some hash0 ∧
      (eth_tx_sign (some tx) (some key) stack).1 ≠ TX_ERROR_NONE ∧
      (eth_tx_sign (some tx) (some key) stack).2 = some tx ∧
      (buffer_size ≤ buffer.length → buffer_size < SIZE_MOD →
        (tx_ref_encoding tx false).length ≤ buffer_size →
        (eth_tx_encode (some tx) (some buffer) buffer_size (some out)).1 = TX_ERROR_NONE ∧
        (eth_tx_encode (some tx) (some buffer) buffer_size (some out)).2.2
          = some (tx_ref_encoding tx false).length)) := by
  have hcap := (encode_with_capacity false tx stack 1024 0 hv ht (by omega) hM).1
  have hhash : ∀ h0 : eth_hash_t, (eth_tx_hash (some tx) (some h0) stack).1 = TX_ERROR_NONE
      ↔ (tx_ref_encoding tx false).length ≤ 1024 :=
    fun h0 => (tx_hash_code tx h0 stack).trans hcap
  have hsign : (eth_tx_sign (some tx) (some key) stack).1 = TX_ERROR_NONE
      ↔ (tx_ref_encoding tx false).length ≤ 1024 :=
    (tx_sign_code tx key stack).trans (hhash _)
  refine ⟨hhash hash0, hsign, ?_⟩
  intro hlong
  have h1 : (eth_tx_hash (some tx) (some hash0) stack).1 ≠ TX_ERROR_NONE :=
    fun hc => by have := (hhash hash0).1 hc; omega
  have h2 : (eth_tx_sign (some tx) (some key) stack).1 ≠ TX_ERROR_NONE :=
    fun hc => by have := hsign.1 hc; omega
  refine ⟨h1, tx_hash_fail tx hash0 stack h1, h2, tx_sign_fail tx key stack h2, ?_⟩
  intro hb hsz hroom
  have hpos := ref_encoding_pos tx false
  obtain ⟨b, hb1, _, _⟩ := (eth_tx_encode_with_spec false tx buffer buffer_size out hv ht
    (by omega) hb hsz).1 hroom
  unfold eth_tx_encode
  rw [hb1]
  exact ⟨rfl, rfl⟩

set_option maxRecDepth 100000 in
theorem C31_signing_size_limit_witness :
    (1024 < (tx_ref_encoding calldata_1024_tx false).length) ∧
    (eth_tx_hash (some calldata_1024_tx) (some { data := List.replicate 32 0 })
      (List.replicate 1024 0)).1 ≠ TX_ERROR_NONE ∧
    (eth_tx_hash (some calldata_1024_tx) (some { data := List.replicate 32 0 })
      (List.replicate 1024 0)).2 = some { data := List.replicate 32 0 } ∧
    (eth_tx_sign (some calldata_1024_tx) (some sample_private_key)
      (List.replicate 1024 0)).1 ≠ TX_ERROR_NONE ∧
    (eth_tx_sign (some calldata_1024_tx) (some sample_private_key)
      (List.replicate 1024 0)).2 = some calldata_1024_tx ∧
    (eth_tx_encode (some calldata_1024_tx) (some (List.replicate 2048 0)) 2048
      (some 0)).1 = TX_ERROR_NONE ∧
    (eth_tx_encode (some calldata_1024_tx) (some (List.replicate 2048 0)) 2048
      (some 0)).2.2 = some (tx_ref_encoding calldata_1024_tx false).length ∧
    ((eth_tx_sign (some sample_legacy_tx) (some sample_private_key)
        (List.replicate 1024 0)).1 = TX_ERROR_NONE
      ↔ (tx_ref_encoding sample_legacy_tx false).length ≤ 1024) :=
  have h := (C31_signing_size_limit calldata_1024_tx sample_private_key
    { data := List.replicate 32 0 } (List.replicate 1024 0) (List.replicate 2048 0) 2048 0
    (by decide) (by decide) (List.length_replicate 1024 0) (by decide)).2.2 (by decide)
  ⟨by decide, h.1, h.2.1, h.2.2.1, h.2.2.2.1,
    (h.2.2.2.2 (le_of_eq (List.length_replicate 2048 0).symm) (by decide) (by decide)).1,
    (h.2.2.2.2 (le_of_eq (List.length_replicate 2048 0).symm) (by decide) (by decide)).2,
    (C31_signing_size_limit sample_legacy_tx sample_private_key
      { data := List.replicate 32 0 } (List.replicate 1024 0) (List.replicate 40 0) 40 0
      (by decide) (by decide) (List.length_replicate 1024 0) (by decide)).2.1⟩

theorem frame_refl (e : rlp_encoder_t) (h : e.length ≤ e.buffer_size) : Frame e e :=
  ⟨rfl, rfl, le_refl _, h, rfl⟩

theorem frame_trans {e e1 e2 : rlp_encoder_t} (h1 : Frame e e1) (h2 : Frame e1 e2) :
    Frame e e2 := by
  obtain ⟨a1, a2, a3, a4, a5⟩ := h1
  obtain ⟨b1, b2, b3, b4, b5⟩ := h2
  refine ⟨by omega, by omega, by omega, b4, ?_⟩
  have := congrArg (List.take e.length) b5
  rw [List.take_take, List.take_take, Nat.min_eq_left a3] at this
  rw [this, a5]

theorem frame_wf {e e2 : rlp_encoder_t} (hw : e.wf) (h : Frame e e2) : e2.wf := by
  obtain ⟨a1, a2, a3, a4, a5⟩ := h
  obtain ⟨w1, w2, w3⟩ := hw
  exact ⟨a4, by omega, by omega⟩

theorem frame_insert_byte (e : rlp_encoder_t) (b : Nat) (hw : e.wf)
    (hsz : e.buffer_size + 1 < SIZE_MOD) : Frame e (rlp_insert_byte e b).2 := by
  obtain ⟨w1, w2, w3⟩ := hw
  unfold rlp_insert_byte
  rw [Nat.mod_eq_of_lt (show e.length + 1 < SIZE_MOD by omega)]
  split
  · exact frame_refl e w1
  · rename_i hc
    refine ⟨rfl, by simp, by simp, by simp only []; omega, ?_⟩
    show (e.buffer.set e.length b).take e.length = e.buffer.take e.length
    rw [List.set_eq_take_append_cons_drop, if_pos (by omega)]
    exact List.take_left' (by simp; omega)

theorem memcpy_take_below (dst src : List Nat) (off n m : Nat) (h : m ≤ off)
    (hl : off ≤ dst.length) : (memcpy dst off src n).take m = dst.take m := by
  unfold memcpy
  rw [List.append_assoc, List.take_append_of_le_length (by simp; omega), List.take_take,
    Nat.min_eq_left h]

theorem memcpy_length (dst src : List Nat) (off n : Nat) (h : off + n ≤ dst.length)
    (hn : n ≤ src.length) : (memcpy dst off src n).length = dst.length := by
  unfold memcpy
  simp
  omega

theorem frame_insert (e : rlp_encoder_t) (d : List Nat) (n : Nat) (hw : e.wf)
    (hn : n ≤ d.length) (hsz : e.buffer_size + n < SIZE_MOD) :
    Frame e (rlp_insert e d n).2 := by
  obtain ⟨w1, w2, w3⟩ := hw
  unfold rlp_insert
  rw [Nat.mod_eq_of_lt (show e.length + n < SIZE_MOD by omega)]
  split
  · exact frame_refl e w1
  · rename_i hc
    refine ⟨rfl, ?_, by simp, by simp only []; omega, ?_⟩
    · exact memcpy_length e.buffer d e.length n (by omega) hn
    · exact memcpy_take_below e.buffer d e.length n e.length (le_refl _) (by omega)

theorem frame_write_length_prefix_ok (e : rlp_encoder_t) (n base : Nat) (hw : e.wf)
    (hn : n < SIZE_MOD) (hsz : e.buffer_size + 8 < SIZE_MOD) :
    Frame e ( rlp_write_length_prefix e n base).2 := by
  unfold rlp_write_length_prefix
  by_cases h : n < 56
  · rw [if_pos h]
    exact frame_insert_byte e _ hw (by omega)
  · rw [if_neg h]
    simp only []
    have hk := be_minimal_length_le n hn
    rw [be_in_place n (by omega) hn, le_bytes_loop_length n (by omega) hn]
    have f1 := frame_insert_byte e ((base + 55 + (be_minimal n).length) % 256) hw (by omega)
    split
    · exact f1
    · exact frame_trans f1
        (frame_insert _ (be_minimal n) (be_minimal n).length (frame_wf hw f1) (le_refl _)
          (by rw [f1.1]; omega))

theorem frame_encode_byte (e : rlp_encoder_t) (v : Nat) (hw : e.wf)
    (hsz : e.buffer_size + 1 < SIZE_MOD) : Frame e (rlp_encode_byte e v).2 := by
  unfold rlp_encode_byte
  split
  · exact frame_insert_byte e _ hw hsz
  · split
    · exact frame_insert_byte e _ hw hsz
    · simp only []
      have f1 := frame_insert_byte e (RLP_SHORT_STRING_PREFIX + 1) hw hsz
      split
      · exact f1
      · exact frame_trans f1 (frame_insert_byte _ v (frame_wf hw f1) (by rw [f1.1]; exact hsz))

theorem frame_encode_bytes (e : rlp_encoder_t) (data : Option (List Nat)) (n : Nat)
    (hw : e.wf) (hd : ∀ d, data = some d → n ≤ d.length)
    (hsz : e.buffer_size + n + 8 < SIZE_MOD) : Frame e (rlp_encode_bytes e data n).2 := by
  unfold rlp_encode_bytes
  cases data with
  | none =>
    simp only []
    split
    · exact frame_refl e hw.1
    · exact frame_insert_byte e _ hw (by omega)
  | some d =>
    simp only []
    have hn := hd d rfl
    split
    · exact frame_insert_byte e _ hw (by omega)
    · split
      · exact frame_insert_byte e _ hw (by omega)
      · have f1 := frame_write_length_prefix_ok e n RLP_SHORT_STRING_PREFIX hw (by omega)
          (by omega)
        split
        · exact f1
        · exact frame_trans f1 (frame_insert _ d n (frame_wf hw f1) hn (by rw [f1.1]; omega))

theorem frame_encode_uint (e : rlp_encoder_t) (v : Nat) (hw : e.wf) (hv : v < SIZE_MOD)
    (hsz : e.buffer_size + 16 < SIZE_MOD) : Frame e (rlp_encode_uint e v).2 := by
  unfold rlp_encode_uint
  split
  · exact frame_insert_byte e _ hw (by omega)
  · rename_i h0
    simp only []
    have hk := be_minimal_length_le v hv
    rw [be_copy v (by omega) hv, le_bytes_loop_length v (by omega) hv]
    exact frame_encode_bytes e _ _ hw (fun d hd => by cases hd; exact le_refl _) (by omega)

theorem end_list_below (e : rlp_encoder_t) (m : Nat) (hw : e.wf) :
    (rlp_end_list e m).2.buffer.take m = e.buffer.take m := by
  obtain ⟨w1, w2, w3⟩ := hw
  unfold rlp_end_list
  split
  · rfl
  · rename_i hm
    simp only []
    split
    · show (e.buffer.set m _).take m = e.buffer.take m
      rw [List.set_eq_take_append_cons_drop, if_pos (by omega)]
      exact List.take_left' (by simp; omega)
    · split
      · rfl
      · simp only []
        have hl1 : m + 1 ≤ (memcpy e.buffer
            (m + 1 + (le_bytes_loop 8 (e.length - m - 1)).length)
            (e.buffer.drop (m + 1)) (e.length - m - 1)).length := by
          unfold memcpy
          simp
          omega
        rw [memcpy_take_below _ _ (m + 1) _ m (by omega) (by rw [List.length_set]; exact hl1),
          List.set_eq_take_append_cons_drop, if_pos (by omega),
          List.take_left' (by simp; omega)]
        unfold memcpy
        rw [List.append_assoc, List.take_append_of_le_length (by simp; omega), List.take_take,
          Nat.min_eq_left (by omega)]



theorem frame_bytes {e e2 : rlp_encoder_t} (h : Frame e e2) (i : Nat) (hi : i < e.length) :
    e2.buffer.getD i 0 = e.buffer.getD i 0 := by
  rw [← getD_take_lt e2.buffer e.length i hi, ← getD_take_lt e.buffer e.length i hi, h.2.2.2.2]

/-- C32: append-only frame. For every well-formed encoder state with cursor `c` (data that
really holds `n` bytes, capacity and data together within the 64-bit address space), each of
`rlp_encode_byte`, `rlp_encode_bytes`, `rlp_encode_uint` and `rlp_begin_list`, whether it
succeeds or fails, leaves every buffer byte at an offset below `c` unchanged and does not
decrease the cursor; `rlp_begin_list` stores the marker `c`, and on success it advances the
cursor by one and changes the buffer only by writing the placeholder byte `0xc0` at offset
`c`; `rlp_end_list(m)`, for every `m`, leaves every byte at an offset below `m` unchanged. -/
theorem C32_append_only_frame (e : rlp_encoder_t) (v n u m : Nat) (data : Option (List Nat))
    (hw : e.wf) (hd : ∀ d, data = some d → n ≤ d.length) (hu : u < SIZE_MOD)
    (hsz : e.buffer_size + n + 16 < SIZE_MOD) :
    ((∀ i, i < e.length → (rlp_encode_byte e v).2.buffer.getD i 0 = e.buffer.getD i 0) ∧
      e.length ≤ (rlp_encode_byte e v).2.length) ∧
    ((∀ i, i < e.length → (rlp_encode_bytes e data n).2.buffer.getD i 0 = e.buffer.getD i 0) ∧
      e.length ≤ (rlp_encode_bytes e data n).2.length) ∧
    ((∀ i, i < e.length → (rlp_encode_uint e u).2.buffer.getD i 0 = e.buffer.getD i 0) ∧
      e.length ≤ (rlp_encode_uint e u).2.length) ∧
    ((∀ i, i < e.length → (rlp_begin_list e).2.1.buffer.getD i 0 = e.buffer.getD i 0) ∧
      e.length ≤ (rlp_begin_list e).2.1.length) ∧
    (rlp_begin_list e).2.2 = e.length ∧
    ((rlp_begin_list e).1 = RLP_ERROR_NONE →
      (rlp_begin_list e).2.1.length = e.length + 1 ∧
      (rlp_begin_list e).2.1.buffer = e.buffer.set e.length 0xc0 ∧
      (rlp_begin_list e).2.1.buffer.getD e.length 0 = 0xc0) ∧
    (∀ i, i < m → (rlp_end_list e m).2.buffer.getD i 0 = e.buffer.getD i 0) := by
  have f1 := frame_encode_byte e v hw (by omega)
  have f2 := frame_encode_bytes e data n hw hd (by omega)
  have f3 := frame_encode_uint e u hw hu (by omega)
  have f4 : Frame e (rlp_begin_list e).2.1 := frame_insert_byte e _ hw (by omega)
  refine ⟨⟨frame_bytes f1, f1.2.2.1⟩, ⟨frame_bytes f2, f2.2.2.1⟩, ⟨frame_bytes f3, f3.2.2.1⟩,
    ⟨frame_bytes f4, f4.2.2.1⟩, rfl, ?_, ?_⟩
  · intro h0
    obtain ⟨w1, w2, w3⟩ := hw
    unfold rlp_begin_list rlp_insert_byte at h0 ⊢
    simp only [] at h0 ⊢
    rw [Nat.mod_eq_of_lt (show e.length + 1 < SIZE_MOD by omega)] at h0 ⊢
    by_cases hc : e.length + 1 > e.buffer_size
    · rw [if_pos hc] at h0
      simp at h0
    · rw [if_neg hc]
      refine ⟨rfl, rfl, ?_⟩
      show (e.buffer.set e.length 0xc0).getD e.length 0 = 0xc0
      have hlt : e.length < e.buffer.length := by omega
      simp [List.getD_eq_getElem?_getD, List.getElem?_set, hlt]
  · intro i hi
    rw [← getD_take_lt (rlp_end_list e m).2.buffer m i hi, ← getD_take_lt e.buffer m i hi,
      end_list_below e m hw]

theorem C32_append_only_frame_witness :
    ((∀ i, i < 3 → (rlp_encode_byte ⟨[1, 2, 3, 0, 0, 0, 0, 0], 8, 3⟩ 0x90).2.buffer.getD i 0
        = [1, 2, 3, 0, 0, 0, 0, 0].getD i 0) ∧
      3 ≤ (rlp_encode_byte ⟨[1, 2, 3, 0, 0, 0, 0, 0], 8, 3⟩ 0x90).2.length) ∧
    (rlp_begin_list ⟨[1, 2, 3, 0, 0, 0, 0, 0], 8, 3⟩).2.2 = 3 ∧
    (rlp_begin_list ⟨[1, 2, 3, 0, 0, 0, 0, 0], 8, 3⟩).2.1.buffer
      = [1, 2, 3, 0xc0, 0, 0, 0, 0] ∧
    (∀ i, i < 1 → (rlp_end_list ⟨[1, 2, 3, 0, 0, 0, 0, 0], 8, 3⟩ 1).2.buffer.getD i 0
      = [1, 2, 3, 0, 0, 0, 0, 0].getD i 0) :=
  have h := C32_append_only_frame ⟨[1, 2, 3, 0, 0, 0, 0, 0], 8, 3⟩ 0x90 3 1024 1
    (some [0x64, 0x6f, 0x67]) (by decide) (fun d hd => by cases hd; decide) (by decide)
    (by decide)
  ⟨h.1, h.2.2.2.2.1, (h.2.2.2.2.2.1 (by decide)).2.1, h.2.2.2.2.2.2⟩

theorem le_bytes_loop_zero (fuel : Nat) : le_bytes_loop (fuel + 1) 0 = [0] := by
  simp [le_bytes_loop]

theorem le_bytes_loop_fuel (v fuel : Nat) (hv : v < SIZE_MOD) (hf : 8 ≤ fuel) :
    le_bytes_loop fuel v = le_bytes_loop 8 v := by
  by_cases h0 : v = 0
  · subst h0
    obtain ⟨f, rfl⟩ : ∃ f, fuel = f + 1 := ⟨fuel - 1, by omega⟩
    rw [le_bytes_loop_zero, le_bytes_loop_zero]
  · have h8 : v < 256 ^ 8 := by simpa using hv
    have hfu : v < 256 ^ fuel := lt_of_lt_of_le h8 (Nat.pow_le_pow_right (by norm_num) hf)
    rw [le_bytes_loop_eq_digits fuel v (by omega) hfu, le_bytes_loop_eq_digits 8 v (by omega) h8]

/-- C33: the length-to-big-endian conversion loop of `rlp_write_length_prefix`,
`rlp_end_list` and `rlp_encode_uint` terminates for every 64-bit input (it stops by its own
condition within 8 iterations: more iterations allowed change nothing) and produces `k` bytes
with `1 <= k <= 8`, so every index into the 8-byte arrays is below 8; `k` is the least
positive number with `value < 256^k`; both reversal loops yield the reversed byte list, which
is the big-endian representation of the value (bytes below 256 that decode to the value; for
a non-zero value the minimal big-endian digits); and the prefix bytes `0xb7 + k` and
`0xf7 + k` are at most `0xbf` and `0xff`, so the byte arithmetic does not wrap. -/
theorem C33_length_bytes_loop (v : Nat) (hv : v < SIZE_MOD) :
    (∀ fuel, 8 ≤ fuel → le_bytes_loop fuel v = le_bytes_loop 8 v) ∧
    1 ≤ (le_bytes_loop 8 v).length ∧ (le_bytes_loop 8 v).length ≤ 8 ∧
    v < 256 ^ (le_bytes_loop 8 v).length ∧
    (∀ j, 1 ≤ j → v < 256 ^ j → (le_bytes_loop 8 v).length ≤ j) ∧
    reverse_in_place (le_bytes_loop 8 v) (le_bytes_loop 8 v).length
      = (le_bytes_loop 8 v).reverse ∧
    reverse_copy (le_bytes_loop 8 v) (le_bytes_loop 8 v).length
      = (le_bytes_loop 8 v).reverse ∧
    be_decode (le_bytes_loop 8 v).reverse = v ∧
    (∀ x ∈ (le_bytes_loop 8 v).reverse, x < 256) ∧
    (0 < v → (le_bytes_loop 8 v).reverse = be_minimal v ∧
      (le_bytes_loop 8 v).reverse = (Nat.digits 256 v).reverse ∧
      (le_bytes_loop 8 v).reverse.head? ≠ some 0) ∧
    RLP_LONG_STRING_PREFIX + (le_bytes_loop 8 v).length ≤ 0xbf ∧
    RLP_LONG_LIST_PREFIX + (le_bytes_loop 8 v).length ≤ 0xff ∧
    (RLP_SHORT_STRING_PREFIX + 55 + (le_bytes_loop 8 v).length) % 256
      = 0xb7 + (le_bytes_loop 8 v).length ∧
    (RLP_LONG_LIST_PREFIX + (le_bytes_loop 8 v).length) % 256
      = 0xf7 + (le_bytes_loop 8 v).length := by
  have hle := le_bytes_loop_length_le 8 v
  have hfuel : ∀ fuel, 8 ≤ fuel → le_bytes_loop fuel v = le_bytes_loop 8 v :=
    fun fuel hf => le_bytes_loop_fuel v fuel hv hf
  have hrev1 := reverse_in_place_eq (le_bytes_loop 8 v) hle
  have hrev2 := reverse_copy_eq (le_bytes_loop 8 v) hle
  have hpre : ∀ k, k ≤ 8 →
      RLP_LONG_STRING_PREFIX + k ≤ 0xbf ∧ RLP_LONG_LIST_PREFIX + k ≤ 0xff ∧
      (RLP_SHORT_STRING_PREFIX + 55 + k) % 256 = 0xb7 + k ∧
      (RLP_LONG_LIST_PREFIX + k) % 256 = 0xf7 + k := by
    intro k hk
    show 0xb7 + k ≤ 0xbf ∧ 0xf7 + k ≤ 0xff ∧ (0x80 + 55 + k) % 256 = 0xb7 + k ∧
      (0xf7 + k) % 256 = 0xf7 + k
    omega
  by_cases h0 : v = 0
  · subst h0
    rw [le_bytes_loop_zero] at hrev1 hrev2 ⊢
    refine ⟨fun fuel hf => by rw [hfuel fuel hf, le_bytes_loop_zero], by decide, by decide,
      by decide, fun j hj _ => by simpa using hj, hrev1, hrev2, by decide, by decide,
      fun h => absurd h (by decide), by decide, by decide, by decide, by decide⟩
  · have hpos : 0 < v := by omega
    have hlen := le_bytes_loop_length v hpos hv
    have hb := be_minimal_length_bounds v h0
    rw [← hlen] at hb
    have hdig : le_bytes_loop 8 v = Nat.digits 256 v :=
      le_bytes_loop_eq_digits 8 v hpos (by simpa using hv)
    have hmin : (le_bytes_loop 8 v).reverse = be_minimal v := by
      rw [hdig, be_minimal_eq_digits]
    obtain ⟨p1, p2, p3, p4⟩ := hpre (le_bytes_loop 8 v).length hle
    refine ⟨hfuel, hb.1, hle, hb.2.2, ?_, hrev1, hrev2, ?_, ?_, ?_, p1, p2, p3, p4⟩
    · intro j hj hlt
      by_contra hc
      have h1 : j ≤ (le_bytes_loop 8 v).length - 1 := by omega
      have h2 : 256 ^ j ≤ 256 ^ ((le_bytes_loop 8 v).length - 1) :=
        Nat.pow_le_pow_right (by norm_num) h1
      have := hb.2.1
      omega
    · rw [hmin, be_decode_be_minimal]
    · rw [hmin]; exact be_minimal_lt_256 v
    · intro _
      refine ⟨hmin, by rw [hdig], ?_⟩
      rw [hmin]
      obtain ⟨hd, tl, e1, e2⟩ := be_minimal_head_ne_zero v h0
      rw [e1]
      simpa using e2

theorem C33_length_bytes_loop_witness :
    le_bytes_loop 8 1024 = [0, 4] ∧
    (le_bytes_loop 8 1024).reverse = be_minimal 1024 ∧
    be_decode (le_bytes_loop 8 1024).reverse = 1024 ∧
    reverse_in_place (le_bytes_loop 8 1024) (le_bytes_loop 8 1024).length
      = (le_bytes_loop 8 1024).reverse ∧
    (∀ j, 1 ≤ j → 1024 < 256 ^ j → (le_bytes_loop 8 1024).length ≤ j) ∧
    RLP_LONG_LIST_PREFIX + (le_bytes_loop 8 1024).length ≤ 0xff :=
  have h := C33_length_bytes_loop 1024 (by decide)
  ⟨by decide, (h.2.2.2.2.2.2.2.2.2.1 (by decide)).1, h.2.2.2.2.2.2.2.1, h.2.2.2.2.2.1,
    h.2.2.2.2.1, h.2.2.2.2.2.2.2.2.2.2.2.1⟩

end EthSigner
